import Mathlib

/-! ## Audit log: session index, chunk and event retrieval, download coordination

A shallow embedding of `lib/events/auditlog.go`.  Go functions become Lean
functions of the same name; `(value, error)` results become `Except Error value`;
loops become recursive functions whose counter is the loop variable.  Reads of
the disk are taken from an explicit environment, writes thread an explicit state.
-/

namespace Teleport

/-! ## Errors -/

/-- The error values the audit log distinguishes.  `wrapped` is the result of
`trace.Wrap`, which keeps the inner error reachable.  `panic` is not a returned
value: it stands for a run-time panic that unwinds the calling function. -/
inductive Error where
  | eof
  | notFound (msg : String)
  | badParameter (msg : String)
  | notImplemented (msg : String)
  | other (msg : String)
  | wrapped (inner : Error)
  | panic (msg : String)
deriving DecidableEq, Repr

/-- The Go call `trace.Wrap(err)` for a non-nil `err`. -/
def traceWrap (e : Error) : Error := Error.wrapped e

/-- The innermost error below every `trace.Wrap`. -/
def Error.unwrap : Error → Error
  | Error.wrapped e => e.unwrap
  | e => e

/-- The Go call `trace.IsNotFound(err)`: looks through the wrapping. -/
def Error.isNotFound (e : Error) : Bool :=
  match e.unwrap with
  | Error.notFound _ => true
  | _ => false

/-- The Go call `trace.IsBadParameter(err)`. -/
def Error.isBadParameter (e : Error) : Bool :=
  match e.unwrap with
  | Error.badParameter _ => true
  | _ => false

/-- The Go call `trace.IsNotImplemented(err)`. -/
def Error.isNotImplemented (e : Error) : Bool :=
  match e.unwrap with
  | Error.notImplemented _ => true
  | _ => false

/-- How a failure leaves `if err != nil { return nil, trace.Wrap(err) }`: a returned
error is wrapped, a panic passes through as it is. -/
def Error.propagate : Error → Error
  | Error.panic m => Error.panic m
  | e => traceWrap e

/-- Two's complement wrap-around of a 64-bit signed integer (`int`, `int64`). -/
def wrapInt64 (x : Int) : Int := (x + 2 ^ 63) % 2 ^ 64 - 2 ^ 63

/-! ## Session index -/

/-- Modelled from the spec: the `indexEntry` type declaration is not part of the
sources at hand.  One line of a session index file: type, file name, event
index or byte offset, and the origin server the line was read from. -/
structure indexEntry where
  FileName : String
  EntryType : String
  Index : Int
  Offset : Int
  authServer : String
deriving DecidableEq, Repr

/-- Directory name constant `SessionLogsDir`. -/
def SessionLogsDir : String := "sessions"

/-- Directory name constant `PlaybackDir`. -/
def PlaybackDir : String := "playbacks"

/-- The Go struct `sessionIndex`. -/
structure sessionIndex where
  dataDir : String
  ns : String
  sid : String
  events : List indexEntry
  enhancedEvents : List (String × List indexEntry)
  chunks : List indexEntry
  indexFiles : List String
deriving DecidableEq, Repr

section Index

-- The standard library function `filepath.Join`, kept abstract.
variable (filepathJoin : List String → String)

/-- The method `eventsFileName`: path of the event file of entry `index`. -/
def sessionIndex.eventsFileName (idx : sessionIndex) (index : Nat)
    (h : index < idx.events.length) : String :=
  let entry := idx.events.get ⟨index, h⟩
  filepathJoin [idx.dataDir, entry.authServer, SessionLogsDir, idx.ns, entry.FileName]

/-- The method `chunksFileName`: path of the chunk file of entry `index`. -/
def sessionIndex.chunksFileName (idx : sessionIndex) (index : Nat)
    (h : index < idx.chunks.length) : String :=
  let entry := idx.chunks.get ⟨index, h⟩
  filepathJoin [idx.dataDir, entry.authServer, SessionLogsDir, idx.ns, entry.FileName]

/-- The loop of `eventsFile`; the argument `n` is `i + 1` for the loop variable
`i`, so `n = 0` is the loop exit `i < 0`. -/
def sessionIndex.eventsFileLoop (idx : sessionIndex) (afterN : Int) :
    (n : Nat) → n ≤ idx.events.length → Except Error Nat
  | 0, _ => Except.error (Error.notFound s!"{afterN} not found")
  | i + 1, h =>
    let entry := idx.events.get ⟨i, h⟩
    if afterN ≥ entry.Index then Except.ok i
    else sessionIndex.eventsFileLoop idx afterN i (Nat.le_of_succ_le h)

/-- The method `eventsFile`: reverse scan for the last entry with `Index <= afterN`. -/
def sessionIndex.eventsFile (idx : sessionIndex) (afterN : Int) : Except Error Nat :=
  idx.eventsFileLoop afterN idx.events.length (Nat.le_refl _)

/-- The loop of `chunksFile`; `n` is `i + 1` for the loop variable `i`. -/
def sessionIndex.chunksFileLoop (idx : sessionIndex) (offset : Int) :
    (n : Nat) → n ≤ idx.chunks.length → Except Error (String × Int)
  | 0, _ => Except.error (Error.notFound s!"offset {offset} not found for session {idx.sid}")
  | i + 1, h =>
    let entry := idx.chunks.get ⟨i, h⟩
    if offset ≥ entry.Offset then Except.ok (idx.chunksFileName filepathJoin i h, entry.Offset)
    else sessionIndex.chunksFileLoop idx offset i (Nat.le_of_succ_le h)

/-- The method `chunksFile`: reverse scan for the last entry with `Offset <= offset`;
returns the file path and the base offset of that file. -/
def sessionIndex.chunksFile (idx : sessionIndex) (offset : Int) : Except Error (String × Int) :=
  idx.chunksFileLoop filepathJoin offset idx.chunks.length (Nat.le_refl _)

/-- The method `chunkFileNames`: paths of all chunk files in index order. -/
def sessionIndex.chunkFileNames (idx : sessionIndex) : List String :=
  (List.finRange idx.chunks.length).map (fun i => idx.chunksFileName filepathJoin i.1 i.2)

end Index

/-! ## Reading a recording from the disk -/

/-- A byte of a chunk file. -/
abbrev Byte := Nat

/-- A value of an event field: the synthetic cursor is an integer, every other
value is kept as the JSON text it was decoded from. -/
inductive FieldValue where
  | int (n : Int)
  | json (raw : String)
deriving DecidableEq, Repr

/-- The Go type `EventFields`, a map from field name to value. -/
abbrev EventFields := List (String × FieldValue)

/-- Map assignment `fields[key] = value`. -/
def EventFields.set (fields : EventFields) (key : String) (value : FieldValue) : EventFields :=
  (key, value) :: fields.filter (fun kv => kv.1 ≠ key)

/-- Modelled from the spec: the constant `EventCursor` is declared outside the
sources at hand; the spec calls the synthetic field `cursor`. -/
def EventCursor : String := "cursor"

/-- What `os.OpenFile` followed by `gzip.NewReader` and a `bufio.Scanner` find at
the path of an event file: no file, a failure to open, a failure to start
decompression, or the lines the scanner yields. -/
inductive EventFile where
  | notExist
  | openFailed (e : Error)
  | gzipFailed (e : Error)
  | lines (ls : List String)
deriving DecidableEq, Repr

/-- The methods of the pluggable external store that the retrieval path calls. -/
structure ExternalLog where
  GetSessionEvents : String → String → Int → Bool → Except Error (List EventFields)

/-- The collaborators of the retrieval path for one fixed recording: the outcome
of `l.downloadSession`, of `l.readSessionIndex`, of `l.unpackFile` (the bytes of
the decompressed copy), the event files on disk, the decoder `json.Unmarshal`
(`none` is a map left nil by the JSON value `null`), and the external store. -/
structure Recording where
  downloadSession : String → String → Option Error
  readSessionIndex : String → String → Except Error sessionIndex
  unpackFile : String → Except Error (List Byte)
  openEvents : String → EventFile
  jsonUnmarshal : String → Except Error (Option EventFields)
  ExternalLog : Option ExternalLog
  filepathJoin : List String → String

/-- The method `getSessionChunk`: resolve the chunk file of `offsetBytes`, seek to
the position inside it and copy up to `maxBytes` bytes.  `Seek` fails on a
negative position; `io.LimitReader` yields nothing for a limit `<= 0`. -/
def getSessionChunk (r : Recording) (ns sid : String) (offsetBytes maxBytes : Int) :
    Except Error (List Byte) :=
  if ns = "" then Except.error (Error.badParameter "missing parameter namespace")
  else
    match r.readSessionIndex ns sid with
    | Except.error err => Except.error (traceWrap err)
    | Except.ok idx =>
      match idx.chunksFile r.filepathJoin offsetBytes with
      | Except.error err => Except.error (traceWrap err)
      | Except.ok (fileName, fileOffset) =>
        match r.unpackFile fileName with
        | Except.error err => Except.error (traceWrap err)
        | Except.ok reader =>
          let pos := wrapInt64 (offsetBytes - fileOffset)
          if pos < 0 then Except.error (traceWrap (Error.other "seek: invalid argument"))
          else Except.ok ((reader.drop pos.toNat).take maxBytes.toNat)

/-- The `for` loop of `GetSessionChunk`.  `fuel` bounds the number of iterations;
`none` means the bound was reached before the loop returned. -/
def GetSessionChunkLoop (r : Recording) (ns sid : String) :
    Nat → List Byte → Int → Int → Option (Except Error (List Byte))
  | 0, _, _, _ => none
  | fuel + 1, data, offsetBytes, maxBytes =>
    match getSessionChunk r ns sid offsetBytes maxBytes with
    | Except.error err =>
      if err = Error.eof then some (Except.ok data)
      else some (Except.error (traceWrap err))
    | Except.ok out =>
      let data := data ++ out
      if (data.length : Int) = maxBytes ∨ out.length = 0 then some (Except.ok data)
      else GetSessionChunkLoop r ns sid fuel data
        (wrapInt64 (offsetBytes + out.length)) (wrapInt64 (maxBytes - out.length))

/-- The method `GetSessionChunk`: download the session, then run the loop. -/
def GetSessionChunk (r : Recording) (fuel : Nat) (ns sid : String) (offsetBytes maxBytes : Int) :
    Option (Except Error (List Byte)) :=
  match r.downloadSession ns sid with
  | some err => some (Except.error (traceWrap err))
  | none => GetSessionChunkLoop r ns sid fuel [] offsetBytes maxBytes

/-- The scanner loop of `fetchSessionEvents`: `lineNo` counts the lines read so
far, lines below `afterN` are skipped without being decoded, every other line is
decoded and annotated with its line number. -/
def fetchSessionEventsLoop (r : Recording) (afterN : Int) :
    Nat → List String → List EventFields → Except Error (List EventFields)
  | _, [], retval => Except.ok retval
  | lineNo, line :: rest, retval =>
    if (lineNo : Int) < afterN then fetchSessionEventsLoop r afterN (lineNo + 1) rest retval
    else
      match r.jsonUnmarshal line with
      | Except.error err => Except.error (traceWrap err)
      | Except.ok none => Except.error (Error.panic "assignment to entry in nil map")
      | Except.ok (some fields) =>
        fetchSessionEventsLoop r afterN (lineNo + 1) rest
          (retval ++ [fields.set EventCursor (FieldValue.int lineNo)])

/-- The method `fetchSessionEvents`. -/
def fetchSessionEvents (r : Recording) (fileName : String) (afterN : Int) :
    Except Error (List EventFields) :=
  match r.openEvents fileName with
  | EventFile.notExist => Except.ok []
  | EventFile.openFailed err => Except.error (traceWrap err)
  | EventFile.gzipFailed err => Except.error (traceWrap err)
  | EventFile.lines ls => fetchSessionEventsLoop r afterN 0 ls []

/-- The `for i := fileIndex; i < len(idx.events); i++` loop of `GetSessionEvents`;
`k` is the number of iterations left, `len(idx.events) - i`. -/
def GetSessionEventsLoop (r : Recording) (idx : sessionIndex) (fileIndex : Nat) (afterN : Int) :
    (k i : Nat) → i + k = idx.events.length → List EventFields → Except Error (List EventFields)
  | 0, _, _, events => Except.ok events
  | k + 1, i, h, events =>
    let skip : Int := if i = fileIndex then afterN else 0
    match fetchSessionEvents r (idx.eventsFileName r.filepathJoin i (by omega)) skip with
    | Except.error err => Except.error err.propagate
    | Except.ok out => GetSessionEventsLoop r idx fileIndex afterN k (i + 1) (by omega) (events ++ out)

/-- The part of `GetSessionEvents` after the delegation to the external store:
download, read the index, find the floor file, read from it onwards. -/
def GetSessionEventsLocal (r : Recording) (ns sid : String) (afterN : Int) :
    Except Error (List EventFields) :=
  match r.downloadSession ns sid with
  | some err => Except.error (traceWrap err)
  | none =>
    match r.readSessionIndex ns sid with
    | Except.error err => Except.error (traceWrap err)
    | Except.ok idx =>
      match idx.eventsFile afterN with
      | Except.error err => Except.error (traceWrap err)
      | Except.ok fileIndex =>
        if hle : fileIndex ≤ idx.events.length then
          GetSessionEventsLoop r idx fileIndex afterN (idx.events.length - fileIndex) fileIndex
            (by omega) []
        else Except.ok []

/-- The method `GetSessionEvents`. -/
def GetSessionEvents (r : Recording) (ns sid : String) (afterN : Int)
    (includePrintEvents : Bool) : Except Error (List EventFields) :=
  if ns = "" then Except.error (Error.badParameter "missing parameter namespace")
  else
    match (if includePrintEvents then none else r.ExternalLog) with
    | some ext =>
      match ext.GetSessionEvents ns sid afterN includePrintEvents with
      | Except.ok events => Except.ok events
      | Except.error err =>
        if err.isNotImplemented then GetSessionEventsLocal r ns sid afterN
        else Except.error err
    | none => GetSessionEventsLocal r ns sid afterN

/-! ## Download coordination -/

/-- Identity of a context made by `context.WithCancel`. -/
abbrev Ctx := Nat

/-- A step of `downloadSession` that is visible from outside the function. -/
inductive Action where
  | openTarball (path : String)
  | download (sid : String)
  | removeTarball (path : String)
  | seek
  | detectFormat
  | writeForSSHPlayback
  | extract
  | readSessionIndex
  | unpackFile (fileName : String)
  | closeTarball (path : String)
deriving DecidableEq, Repr

/-- The mutable state a download touches: the registry `l.activeDownloads`, the
contexts cancelled so far, the counter that names the next context, the files
present on disk, and the steps performed so far (latest last). -/
structure AuditLogState where
  activeDownloads : List (String × Ctx)
  cancelled : List Ctx
  nextCtx : Ctx
  files : List String
  actions : List Action
deriving DecidableEq, Repr

/-- The state `NewAuditLog` starts from: an empty registry (`make(map...)`). -/
def AuditLogState.init (files : List String) : AuditLogState :=
  { activeDownloads := [], cancelled := [], nextCtx := 0, files := files, actions := [] }

/-- The closure `createOrGetDownload` returns as its second result: it captures
the cancel function of the new context and the path. -/
structure Completion where
  ctx : Ctx
  path : String
deriving DecidableEq, Repr

/-- Calling the closure: `cancel()`, then `delete(l.activeDownloads, path)`. -/
def Completion.run (c : Completion) (s : AuditLogState) : AuditLogState :=
  { s with
    cancelled := c.ctx :: s.cancelled
    activeDownloads := s.activeDownloads.filter (fun e => e.1 ≠ c.path) }

/-- The method `createOrGetDownload`; `none` is the nil completion function. -/
def createOrGetDownload (path : String) (s : AuditLogState) :
    AuditLogState × Ctx × Option Completion :=
  match s.activeDownloads.lookup path with
  | some ctx => (s, ctx, none)
  | none =>
    let ctx := s.nextCtx
    ({ s with nextCtx := s.nextCtx + 1, activeDownloads := (path, ctx) :: s.activeDownloads },
      ctx, some { ctx := ctx, path := path })

/-- A call on the coordinator in a run of the system: a `createOrGetDownload`
for a path, or the invocation of a completion function. -/
inductive Call where
  | createOrGet (path : String)
  | complete (c : Completion)
deriving DecidableEq, Repr

/-- A run of the coordinator: the audit log state and the completion functions
that were returned and not yet invoked. -/
structure Run where
  log : AuditLogState
  outstanding : List Completion
deriving DecidableEq, Repr

/-- One call of a run.  Invoking a completion function that is not outstanding
(never returned, or invoked before) is not a step of a run. -/
def Run.step (m : Run) : Call → Option Run
  | Call.createOrGet path =>
    match createOrGetDownload path m.log with
    | (s, _, none) => some { log := s, outstanding := m.outstanding }
    | (s, _, some c) => some { log := s, outstanding := c :: m.outstanding }
  | Call.complete c =>
    if c ∈ m.outstanding then
      some { log := c.run m.log, outstanding := m.outstanding.erase c }
    else none

/-- A sequence of calls, from left to right. -/
def Run.steps (m : Run) : List Call → Option Run
  | [] => some m
  | c :: cs =>
    match m.step c with
    | some m1 => m1.steps cs
    | none => none

/-- The result of `DetectFormat`. -/
structure Format where
  Proto : Bool
  Tar : Bool
deriving DecidableEq, Repr

/-- Which case of the `select` in the join branch of `downloadSession` fires. -/
inductive JoinSelect where
  | ctxDone
  | logClosing
deriving DecidableEq, Repr

/-- The collaborators of `downloadSession` and what each of them answers: a
fault of `os.Stat`, `os.OpenFile` or `os.Remove` other than a missing file, the
transfer handler, the two `Seek` calls, format detection, conversion,
extraction, the index read, and the unpacking of each chunk file. -/
structure DownloadEnv where
  filepathJoin : List String → String
  playbackDir : String
  statFault : String → Option Error
  openFault : String → Option Error
  removeFault : String → Option Error
  Download : String → Option Error
  seekFault : Nat → Option Error
  DetectFormat : Except Error Format
  WriteForSSHPlayback : Option Error
  Extract : Option Error
  readSessionIndex : String → String → Except Error sessionIndex
  unpackFile : String → Option Error
  joinSelect : JoinSelect

/-- The calls `os.Stat` and `trace.ConvertSystemError`: a missing file is NotFound. -/
def osStat (env : DownloadEnv) (s : AuditLogState) (path : String) : Option Error :=
  match env.statFault path with
  | some err => some err
  | none => if path ∈ s.files then none else some (Error.notFound s!"stat {path}: no such file")

/-- The call `os.OpenFile(path, O_CREATE|O_RDWR|O_TRUNC, 0640)`. -/
def osOpenFile (env : DownloadEnv) (s : AuditLogState) (path : String) :
    AuditLogState × Option Error :=
  match env.openFault path with
  | some err => (s, some err)
  | none =>
    ({ s with
       files := if path ∈ s.files then s.files else path :: s.files
       actions := s.actions ++ [Action.openTarball path] }, none)

/-- The call `os.Remove(path)`. -/
def osRemove (env : DownloadEnv) (s : AuditLogState) (path : String) :
    AuditLogState × Option Error :=
  match env.removeFault path with
  | some err => ({ s with actions := s.actions ++ [Action.removeTarball path] }, some err)
  | none =>
    ({ s with
       files := s.files.filter (fun f => f ≠ path)
       actions := s.actions ++ [Action.removeTarball path] }, none)

/-- Record a step. -/
def AuditLogState.did (s : AuditLogState) (a : Action) : AuditLogState :=
  { s with actions := s.actions ++ [a] }

/-- The `for _, fileName := range idx.chunkFileNames()` loop of `downloadSession`. -/
def downloadSessionUnpack (env : DownloadEnv) :
    List String → AuditLogState → AuditLogState × Option Error
  | [], s => (s, none)
  | fileName :: rest, s =>
    match env.unpackFile fileName with
    | some err => (s.did (Action.unpackFile fileName), some (traceWrap err))
    | none => downloadSessionUnpack env rest (s.did (Action.unpackFile fileName))

/-- The part of `downloadSession` after a successful transfer: rewind, detect the
format, rewind, convert or extract, read the index, unpack every chunk file. -/
def downloadSessionProcess (env : DownloadEnv) (ns sid : String) (s : AuditLogState) :
    AuditLogState × Option Error :=
  let s := s.did Action.seek
  match env.seekFault 0 with
  | some err => (s, some err)
  | none =>
    let s := s.did Action.detectFormat
    match env.DetectFormat with
    | Except.error err => (s, some (traceWrap err))
    | Except.ok format =>
      let s := s.did Action.seek
      match env.seekFault 1 with
      | some err => (s, some err)
      | none =>
        let converted : AuditLogState × Option Error :=
          if format.Proto then
            match env.WriteForSSHPlayback with
            | some err => (s.did Action.writeForSSHPlayback, some (traceWrap err))
            | none => (s.did Action.writeForSSHPlayback, none)
          else if format.Tar then
            match env.Extract with
            | some err => (s.did Action.extract, some (traceWrap err))
            | none => (s.did Action.extract, none)
          else (s, some (Error.badParameter "Unexpected format."))
        match converted with
        | (s, some err) => (s, some err)
        | (s, none) =>
          let s := s.did Action.readSessionIndex
          match env.readSessionIndex ns sid with
          | Except.error err => (s, some (traceWrap err))
          | Except.ok idx => downloadSessionUnpack env (idx.chunkFileNames env.filepathJoin) s

/-- The part of `downloadSession` that runs while holding the download entry,
between `defer cancel()` and the return. -/
def downloadSessionOwner (env : DownloadEnv) (ns sid tarballPath : String)
    (s : AuditLogState) : AuditLogState × Option Error :=
  match osStat env s tarballPath with
  | none => (s, none)
  | some err =>
    if !err.isNotFound then (s, some (traceWrap err))
    else
      match osOpenFile env s tarballPath with
      | (s, some err) => (s, some err)
      | (s, none) =>
        let s := s.did (Action.download sid)
        let result : AuditLogState × Option Error :=
          match env.Download sid with
          | some err =>
            -- remove partially downloaded tarball; a failed removal is only logged
            ((osRemove env s tarballPath).1, some (traceWrap err))
          | none => downloadSessionProcess env ns sid s
        -- deferred `tarball.Close()`
        (result.1.did (Action.closeTarball tarballPath), result.2)

/-- The method `downloadSession`.  A caller that finds an entry waits in a
`select`; the owner runs the transfer and calls the completion function on
every return (`defer cancel()`). -/
def downloadSession (env : DownloadEnv) (ns sid : String) (s : AuditLogState) :
    AuditLogState × Option Error :=
  let tarballPath := env.filepathJoin [env.playbackDir, sid ++ ".tar"]
  match createOrGetDownload tarballPath s with
  | (s, _, none) =>
    match env.joinSelect with
    | JoinSelect.ctxDone => (s, none)
    | JoinSelect.logClosing =>
      (s, some (Error.badParameter "audit log is closing, aborting the download"))
  | (s, _, some cancel) =>
    let result := downloadSessionOwner env ns sid tarballPath s
    (cancel.run result.1, result.2)

/-! ## Tiled recordings -/

/-- The base offset of the chunk entry after position `i`, or the length `total`
of the stream when `i` is the last position. -/
def sessionIndex.chunkEnd (idx : sessionIndex) (total : Nat) (i : Nat) : Int :=
  match idx.chunks.get? (i + 1) with
  | some entry => entry.Offset
  | none => total

/-- The chunk files of a recording tile the logical byte stream `stream`: the
session is downloaded, its index is `idx`, the first chunk entry has Offset 0,
and the unpacked file of chunk entry `i` holds exactly the bytes of the stream
from `Offset_i` up to `Offset_{i+1}` (up to the end of the stream for the last). -/
def Tiles (r : Recording) (ns sid : String) (idx : sessionIndex) (stream : List Byte) : Prop :=
  ns ≠ "" ∧ r.downloadSession ns sid = none ∧ r.readSessionIndex ns sid = Except.ok idx ∧
  (∃ h0 : 0 < idx.chunks.length, (idx.chunks.get ⟨0, h0⟩).Offset = 0) ∧
  ∀ (i : Nat) (hi : i < idx.chunks.length),
    0 ≤ (idx.chunks.get ⟨i, hi⟩).Offset ∧
    (idx.chunks.get ⟨i, hi⟩).Offset ≤ idx.chunkEnd stream.length i ∧
    r.unpackFile (idx.chunksFileName r.filepathJoin i hi) =
      Except.ok ((stream.drop (idx.chunks.get ⟨i, hi⟩).Offset.toNat).take
        (idx.chunkEnd stream.length i - (idx.chunks.get ⟨i, hi⟩).Offset).toNat)

/-! ## Sample recordings -/

/-- A path join for the samples: the elements separated by a slash. -/
def sampleJoin (elems : List String) : String := "/".intercalate elems

/-- A chunk entry of the samples. -/
def sampleChunk (fileName : String) (offset : Int) : indexEntry :=
  { FileName := fileName, EntryType := "chunks", Index := 0, Offset := offset,
    authServer := "playbacks" }

/-- An event entry of the samples. -/
def sampleEvents (fileName : String) (index : Int) : indexEntry :=
  { FileName := fileName, EntryType := "events", Index := index, Offset := 0,
    authServer := "playbacks" }

/-- A session index with two event files (from event 0 and from event 2) and
three chunk files of three bytes each. -/
def sampleIndex : sessionIndex :=
  { dataDir := "/data", ns := "default", sid := "abc",
    events := [sampleEvents "e0" 0, sampleEvents "e1" 2],
    enhancedEvents := [],
    chunks := [sampleChunk "c0" 0, sampleChunk "c1" 3, sampleChunk "c2" 6],
    indexFiles := ["/data/playbacks/sessions/default/abc.index"] }

/-- The nine bytes of the sample recording. -/
def sampleStream : List Byte := [11, 12, 13, 21, 22, 23, 31, 32, 33]

/-- The sample recording: three chunk files that tile `sampleStream`, two event
files of two lines each; every line decodes to an object with one field. -/
def sampleRecording : Recording :=
  { downloadSession := fun _ _ => none
    readSessionIndex := fun _ _ => Except.ok sampleIndex
    unpackFile := fun fileName =>
      if fileName = "/data/playbacks/sessions/default/c0" then Except.ok [11, 12, 13]
      else if fileName = "/data/playbacks/sessions/default/c1" then Except.ok [21, 22, 23]
      else if fileName = "/data/playbacks/sessions/default/c2" then Except.ok [31, 32, 33]
      else Except.error (Error.notFound fileName)
    openEvents := fun fileName =>
      if fileName = "/data/playbacks/sessions/default/e0" then EventFile.lines ["a", "b"]
      else if fileName = "/data/playbacks/sessions/default/e1" then EventFile.lines ["c", "d"]
      else EventFile.notExist
    jsonUnmarshal := fun line => Except.ok (some [("event", FieldValue.json line)])
    ExternalLog := none
    filepathJoin := sampleJoin }

/-! ## Event files, as the specification words them -/

/-- The path of the file an index entry names (what `eventsFileName` computes for
the entry at a position). -/
def sessionIndex.entryPath (filepathJoin : List String → String) (idx : sessionIndex)
    (entry : indexEntry) : String :=
  filepathJoin [idx.dataDir, entry.authServer, SessionLogsDir, idx.ns, entry.FileName]

/-- The event of a numbered line when its line number is at least `k`: the decoded
object annotated with the line number as cursor. -/
def lineEvent (r : Recording) (k : Int) (p : Nat × String) : Option EventFields :=
  if (p.1 : Int) < k then none
  else
    match r.jsonUnmarshal p.2 with
    | Except.ok (some fields) => some (fields.set EventCursor (FieldValue.int p.1))
    | _ => none

/-- The events of an event file at line numbers `>= k`, in line order; a file that
does not exist has none. -/
def eventsFromLine (r : Recording) (fileName : String) (k : Int) : List EventFields :=
  match r.openEvents fileName with
  | EventFile.lines ls => ls.enum.filterMap (lineEvent r k)
  | _ => []

/-- An event file can be read from line `k` on: it is missing, or it opens and
every line numbered `>= k` decodes to a JSON object. -/
def ReadableFrom (r : Recording) (fileName : String) (k : Int) : Prop :=
  match r.openEvents fileName with
  | EventFile.notExist => True
  | EventFile.lines ls =>
    ∀ p ∈ ls.enum, ¬ ((p.1 : Int) < k) → ∃ fields, r.jsonUnmarshal p.2 = Except.ok (some fields)
  | _ => False

/-- The invariant of a run of the coordinator: the outstanding completion
functions have pairwise distinct paths, and a path has an entry in the registry
exactly when a completion function for it is outstanding. -/
def Run.Coordinated (m : Run) : Prop :=
  (m.outstanding.map Completion.path).Nodup ∧
  ∀ p, (m.log.activeDownloads.lookup p).isSome = true ↔ ∃ c ∈ m.outstanding, c.path = p

/-- The start of a run: the state of a new audit log, nothing outstanding. -/
def Run.init (files : List String) : Run :=
  { log := AuditLogState.init files, outstanding := [] }

/-- A run for the samples: two calls for the tarball of session `abc`, one for
the tarball of session `xyz`, then the completion function of the first call. -/
def sampleCalls : List Call :=
  [Call.createOrGet "abc.tar", Call.createOrGet "abc.tar", Call.createOrGet "xyz.tar",
    Call.complete { ctx := 0, path := "abc.tar" }]

/-- The state the sample run ends in: the download of `xyz` is in flight, the
context of the download of `abc` is cancelled. -/
def sampleRun : Run :=
  { log := { activeDownloads := [("xyz.tar", 1)], cancelled := [0], nextCtx := 2,
             files := [], actions := [] },
    outstanding := [{ ctx := 1, path := "xyz.tar" }] }

/-- Collaborators for the samples: the transfer succeeds, format detection fails. -/
def sampleEnv : DownloadEnv :=
  { filepathJoin := sampleJoin
    playbackDir := "/data/playbacks/sessions/default"
    statFault := fun _ => none
    openFault := fun _ => none
    removeFault := fun _ => none
    Download := fun _ => none
    seekFault := fun _ => none
    DetectFormat := Except.error (Error.other "unknown format")
    WriteForSSHPlayback := none
    Extract := none
    readSessionIndex := fun _ _ => Except.ok sampleIndex
    unpackFile := fun _ => none
    joinSelect := JoinSelect.ctxDone }

/-- Collaborators for the samples: the transfer fails. -/
def sampleFailedTransfer : DownloadEnv :=
  { sampleEnv with Download := fun _ => some (Error.other "connection reset") }

/-! ## The join branch -/

/-- Whether a case of the `select` in a join branch can fire: `<-ctx.Done()` once
the context of the in-flight download is cancelled, `<-l.ctx.Done()` once the
audit log is closing. -/
def JoinSelect.ready (s : AuditLogState) (ctx : Ctx) (closing : Bool) : JoinSelect → Bool
  | JoinSelect.ctxDone => decide (ctx ∈ s.cancelled)
  | JoinSelect.logClosing => closing

/-- The state of the samples while the download of session `abc` is in flight: the
owner has registered the tarball path and has not returned yet. -/
def sampleInFlight : AuditLogState :=
  (createOrGetDownload "/data/playbacks/sessions/default/abc.tar" (AuditLogState.init [])).1

/-- Collaborators for the samples: the log is closing while a caller waits. -/
def sampleClosing : DownloadEnv :=
  { sampleEnv with joinSelect := JoinSelect.logClosing }

/-! ## Streaming the events of a session -/

/-- An audit event of a recording: what `GetIndex` returns, and the rest of it. -/
structure AuditEvent where
  Index : Int
  body : String
deriving DecidableEq, Repr

/-- An operation on the two channels `StreamSessionEvents` returns: `c <- event`,
`e <- err`, `close(c)`. -/
inductive ChanOp where
  | sendEvent (event : AuditEvent)
  | sendError (err : Error)
  | closeEvents
deriving DecidableEq, Repr

/-- What `protoReader.Read` yields call after call: the events of the recording,
then the error that ends the reading (`io.EOF` at the end of the stream). -/
structure ProtoReader where
  events : List AuditEvent
  terminal : Error
deriving DecidableEq, Repr

/-- The events sent on the event channel, in the order of sending. -/
def delivered (ops : List ChanOp) : List AuditEvent :=
  ops.filterMap (fun op => match op with
    | ChanOp.sendEvent event => some event
    | _ => none)

/-- The errors sent on the error channel, in the order of sending. -/
def reported (ops : List ChanOp) : List Error :=
  ops.filterMap (fun op => match op with
    | ChanOp.sendError err => some err
    | _ => none)

/-- The forwarding goroutine of `StreamSessionEvents`.  `ctxErr n` is what
`ctx.Err()` returns at the start of iteration `n`; the list holds the events not
yet read. -/
def StreamSessionEventsForward (ctxErr : Nat → Option Error) (startIndex : Int)
    (terminal : Error) : Nat → List AuditEvent → List ChanOp
  | n, [] =>
    match ctxErr n with
    | some err => [ChanOp.sendError (traceWrap err)]
    | none =>
      if terminal ≠ Error.eof then [ChanOp.sendError (traceWrap terminal)]
      else [ChanOp.closeEvents]
  | n, event :: rest =>
    match ctxErr n with
    | some err => [ChanOp.sendError (traceWrap err)]
    | none =>
      if event.Index ≥ startIndex then
        ChanOp.sendEvent event :: StreamSessionEventsForward ctxErr startIndex terminal (n + 1) rest
      else StreamSessionEventsForward ctxErr startIndex terminal (n + 1) rest

/-- The part of `StreamSessionEvents` from `os.OpenFile` on: create or truncate the
tarball, transfer into it, rewind, start the forwarding goroutine. -/
def StreamSessionEventsFetch (env : DownloadEnv) (reader : ProtoReader)
    (ctxErr : Nat → Option Error) (sid : String) (startIndex : Int) (tarballPath : String)
    (s : AuditLogState) : AuditLogState × List ChanOp :=
  match osOpenFile env s tarballPath with
  | (s, some err) => (s, [ChanOp.sendError (traceWrap err)])
  | (s, none) =>
    let s := s.did (Action.download sid)
    match env.Download sid with
    | some err =>
      -- remove partially downloaded tarball; a failed removal is only logged
      ((osRemove env s tarballPath).1, [ChanOp.sendError (traceWrap err)])
    | none =>
      let s := s.did Action.seek
      match env.seekFault 0 with
      | some err => (s, [ChanOp.sendError (traceWrap err)])
      | none =>
        (s, StreamSessionEventsForward ctxErr startIndex reader.terminal 0 reader.events)

/-- The method `StreamSessionEvents`: the state it leaves and the operations on its
two channels.  A caller that finds an entry waits in a `select` and then goes on
like the owner; the owner releases the entry when the function returns. -/
def StreamSessionEvents (env : DownloadEnv) (reader : ProtoReader)
    (ctxErr : Nat → Option Error) (sid : String) (startIndex : Int) (s : AuditLogState) :
    AuditLogState × List ChanOp :=
  let tarballPath := env.filepathJoin [env.playbackDir, sid ++ ".stream.tar"]
  match createOrGetDownload tarballPath s with
  | (s, _, none) =>
    match env.joinSelect with
    | JoinSelect.logClosing =>
      (s, [ChanOp.sendError
        (Error.badParameter "audit log is closing, aborting the download")])
    | JoinSelect.ctxDone =>
      StreamSessionEventsFetch env reader ctxErr sid startIndex tarballPath s
  | (s, _, some cancel) =>
    let result := StreamSessionEventsFetch env reader ctxErr sid startIndex tarballPath s
    (cancel.run result.1, result.2)

/-- The state of the samples while a stream download of session `abc` is in
flight: the owner has registered the stream tarball and created the file. -/
def sampleStreamInFlight : AuditLogState :=
  { activeDownloads := [("/data/playbacks/sessions/default/abc.stream.tar", 0)]
    cancelled := []
    nextCtx := 1
    files := ["/data/playbacks/sessions/default/abc.stream.tar"]
    actions := [Action.openTarball "/data/playbacks/sessions/default/abc.stream.tar",
      Action.download "abc"] }

/-- The reader of the samples: four events with indexes 0 to 3, then end of stream. -/
def sampleReader : ProtoReader :=
  { events := [⟨0, "start"⟩, ⟨1, "print"⟩, ⟨2, "print"⟩, ⟨3, "end"⟩], terminal := Error.eof }

/-! ## The playback sweep -/

/-- An entry of a directory listing (`os.FileInfo`): name, directory flag, and
modification time in nanoseconds since the epoch. -/
structure FileInfo where
  Name : String
  IsDir : Bool
  ModTime : Int
deriving DecidableEq, Repr

/-- The largest `time.Duration`. -/
def maxDuration : Int := 2 ^ 63 - 1

/-- The smallest `time.Duration`. -/
def minDuration : Int := -(2 ^ 63)

/-- The method `t.Sub(u)` of `time.Time` on instants in nanoseconds: the
difference, or the largest or smallest duration when it does not fit. -/
def timeSub (t u : Int) : Int :=
  if t - u > maxDuration then maxDuration
  else if t - u < minDuration then minDuration
  else t - u

/-- The `for i := range entries` loop of `cleanupOldPlaybacks`.  Each entry comes
with the instant `l.Clock.Now()` returns when the loop reaches it.  A failed
removal is logged and the loop goes on. -/
def cleanupOldPlaybacksLoop (env : DownloadEnv) (ttl : Int) :
    List (FileInfo × Int) → AuditLogState → AuditLogState
  | [], s => s
  | (fi, now) :: rest, s =>
    if fi.IsDir then cleanupOldPlaybacksLoop env ttl rest s
    else
      let diff := timeSub now fi.ModTime
      if diff ≤ ttl then cleanupOldPlaybacksLoop env ttl rest s
      else
        let fileToRemove := env.filepathJoin [env.playbackDir, fi.Name]
        cleanupOldPlaybacksLoop env ttl rest (osRemove env s fileToRemove).1

/-- The method `cleanupOldPlaybacks`; `listing` is what `os.Open` and `Readdir`
give for the playback directory. -/
def cleanupOldPlaybacks (env : DownloadEnv) (listing : Except Error (List (FileInfo × Int)))
    (ttl : Int) (s : AuditLogState) : AuditLogState × Option Error :=
  match listing with
  | Except.error err => (s, some err)
  | Except.ok entries => (cleanupOldPlaybacksLoop env ttl entries s, none)

/-- An entry the sweep has to delete: not a directory, and older than the TTL at
the instant the sweep looks at it. -/
def isStale (ttl : Int) (e : FileInfo × Int) : Bool :=
  !e.1.IsDir && decide (timeSub e.2 e.1.ModTime > ttl)

/-- The path of an entry of the playback directory. -/
def playbackPath (env : DownloadEnv) (e : FileInfo × Int) : String :=
  env.filepathJoin [env.playbackDir, e.1.Name]

/-- A listing for the samples, read at instant 1000 with TTL 100: a stale file, a
file exactly at the TTL, a directory, and a second stale file. -/
def sampleListing : List (FileInfo × Int) :=
  [(⟨"old.tar", false, 0⟩, 1000), (⟨"edge.tar", false, 900⟩, 1000),
    (⟨"dir", true, 0⟩, 1000), (⟨"older", false, -5⟩, 1000)]

/-- The playback directory of the samples before the sweep. -/
def samplePlaybacks : AuditLogState :=
  AuditLogState.init
    ["/data/playbacks/sessions/default/old.tar", "/data/playbacks/sessions/default/edge.tar",
      "/data/playbacks/sessions/default/dir", "/data/playbacks/sessions/default/older"]

/-! ## Unpacking a chunk file -/

/-- A file on disk: modification time in nanoseconds since the epoch, and content. -/
structure DiskFile where
  ModTime : Int
  content : List Byte
deriving DecidableEq, Repr

/-- The files on disk, by path. -/
abbrev Disk := List (String × DiskFile)

/-- Create or replace the file at a path. -/
def Disk.write (d : Disk) (path : String) (f : DiskFile) : Disk :=
  (path, f) :: d.filter (fun e => e.1 ≠ path)

/-- What `gzip.NewReader` and `io.Copy` make of a compressed file: a failure to
read the header, or the bytes copied and the error that ended the copy, if any. -/
structure Gunzip where
  header : Option Error
  data : List Byte
  copyErr : Option Error
deriving DecidableEq, Repr

/-- The sentinel error `io.ErrUnexpectedEOF`. -/
def ErrUnexpectedEOF : Error := Error.other "unexpected EOF"

/-- The collaborators of `unpackFile`: the path of the unpacked copy
(`filepath.Join(l.playbackDir, strings.TrimSuffix(basename, filepath.Ext(basename)))`),
faults of `os.Stat` and `os.OpenFile` other than a missing file, the gzip reader,
a fault of `Seek`, and the modification time the disk gives a file written now. -/
structure UnpackEnv where
  unpackedFile : String → String
  statFault : String → Option Error
  openFault : String → Option Error
  gunzip : List Byte → Gunzip
  seekFault : Option Error
  writeTime : Int

/-- The method `Unix` of `time.Time`: whole seconds since the epoch. -/
def unixSeconds (t : Int) : Int := t / 1000000000

/-- The calls `os.Stat` and `trace.ConvertSystemError` on the disk of `unpackFile`. -/
def statFile (env : UnpackEnv) (d : Disk) (path : String) : Except Error DiskFile :=
  match env.statFault path with
  | some err => Except.error err
  | none =>
    match d.lookup path with
    | some f => Except.ok f
    | none => Except.error (Error.notFound s!"stat {path}: no such file")

/-- The call `os.OpenFile(path, os.O_RDONLY, 0640)`: the content read through the handle. -/
def openRead (env : UnpackEnv) (d : Disk) (path : String) : Except Error (List Byte) :=
  match env.openFault path with
  | some err => Except.error err
  | none =>
    match d.lookup path with
    | some f => Except.ok f.content
    | none => Except.error (Error.notFound s!"open {path}: no such file")

/-- The part of `unpackFile` after the freshness check: truncate the unpacked copy,
decompress the source into it, rewind. -/
def unpackFileExtract (env : UnpackEnv) (d : Disk) (fileName unpackedFile : String) :
    Disk × Except Error (List Byte) :=
  match env.openFault unpackedFile with
  | some err => (d, Except.error err)
  | none =>
    let d := d.write unpackedFile { ModTime := env.writeTime, content := [] }
    match openRead env d fileName with
    | Except.error err => (d, Except.error err)
    | Except.ok source =>
      let z := env.gunzip source
      match z.header with
      | some err => (d, Except.error (traceWrap err))
      | none =>
        let d := d.write unpackedFile { ModTime := env.writeTime, content := z.data }
        match z.copyErr with
        | some err =>
          if err ≠ ErrUnexpectedEOF then (d, Except.error (traceWrap err))
          else
            match env.seekFault with
            | some err => (d, Except.error (traceWrap err))
            | none => (d, Except.ok z.data)
        | none =>
          match env.seekFault with
          | some err => (d, Except.error (traceWrap err))
          | none => (d, Except.ok z.data)

/-- The method `unpackFile`: the disk it leaves and the content read through the
handle it returns. -/
def unpackFile (env : UnpackEnv) (d : Disk) (fileName : String) :
    Disk × Except Error (List Byte) :=
  let unpackedFile := env.unpackedFile fileName
  match statFile env d unpackedFile with
  | Except.error err =>
    if !err.isNotFound then (d, Except.error (traceWrap err))
    else unpackFileExtract env d fileName unpackedFile
  | Except.ok unpackedInfo =>
    match statFile env d fileName with
    | Except.error err => (d, Except.error err)
    | Except.ok packedInfo =>
      -- no new data has been added
      if unixSeconds unpackedInfo.ModTime ≥ unixSeconds packedInfo.ModTime then
        (d, openRead env d unpackedFile)
      else unpackFileExtract env d fileName unpackedFile

/-- Collaborators for the samples: `c1.gz` unpacks to `c1`; decompression drops
the first byte (the header) of the source. -/
def sampleUnpackEnv : UnpackEnv :=
  { unpackedFile := fun fileName => if fileName = "c1.gz" then "c1" else fileName ++ ".out"
    statFault := fun _ => none
    openFault := fun _ => none
    gunzip := fun source => { header := none, data := source.drop 1, copyErr := none }
    seekFault := none
    writeTime := 20000000000 }

/-- A disk for the samples: the source `c1.gz` was modified at 10.7 s, after its
unpacked copy `c1`, written at 10.2 s, which lacks the last byte of the source. -/
def sampleStaleDisk : Disk :=
  [("c1.gz", { ModTime := 10700000000, content := [0, 21, 22, 23] }),
    ("c1", { ModTime := 10200000000, content := [21, 22] })]

/-- A disk for the samples: the source `c1.gz` was modified at 11.1 s, its unpacked
copy `c1` at 10.2 s. -/
def sampleNewerDisk : Disk :=
  [("c1.gz", { ModTime := 11100000000, content := [0, 21, 22, 23] }),
    ("c1", { ModTime := 10200000000, content := [21, 22] })]

/-! ## Building the session index -/

/-- Modelled from the spec: the index entry type names are constants declared
outside the sources at hand; the spec names the five kinds (event records, binary
chunks, and the command, disk and network telemetry). -/
def fileTypeChunks : String := "chunks"

/-- Modelled from the spec: the type name of event-record entries. -/
def fileTypeEvents : String := "events"

/-- Modelled from the spec: the type name of command telemetry entries. -/
def SessionCommandEvent : String := "session.command"

/-- Modelled from the spec: the type name of disk telemetry entries. -/
def SessionDiskEvent : String := "session.disk"

/-- Modelled from the spec: the type name of network telemetry entries. -/
def SessionNetworkEvent : String := "session.network"

/-- The standard library function `sort.Slice`, kept abstract: any function that
rearranges a slice into an order in which no element is `less` than one before
it.  It is not stable, so nothing else is known of the order. -/
structure SortSlice where
  sort : (indexEntry → indexEntry → Bool) → List indexEntry → List indexEntry
  perm : ∀ less l, (sort less l).Perm l
  sorted : ∀ (key : indexEntry → Int) (l : List indexEntry),
    (sort (fun a b => decide (key a < key b)) l).Pairwise (fun a b => key a ≤ key b)

/-- The method `sort` of `sessionIndex`: every bucket is sorted in place. -/
def sessionIndex.sort (ss : SortSlice) (idx : sessionIndex) : sessionIndex :=
  { idx with
    events := ss.sort (fun a b => decide (a.Index < b.Index)) idx.events
    chunks := ss.sort (fun a b => decide (a.Offset < b.Offset)) idx.chunks
    enhancedEvents := idx.enhancedEvents.map
      (fun kv => (kv.1, ss.sort (fun a b => decide (a.Index < b.Index)) kv.2)) }

/-- What `os.OpenFile` finds at the path of an index file: a failure (a missing
file is a failure that `trace.IsNotFound` recognises), or the lines the scanner
yields and what `Close` answers. -/
inductive IndexFile where
  | failed (err : Error)
  | opened (lines : List String) (closeErr : Option Error)
deriving DecidableEq, Repr

/-- The collaborators of `readSessionIndex`: `filepath.Join`, the index files on
disk, and `json.Unmarshal` of one line into an index entry. -/
structure IndexEnv where
  filepathJoin : List String → String
  openIndex : String → IndexFile
  jsonUnmarshal : String → Except Error indexEntry

/-- The scanner loop of `readIndexEntries`: decode every line, tag the entry with
the origin server, append it. -/
def readIndexEntriesLoop (env : IndexEnv) (authServer : String) :
    List String → List indexEntry → Except Error (List indexEntry)
  | [], entries => Except.ok entries
  | line :: rest, entries =>
    match env.jsonUnmarshal line with
    | Except.error err => Except.error (traceWrap err)
    | Except.ok entry =>
      readIndexEntriesLoop env authServer rest
        (entries ++ [{ entry with authServer := authServer }])

/-- The function `readIndexEntries`. -/
def readIndexEntries (env : IndexEnv) (lines : List String) (authServer : String) :
    Except Error (List indexEntry) :=
  readIndexEntriesLoop env authServer lines []

/-- The map assignment `m[key] = append(m[key], entry)`. -/
def appendEnhanced (m : List (String × List indexEntry)) (key : String) (entry : indexEntry) :
    List (String × List indexEntry) :=
  match m.lookup key with
  | some _ => m.map (fun kv => if kv.1 = key then (kv.1, kv.2 ++ [entry]) else kv)
  | none => m ++ [(key, [entry])]

/-- The `for _, entry := range entries` loop of `readSessionIndex` with its switch
on the entry type. -/
def readSessionIndexEntries : sessionIndex → List indexEntry → Except Error sessionIndex
  | index, [] => Except.ok index
  | index, entry :: rest =>
    if entry.EntryType = fileTypeEvents then
      readSessionIndexEntries { index with events := index.events ++ [entry] } rest
    else if entry.EntryType = fileTypeChunks then
      readSessionIndexEntries { index with chunks := index.chunks ++ [entry] } rest
    else if entry.EntryType = SessionCommandEvent ∨ entry.EntryType = SessionDiskEvent ∨
        entry.EntryType = SessionNetworkEvent then
      readSessionIndexEntries
        { index with
          enhancedEvents := appendEnhanced index.enhancedEvents entry.EntryType entry } rest
    else Except.error (Error.badParameter s!"found unknown event type: {entry.EntryType}")

/-- The `for _, authServer := range authServers` loop of `readSessionIndex`. -/
def readSessionIndexLoop (env : IndexEnv) (dataDir ns sid : String) :
    List String → sessionIndex → Except Error sessionIndex
  | [], index => Except.ok index
  | authServer :: rest, index =>
    let indexFileName :=
      env.filepathJoin [dataDir, authServer, SessionLogsDir, ns, sid ++ ".index"]
    match env.openIndex indexFileName with
    | IndexFile.failed err =>
      if !err.isNotFound then Except.error (traceWrap err)
      else readSessionIndexLoop env dataDir ns sid rest index
    | IndexFile.opened lines closeErr =>
      let index := { index with indexFiles := index.indexFiles ++ [indexFileName] }
      match readIndexEntries env lines authServer with
      | Except.error err => Except.error (traceWrap err)
      | Except.ok entries =>
        match readSessionIndexEntries index entries with
        | Except.error err => Except.error err
        | Except.ok index =>
          match closeErr with
          | some err => Except.error (traceWrap err)
          | none => readSessionIndexLoop env dataDir ns sid rest index

/-- The function `readSessionIndex`. -/
def readSessionIndex (env : IndexEnv) (ss : SortSlice) (dataDir : String)
    (authServers : List String) (ns sid : String) : Except Error sessionIndex :=
  let index : sessionIndex :=
    { sid := sid, dataDir := dataDir, ns := ns,
      events := [], chunks := [], indexFiles := [],
      enhancedEvents :=
        [(SessionCommandEvent, []), (SessionDiskEvent, []), (SessionNetworkEvent, [])] }
  match readSessionIndexLoop env dataDir ns sid authServers index with
  | Except.error err => Except.error err
  | Except.ok index =>
    if index.indexFiles.length = 0 then Except.error (Error.notFound s!"session {sid} not found")
    else Except.ok (index.sort ss)

/-- The path of the index file of a session at an origin server. -/
def IndexEnv.indexFileName (env : IndexEnv) (dataDir ns sid authServer : String) : String :=
  env.filepathJoin [dataDir, authServer, SessionLogsDir, ns, sid ++ ".index"]

/-- A line of an index file as an entry tagged with its origin server, when it decodes. -/
def IndexEnv.entryOfLine (env : IndexEnv) (authServer : String) (line : String) :
    Option indexEntry :=
  match env.jsonUnmarshal line with
  | Except.ok entry => some { entry with authServer := authServer }
  | Except.error _ => none

/-- The entries of the index file of one origin server; none if it has no file. -/
def IndexEnv.entriesOf (env : IndexEnv) (dataDir ns sid authServer : String) :
    List indexEntry :=
  match env.openIndex (env.indexFileName dataDir ns sid authServer) with
  | IndexFile.opened lines _ => lines.filterMap (env.entryOfLine authServer)
  | IndexFile.failed _ => []

/-- The entries read across all origin servers, in the order of reading. -/
def IndexEnv.entriesRead (env : IndexEnv) (dataDir : String) (authServers : List String)
    (ns sid : String) : List indexEntry :=
  authServers.flatMap (env.entriesOf dataDir ns sid)

/-- The entries of one type among a list of entries. -/
def ofType (t : String) (entries : List indexEntry) : List indexEntry :=
  entries.filter (fun e => e.EntryType = t)

/-- An index entry type that `readSessionIndex` knows. -/
def knownType (t : String) : Prop :=
  t = fileTypeEvents ∨ t = fileTypeChunks ∨ t = SessionCommandEvent ∨ t = SessionDiskEvent ∨
    t = SessionNetworkEvent

/-- An origin server has no index file for the session. -/
def IndexEnv.absent (env : IndexEnv) (dataDir ns sid authServer : String) : Prop :=
  ∃ err, env.openIndex (env.indexFileName dataDir ns sid authServer) = IndexFile.failed err ∧
    err.isNotFound = true

/-- An origin server has an index file for the session that parses: it opens and
closes, every line decodes, and every entry has a known type. -/
def IndexEnv.parses (env : IndexEnv) (dataDir ns sid authServer : String) : Prop :=
  ∃ lines, env.openIndex (env.indexFileName dataDir ns sid authServer)
      = IndexFile.opened lines none ∧
    ∀ line ∈ lines, ∃ entry, env.jsonUnmarshal line = Except.ok entry ∧
      knownType entry.EntryType

/-- The buckets of an index hold the entries `read`: each bucket has the entries
of its type, in the order of reading. -/
def sessionIndex.holds (index : sessionIndex) (read : List indexEntry) : Prop :=
  index.events = ofType fileTypeEvents read ∧
  index.chunks = ofType fileTypeChunks read ∧
  index.enhancedEvents = [(SessionCommandEvent, ofType SessionCommandEvent read),
    (SessionDiskEvent, ofType SessionDiskEvent read),
    (SessionNetworkEvent, ofType SessionNetworkEvent read)]

/-- A `sort.Slice` for the samples: insertion sort. -/
def sampleSort : SortSlice where
  sort := fun less l => l.insertionSort (fun a b => less b a = false)
  perm := fun _ l => List.perm_insertionSort _ l
  sorted := fun key l => by
    haveI : IsTotal indexEntry (fun a b => decide (key b < key a) = false) :=
      ⟨fun a b => by
        simp only [decide_eq_false_iff_not, not_lt]
        exact le_total _ _⟩
    haveI : IsTrans indexEntry (fun a b => decide (key b < key a) = false) :=
      ⟨fun a b c hab hbc => by
        simp only [decide_eq_false_iff_not, not_lt] at hab hbc ⊢
        exact le_trans hab hbc⟩
    have hs := List.sorted_insertionSort (fun a b => decide (key b < key a) = false) l
    exact List.Pairwise.imp (fun {a b} hab => by
      simpa only [decide_eq_false_iff_not, not_lt] using hab) hs

/-- An index entry as `json.Unmarshal` leaves it: the origin server is not set. -/
def sampleLine (type fileName : String) (index offset : Int) : indexEntry :=
  { FileName := fileName, EntryType := type, Index := index, Offset := offset, authServer := "" }

/-- Index files for the samples: the playback directory has none, the origin
`node1` has one with five lines, not in order. -/
def sampleIndexEnv : IndexEnv :=
  { filepathJoin := sampleJoin
    openIndex := fun path =>
      if path = "/data/node1/sessions/default/abc.index" then
        IndexFile.opened ["e2", "c3", "e0", "c0", "net"] none
      else IndexFile.failed (Error.notFound path)
    jsonUnmarshal := fun line =>
      if line = "e0" then Except.ok (sampleLine "events" "e0" 0 0)
      else if line = "e2" then Except.ok (sampleLine "events" "e1" 2 0)
      else if line = "c0" then Except.ok (sampleLine "chunks" "c0" 0 0)
      else if line = "c3" then Except.ok (sampleLine "chunks" "c1" 0 3)
      else if line = "net" then Except.ok (sampleLine "session.network" "n0" 0 0)
      else Except.error (Error.other "invalid character") }

/-- The index `readSessionIndex` builds from the sample index files. -/
def sampleBuiltIndex : sessionIndex :=
  { dataDir := "/data", ns := "default", sid := "abc",
    events := [{ sampleLine "events" "e0" 0 0 with authServer := "node1" },
      { sampleLine "events" "e1" 2 0 with authServer := "node1" }],
    enhancedEvents := [("session.command", []), ("session.disk", []),
      ("session.network", [{ sampleLine "session.network" "n0" 0 0 with authServer := "node1" }])],
    chunks := [{ sampleLine "chunks" "c0" 0 0 with authServer := "node1" },
      { sampleLine "chunks" "c1" 0 3 with authServer := "node1" }],
    indexFiles := ["/data/node1/sessions/default/abc.index"] }

/-! ## Searching events -/

/-- The arguments of `SearchEvents`. -/
structure SearchEventsArgs where
  fromUTC : Int
  toUTC : Int
  ns : String
  eventType : List String
  limit : Int
  order : Nat
  startKey : String
deriving DecidableEq, Repr

/-- A call that reaches one of the two stores of the audit log. -/
inductive StoreCall where
  | externalSearchEvents (args : SearchEventsArgs)
  | localSearchEvents (args : SearchEventsArgs)
deriving DecidableEq, Repr

/-- The search method of a store (`IAuditLog`). -/
structure EventStore where
  SearchEvents : SearchEventsArgs → Except Error (List AuditEvent × String)

/-- The fields of the audit log that a search reads: the external store and the
local log, either of which may be nil, and the two limits of package `defaults`,
which are declared outside the sources at hand and taken as parameters. -/
structure AuditLogStores where
  ExternalLog : Option EventStore
  localLog : Option EventStore
  EventsIterationLimit : Int
  EventsMaxIterationLimit : Int

/-- The method `SearchEvents`: the calls that reach the stores, and the result.  A
call on a nil local log is a run-time panic. -/
def SearchEvents (l : AuditLogStores) (args : SearchEventsArgs) :
    List StoreCall × Except Error (List AuditEvent × String) :=
  let limit := if args.limit ≤ 0 then l.EventsIterationLimit else args.limit
  if limit > l.EventsMaxIterationLimit then
    ([], Except.error (Error.badParameter
      s!"limit {limit} exceeds max iteration limit"))
  else
    match l.ExternalLog with
    | some ext =>
      ([StoreCall.externalSearchEvents { args with limit := limit }],
        ext.SearchEvents { args with limit := limit })
    | none =>
      match l.localLog with
      | some loc =>
        ([StoreCall.localSearchEvents { args with limit := limit }],
          loc.SearchEvents { args with limit := limit })
      | none => ([], Except.error (Error.panic "nil pointer dereference"))

/-- Arguments for the samples: a search without a limit. -/
def sampleSearch : SearchEventsArgs :=
  { fromUTC := 0, toUTC := 1000, ns := "default", eventType := ["session.start"],
    limit := 0, order := 0, startKey := "" }

/-- Stores for the samples: no external store, a local log that finds nothing, the
default limit 500 and the maximum 10000. -/
def sampleStores : AuditLogStores :=
  { ExternalLog := none
    localLog := some { SearchEvents := fun args => Except.ok ([], args.startKey) }
    EventsIterationLimit := 500
    EventsMaxIterationLimit := 10000 }

/-! ## Emitting, searching sessions and closing -/

/-- The arguments of `SearchSessionEvents`. -/
structure SearchSessionEventsArgs where
  fromUTC : Int
  toUTC : Int
  limit : Int
  order : Nat
  startKey : String
  cond : Option String
  sessionID : String
deriving DecidableEq, Repr

/-- The methods of the interface `IAuditLog` that the audit log calls on its
external store and on its local file log, with what each answers. -/
structure IAuditLog where
  EmitAuditEvent : String → Option Error
  SearchEvents : SearchEventsArgs → Except Error (List AuditEvent × String)
  SearchSessionEvents : SearchSessionEventsArgs → Except Error (List AuditEvent × String)
  Close : Option Error

/-- Modelled from the spec: `NewDiscardAuditLog` is defined outside the sources at
hand; the spec calls it a no-op discard path.  It accepts every call and keeps
nothing. -/
def DiscardAuditLog : IAuditLog :=
  { EmitAuditEvent := fun _ => none
    SearchEvents := fun _ => Except.ok ([], "")
    SearchSessionEvents := fun _ => Except.ok ([], "")
    Close := none }

/-- The log that receives a call. -/
inductive Receiver where
  | externalLog
  | localLog
  | discardLog
deriving DecidableEq, Repr

/-- A call the audit log makes on one of its logs, or on its own cancel function. -/
inductive LogCall where
  | EmitAuditEvent (receiver : Receiver) (event : String)
  | SearchEvents (receiver : Receiver) (args : SearchEventsArgs)
  | SearchSessionEvents (receiver : Receiver) (args : SearchSessionEventsArgs)
  | Close (receiver : Receiver)
  | cancel
deriving DecidableEq, Repr

/-- The state of an audit log that emitting, searching and closing touch: the
external store, the local log pointer (`none` is nil), whether `l.ctx` is
cancelled, the counter `AuditFailedEmit`, the two limits of package `defaults`,
and the calls made so far (latest last). -/
structure AuditLogLive where
  ExternalLog : Option IAuditLog
  localLog : Option IAuditLog
  closing : Bool
  AuditFailedEmit : Nat
  EventsIterationLimit : Int
  EventsMaxIterationLimit : Int
  calls : List LogCall

/-- The method `getLocalLog`: the local log, or a discard log when the pointer is nil. -/
def getLocalLog (l : AuditLogLive) : Receiver × IAuditLog :=
  match l.localLog with
  | none => (Receiver.discardLog, DiscardAuditLog)
  | some localLog => (Receiver.localLog, localLog)

/-- The method `EmitAuditEvent`: the external store if configured, else what
`getLocalLog` returns; an error of the emitter is wrapped and returned. -/
def EmitAuditEvent (l : AuditLogLive) (event : String) : AuditLogLive × Option Error :=
  let emitter : Receiver × IAuditLog :=
    match l.ExternalLog with
    | some ext => (Receiver.externalLog, ext)
    | none => getLocalLog l
  let l := { l with calls := l.calls ++ [LogCall.EmitAuditEvent emitter.1 event] }
  match emitter.2.EmitAuditEvent event with
  | some err => (l, some (traceWrap err))
  | none => (l, none)

/-- The method `SearchSessionEvents`: the external store if configured, else the
local log pointer as it is; a call on a nil pointer is a run-time panic. -/
def SearchSessionEvents (l : AuditLogLive) (args : SearchSessionEventsArgs) :
    AuditLogLive × Except Error (List AuditEvent × String) :=
  match l.ExternalLog with
  | some ext =>
    ({ l with calls := l.calls ++ [LogCall.SearchSessionEvents Receiver.externalLog args] },
      ext.SearchSessionEvents args)
  | none =>
    match l.localLog with
    | some localLog =>
      ({ l with calls := l.calls ++ [LogCall.SearchSessionEvents Receiver.localLog args] },
        localLog.SearchSessionEvents args)
    | none => (l, Except.error (Error.panic "nil pointer dereference"))

/-- The method `Close`: close the external store if any, cancel `l.ctx`, close the
local log if the pointer is not nil and set the pointer to nil.  Failures to
close are logged; the result is always nil. -/
def Close (l : AuditLogLive) : AuditLogLive × Option Error :=
  let l :=
    match l.ExternalLog with
    | some _ => { l with calls := l.calls ++ [LogCall.Close Receiver.externalLog] }
    | none => l
  let l := { l with closing := true, calls := l.calls ++ [LogCall.cancel] }
  match l.localLog with
  | some _ =>
    ({ l with localLog := none, calls := l.calls ++ [LogCall.Close Receiver.localLog] }, none)
  | none => (l, none)

/-- The fields of the audit log that `SearchEvents` reads. -/
def AuditLogLive.stores (l : AuditLogLive) : AuditLogStores :=
  { ExternalLog := l.ExternalLog.map (fun ext => { SearchEvents := ext.SearchEvents })
    localLog := l.localLog.map (fun loc => { SearchEvents := loc.SearchEvents })
    EventsIterationLimit := l.EventsIterationLimit
    EventsMaxIterationLimit := l.EventsMaxIterationLimit }

/-- A file log for the samples: it stores nothing and its searches answer with the
limit they were given as the next key. -/
def sampleFileLog : IAuditLog :=
  { EmitAuditEvent := fun _ => none
    SearchEvents := fun args => Except.ok ([], toString args.limit)
    SearchSessionEvents := fun args => Except.ok ([], toString args.limit)
    Close := none }

/-- An audit log for the samples: no external store, the sample file log, the
default limit 500 and the maximum 10000. -/
def sampleLive : AuditLogLive :=
  { ExternalLog := none, localLog := some sampleFileLog, closing := false,
    AuditFailedEmit := 0, EventsIterationLimit := 500, EventsMaxIterationLimit := 10000,
    calls := [] }

/-- An audit log for the samples whose local log fails to emit. -/
def sampleFailingLive : AuditLogLive :=
  { sampleLive with
    localLog := some { sampleFileLog with
      EmitAuditEvent := fun _ => some (Error.other "disk full") } }

/-- Arguments for the samples: a session search without a limit. -/
def sampleSessionSearch : SearchSessionEventsArgs :=
  { fromUTC := 0, toUTC := 1000, limit := 0, order := 0, startKey := "", cond := none,
    sessionID := "abc" }

/-- A recording for the samples whose first event file has a corrupt first line:
`{bad` is not a JSON object and `json.Unmarshal` rejects it. -/
def sampleCorruptRecording : Recording :=
  { sampleRecording with
    openEvents := fun fileName =>
      if fileName = "/data/playbacks/sessions/default/e0" then EventFile.lines ["\x7bbad", "b"]
      else if fileName = "/data/playbacks/sessions/default/e1" then EventFile.lines ["c", "d"]
      else EventFile.notExist
    jsonUnmarshal := fun line =>
      if line = "\x7bbad" then Except.error (Error.other "unexpected end of JSON input")
      else Except.ok (some [("event", FieldValue.json line)]) }

/-! ## Configuration of the audit log -/

/-- The constants `defaults.LogRotationPeriod`, `defaults.PlaybackRecycleTTL` and
`teleport.DirMaskSharedGroup`, declared outside the sources at hand and taken as
parameters. -/
structure ConfigDefaults where
  LogRotationPeriod : Int
  PlaybackRecycleTTL : Int
  DirMaskSharedGroup : Nat
deriving DecidableEq, Repr

/-- The Go struct `AuditLogConfig`.  A pointer or interface field is an option
(`none` is nil), holding a name for the value it points to. -/
structure AuditLogConfig where
  DataDir : String
  ServerID : String
  RotationPeriod : Int
  Clock : Option String
  UIDGenerator : Option String
  GID : Option Int
  UID : Option Int
  DirMask : Option Nat
  PlaybackRecycleTTL : Int
  UploadHandler : Option String
  ExternalLog : Option String
  Context : Option String
deriving DecidableEq, Repr

/-- The defaults `CheckAndSetDefaults` sets before it checks UID and GID: Clock,
UIDGenerator, RotationPeriod and DirMask, each only when it is nil or zero. -/
def AuditLogConfig.setEarlyDefaults (d : ConfigDefaults) (a : AuditLogConfig) :
    AuditLogConfig :=
  let a := if a.Clock = none then { a with Clock := some "clockwork.NewRealClock()" } else a
  let a :=
    if a.UIDGenerator = none then { a with UIDGenerator := some "utils.NewRealUID()" } else a
  let a :=
    if a.RotationPeriod = 0 then { a with RotationPeriod := d.LogRotationPeriod } else a
  if a.DirMask = none then { a with DirMask := some d.DirMaskSharedGroup } else a

/-- The defaults `CheckAndSetDefaults` sets after it checked UID and GID:
PlaybackRecycleTTL and Context, each only when it is zero or nil. -/
def AuditLogConfig.setLateDefaults (d : ConfigDefaults) (a : AuditLogConfig) :
    AuditLogConfig :=
  let a :=
    if a.PlaybackRecycleTTL = 0 then { a with PlaybackRecycleTTL := d.PlaybackRecycleTTL }
    else a
  if a.Context = none then { a with Context := some "context.Background()" } else a

/-- The method `CheckAndSetDefaults` of `AuditLogConfig`: the configuration as the
call leaves it (it is changed in place, also when a later check fails) and the
error returned. -/
def AuditLogConfig.CheckAndSetDefaults (d : ConfigDefaults) (a : AuditLogConfig) :
    AuditLogConfig × Option Error :=
  if a.DataDir = "" then (a, some (Error.badParameter "missing parameter DataDir"))
  else if a.ServerID = "" then (a, some (Error.badParameter "missing parameter ServerID"))
  else if a.UploadHandler = none then
    (a, some (Error.badParameter "missing parameter UploadHandler"))
  else
    let a := a.setEarlyDefaults d
    if (a.GID ≠ none ∧ a.UID = none) ∨ (a.UID ≠ none ∧ a.GID = none) then
      (a, some (Error.badParameter "if UID or GID is set, both should be specified"))
    else (a.setLateDefaults d, none)

/-- Constants for the samples: rotation every 24 hours, playback TTL 3 hours, mask 0770. -/
def sampleDefaults : ConfigDefaults :=
  { LogRotationPeriod := 86400000000000, PlaybackRecycleTTL := 10800000000000,
    DirMaskSharedGroup := 504 }

/-- A configuration for the samples: only the mandatory fields and a rotation period. -/
def sampleConfig : AuditLogConfig :=
  { DataDir := "/data", ServerID := "node1", RotationPeriod := 3600000000000, Clock := none,
    UIDGenerator := none, GID := none, UID := none, DirMask := none, PlaybackRecycleTTL := 0,
    UploadHandler := some "handler", ExternalLog := none, Context := none }

/-! ## PKCS11 key store -/

/-- The Go enum `types.PrivateKeyType`. -/
inductive PrivateKeyType where
  | RAW
  | PKCS11
deriving DecidableEq, Repr

/-- Modelled from the spec: the variable `pkcs11Prefix` is declared outside the
sources at hand; `parseKeyID` strips it with the comment `strip pkcs11: prefix`.
The bytes of `pkcs11:`. -/
def pkcs11Prefix : List Byte := [112, 107, 99, 115, 49, 49, 58]

/-- Modelled from the spec: the function `KeyType` is defined outside the sources
at hand; a key that starts with the pkcs11 prefix is a PKCS11 key, any other key
is a raw key. -/
def KeyType (key : List Byte) : PrivateKeyType :=
  if key.take pkcs11Prefix.length = pkcs11Prefix then PrivateKeyType.PKCS11
  else PrivateKeyType.RAW

/-- The Go struct `keyID`. -/
structure keyID where
  HostID : String
  KeyID : String
deriving DecidableEq, Repr

/-- The library functions the key store calls: `json.Marshal` and `json.Unmarshal`
on a `keyID`, and `uuid.Parse` followed by `id[:]`. -/
structure KeystoreEnv where
  jsonMarshal : keyID → Except Error (List Byte)
  jsonUnmarshal : List Byte → Except Error keyID
  uuidParse : String → Except Error (List Byte)

/-- The method `marshal` of `keyID`: the JSON encoding behind the pkcs11 prefix. -/
def keyID.marshal (env : KeystoreEnv) (k : keyID) : Except Error (List Byte) :=
  match env.jsonMarshal k with
  | Except.error err => Except.error (traceWrap err)
  | Except.ok buf => Except.ok ( pkcs11Prefix ++ buf)

/-- The method `pkcs11Key` of `keyID`: the bytes of the UUID in `KeyID`. -/
def keyID.pkcs11Key (env : KeystoreEnv) (k : keyID) : Except Error (List Byte) :=
  match env.uuidParse k.KeyID with
  | Except.error err => Except.error (traceWrap err)
  | Except.ok id => Except.ok id

/-- The function `parseKeyID`: check the key type, strip the prefix, decode. -/
def parseKeyID (env : KeystoreEnv) (key : List Byte) : Except Error keyID :=
  if KeyType key ≠ PrivateKeyType.PKCS11 then
    Except.error (Error.badParameter "unable to parse invalid pkcs11 key")
  else
    match env.jsonUnmarshal (key.drop pkcs11Prefix.length) with
    | Except.error err => Except.error (traceWrap err)
    | Except.ok k => Except.ok k

/-- A public key: an RSA key with modulus and exponent, or a key of another kind. -/
inductive PublicKey where
  | rsa (n e : Nat)
  | other (algorithm : String)
deriving DecidableEq, Repr

/-- A key pair stored in the HSM: its CKA_ID, its CKA_LABEL and its public key. -/
structure HsmKey where
  id : List Byte
  label : String
  pub : PublicKey
deriving DecidableEq, Repr

/-- The content of the HSM. -/
abbrev Hsm := List HsmKey

/-- What the HSM answers besides its content: a failure of `FindKeyPair`, of
`FindKeyPairs`, and of `Delete` for a key. -/
structure HsmFaults where
  findKeyPair : Option Error
  findKeyPairs : Option Error
  delete : HsmKey → Option Error

/-- The method `FindKeyPair(id, label)` of the HSM context: the first key pair with
this id and label, nil if there is none. -/
def FindKeyPair (faults : HsmFaults) (hsm : Hsm) (id : List Byte) (label : String) :
    Except Error (Option HsmKey) :=
  match faults.findKeyPair with
  | some err => Except.error err
  | none => Except.ok (hsm.find? (fun k => k.id = id ∧ k.label = label))

/-- The method `FindKeyPairs(nil, label)` of the HSM context: all key pairs with this label. -/
def FindKeyPairs (faults : HsmFaults) (hsm : Hsm) (label : String) : Except Error (List HsmKey) :=
  match faults.findKeyPairs with
  | some err => Except.error err
  | none => Except.ok (hsm.filter (fun k => k.label = label))

/-- The method `getSigner` of the PKCS11 key store. -/
def getSigner (env : KeystoreEnv) (faults : HsmFaults) (hostUUID : String) (hsm : Hsm)
    (rawKey : List Byte) : Except Error HsmKey :=
  match KeyType rawKey with
  | PrivateKeyType.PKCS11 =>
    match parseKeyID env rawKey with
    | Except.error err => Except.error (traceWrap err)
    | Except.ok k =>
      if k.HostID ≠ hostUUID then
        Except.error (Error.notFound
          s!"given pkcs11 key is for host: {k.HostID}, but this host is: {hostUUID}")
      else
        match k.pkcs11Key env with
        | Except.error err => Except.error (traceWrap err)
        | Except.ok pkcs11ID =>
          match FindKeyPair faults hsm pkcs11ID hostUUID with
          | Except.error err => Except.error (traceWrap err)
          | Except.ok none => Except.error (Error.notFound "failed to find keypair for given id")
          | Except.ok (some signer) => Except.ok signer
  | PrivateKeyType.RAW =>
    Except.error (Error.badParameter "cannot get raw signer from PKCS11 KeyStore")

/-- The first loop of `DeleteUnusedKeys`: collect the RSA public keys of the used
keys that are PKCS11 keys and resolve on this host. -/
def usedPublicKeysLoop (env : KeystoreEnv) (faults : HsmFaults) (hostUUID : String)
    (hsm : Hsm) : List (List Byte) → List PublicKey → Except Error (List PublicKey)
  | [], usedPublicKeys => Except.ok usedPublicKeys
  | usedKey :: rest, usedPublicKeys =>
    if KeyType usedKey ≠ PrivateKeyType.PKCS11 then
      usedPublicKeysLoop env faults hostUUID hsm rest usedPublicKeys
    else
      match getSigner env faults hostUUID hsm usedKey with
      | Except.error err =>
        if err.isNotFound then usedPublicKeysLoop env faults hostUUID hsm rest usedPublicKeys
        else Except.error (traceWrap err)
      | Except.ok signer =>
        match signer.pub with
        | PublicKey.rsa n e =>
          usedPublicKeysLoop env faults hostUUID hsm rest (usedPublicKeys ++ [PublicKey.rsa n e])
        | PublicKey.other algorithm =>
          Except.error (Error.badParameter s!"unknown public key type: {algorithm}")

/-- The closure `keyIsUsed` of `DeleteUnusedKeys`: a key that is not an RSA key counts
as used. -/
def keyIsUsed (usedPublicKeys : List PublicKey) (signer : HsmKey) : Bool :=
  match signer.pub with
  | PublicKey.other _ => true
  | PublicKey.rsa n e => usedPublicKeys.any (fun k => k = PublicKey.rsa n e)

/-- The second loop of `DeleteUnusedKeys`: delete every key that is not used; a
failed deletion is logged and the loop goes on. A successful `Delete` destroys this
one key pair object. -/
def deleteUnusedLoop (faults : HsmFaults) (usedPublicKeys : List PublicKey) :
    List HsmKey → Hsm → Hsm
  | [], hsm => hsm
  | signer :: rest, hsm =>
    if keyIsUsed usedPublicKeys signer then deleteUnusedLoop faults usedPublicKeys rest hsm
    else
      match faults.delete signer with
      | some _ => deleteUnusedLoop faults usedPublicKeys rest hsm
      | none => deleteUnusedLoop faults usedPublicKeys rest (hsm.erase signer)

/-- The method `DeleteUnusedKeys`: the content of the HSM afterwards and the error. -/
def DeleteUnusedKeys (env : KeystoreEnv) (faults : HsmFaults) (hostUUID : String) (hsm : Hsm)
    (usedKeys : List (List Byte)) : Hsm × Option Error :=
  match usedPublicKeysLoop env faults hostUUID hsm usedKeys [] with
  | Except.error err => (hsm, some err)
  | Except.ok usedPublicKeys =>
    match FindKeyPairs faults hsm hostUUID with
    | Except.error err => (hsm, some (traceWrap err))
    | Except.ok signers => (deleteUnusedLoop faults usedPublicKeys signers hsm, none)

/-- The public keys of the entries of `usedKeys` that resolve on this host (used to
state the effect of `DeleteUnusedKeys`). -/
def resolvedPublicKeys (env : KeystoreEnv) (faults : HsmFaults) (hostUUID : String)
    (hsm : Hsm) (usedKeys : List (List Byte)) : List PublicKey :=
  usedKeys.filterMap (fun usedKey =>
    match getSigner env faults hostUUID hsm usedKey with
    | Except.ok signer => some signer.pub
    | Except.error _ => none)

/-- Whether `DeleteUnusedKeys` is to keep a key of the HSM: a key with another label, a
key that is not an RSA key, or a key whose public key is the one of a resolved used key. -/
def keptKey (env : KeystoreEnv) (faults : HsmFaults) (hostUUID : String) (hsm : Hsm)
    (usedKeys : List (List Byte)) (key : HsmKey) : Bool :=
  decide (key.label ≠ hostUUID) ||
  (match key.pub with
   | PublicKey.other _ => true
   | PublicKey.rsa _ _ => false) ||
  decide (key.pub ∈ resolvedPublicKeys env faults hostUUID hsm usedKeys)

/-- A sample key identifier of host `host-1`. -/
def sampleKeyID : keyID := { HostID := "host-1", KeyID := "11111111-1111-1111-1111-111111111111" }

/-- A sample key identifier of host `host-1` for a key that is not in the HSM. -/
def sampleGoneKeyID : keyID := { HostID := "host-1", KeyID := "33333333-3333-3333-3333-333333333333" }

/-- A sample key identifier of another host. -/
def sampleForeignKeyID : keyID := { HostID := "host-2", KeyID := "22222222-2222-2222-2222-222222222222" }

/-- Sample library functions: three key identifiers have the one-byte encodings 1, 2 and
3, and the UUID of a key identifier parses to the byte of its first digit. -/
def sampleKeystoreEnv : KeystoreEnv where
  jsonMarshal := fun k =>
    if k = sampleKeyID then Except.ok [1]
    else if k = sampleForeignKeyID then Except.ok [2]
    else if k = sampleGoneKeyID then Except.ok [3]
    else Except.error (Error.other "json: unsupported value")
  jsonUnmarshal := fun buf =>
    if buf = [1] then Except.ok sampleKeyID
    else if buf = [2] then Except.ok sampleForeignKeyID
    else if buf = [3] then Except.ok sampleGoneKeyID
    else Except.error (Error.other "invalid character")
  uuidParse := fun s =>
    if s = "11111111-1111-1111-1111-111111111111" then Except.ok [17]
    else if s = "22222222-2222-2222-2222-222222222222" then Except.ok [34]
    else if s = "33333333-3333-3333-3333-333333333333" then Except.ok [51]
    else Except.error (Error.other "invalid UUID length")

/-- An HSM that answers every call. -/
def sampleFaults : HsmFaults where
  findKeyPair := none
  findKeyPairs := none
  delete := fun _ => none

/-- A sample HSM: a used RSA key and an unused RSA key of `host-1`, a key of `host-1`
that is not an RSA key, and an RSA key of `host-2`. -/
def sampleHsm : Hsm :=
  [ { id := [17], label := "host-1", pub := PublicKey.rsa 3233 17 },
    { id := [68], label := "host-1", pub := PublicKey.rsa 2773 17 },
    { id := [85], label := "host-1", pub := PublicKey.other "ecdsa" },
    { id := [34], label := "host-2", pub := PublicKey.rsa 8633 5 } ]

/-- Sample used keys: the key of `host-1` in the HSM, a key of `host-2`, a key of
`host-1` that is gone, and a raw key. -/
def sampleUsedKeys : List (List Byte) :=
  [ pkcs11Prefix ++ [1], pkcs11Prefix ++ [2], pkcs11Prefix ++ [3], [45, 45, 45] ]

/-! ## Cloud users service -/

/-- The `Duration` of the ticker in `Users.Start`: `u.cfg.Interval * 7 / 6` on
`time.Duration`, a 64-bit count of nanoseconds; the product wraps around and the
division truncates toward zero. -/
def tickerDuration (Interval : Int) : Int := (wrapInt64 (Interval * 7)).tdiv 6

/-- Modelled from the spec: `NewSeventhJitter` is defined outside the sources at hand;
the comment in `Users.Start` gives its range as `[6n/7, n)`. Whether a period `p` of
whole nanoseconds lies in this range for the duration `n`: `6n/7 <= p` is `6n <= 7p`,
with no rounding of the lower end. -/
def inSeventhJitterRange (n p : Int) : Bool := decide (6 * n ≤ 7 * p ∧ p < n)

/-! ## Theorems: floor lookup in the session index -/

/-- The reverse scan of `eventsFile` from position `n` downwards: it stops at the
greatest position below `n` whose `Index` is at most the query, and reports
NotFound when every position below `n` has a greater `Index`. -/
theorem eventsFileLoop_scan (idx : sessionIndex) (q : Int) :
    ∀ (n : Nat) (h : n ≤ idx.events.length),
      (∃ i, ∃ hi : i < idx.events.length, idx.eventsFileLoop q n h = Except.ok i ∧ i < n ∧
          (idx.events.get ⟨i, hi⟩).Index ≤ q ∧
          ∀ j (hj : j < idx.events.length), i < j → j < n → q < (idx.events.get ⟨j, hj⟩).Index) ∨
      (∃ msg, idx.eventsFileLoop q n h = Except.error (Error.notFound msg) ∧
          ∀ j (hj : j < idx.events.length), j < n → q < (idx.events.get ⟨j, hj⟩).Index) := by
  intro n
  induction n with
  | zero =>
    intro h
    right
    exact ⟨_, rfl, fun j _ hj => absurd hj (Nat.not_lt_zero j)⟩
  | succ i ih =>
    intro h
    have hi : i < idx.events.length := h
    by_cases hq : q ≥ (idx.events.get ⟨i, hi⟩).Index
    · left
      refine ⟨i, hi, ?_, Nat.lt_succ_self i, hq, ?_⟩
      · simp only [sessionIndex.eventsFileLoop]
        rw [if_pos hq]
      · intro j _ h1 h2
        omega
    · have hstep : idx.eventsFileLoop q (i + 1) h
          = idx.eventsFileLoop q i (Nat.le_of_succ_le h) := by
        simp only [sessionIndex.eventsFileLoop]
        rw [if_neg hq]
      rw [hstep]
      have hlt : q < (idx.events.get ⟨i, hi⟩).Index := lt_of_not_ge hq
      rcases ih (Nat.le_of_succ_le h) with ⟨k, hk, hres, hkn, hle, hgt⟩ | ⟨msg, hres, hgt⟩
      · left
        refine ⟨k, hk, hres, Nat.lt_succ_of_lt hkn, hle, ?_⟩
        intro j hj h1 h2
        by_cases hji : j = i
        · subst hji
          exact hlt
        · exact hgt j hj h1 (by omega)
      · right
        refine ⟨msg, hres, ?_⟩
        intro j hj h2
        by_cases hji : j = i
        · subst hji
          exact hlt
        · exact hgt j hj (by omega)

/-- The reverse scan of `chunksFile` from position `n` downwards: the same floor
search over `Offset`, returning the path and base offset of the entry found. -/
theorem chunksFileLoop_scan (filepathJoin : List String → String) (idx : sessionIndex) (q : Int) :
    ∀ (n : Nat) (h : n ≤ idx.chunks.length),
      (∃ i, ∃ hi : i < idx.chunks.length,
          idx.chunksFileLoop filepathJoin q n h
            = Except.ok (idx.chunksFileName filepathJoin i hi, (idx.chunks.get ⟨i, hi⟩).Offset) ∧
          i < n ∧ (idx.chunks.get ⟨i, hi⟩).Offset ≤ q ∧
          ∀ j (hj : j < idx.chunks.length), i < j → j < n → q < (idx.chunks.get ⟨j, hj⟩).Offset) ∨
      (∃ msg, idx.chunksFileLoop filepathJoin q n h = Except.error (Error.notFound msg) ∧
          ∀ j (hj : j < idx.chunks.length), j < n → q < (idx.chunks.get ⟨j, hj⟩).Offset) := by
  intro n
  induction n with
  | zero =>
    intro h
    right
    exact ⟨_, rfl, fun j _ hj => absurd hj (Nat.not_lt_zero j)⟩
  | succ i ih =>
    intro h
    have hi : i < idx.chunks.length := h
    by_cases hq : q ≥ (idx.chunks.get ⟨i, hi⟩).Offset
    · left
      refine ⟨i, hi, ?_, Nat.lt_succ_self i, hq, ?_⟩
      · simp only [sessionIndex.chunksFileLoop]
        rw [if_pos hq]
      · intro j _ h1 h2
        omega
    · have hstep : idx.chunksFileLoop filepathJoin q (i + 1) h
          = idx.chunksFileLoop filepathJoin q i (Nat.le_of_succ_le h) := by
        simp only [sessionIndex.chunksFileLoop]
        rw [if_neg hq]
      rw [hstep]
      have hlt : q < (idx.chunks.get ⟨i, hi⟩).Offset := lt_of_not_ge hq
      rcases ih (Nat.le_of_succ_le h) with ⟨k, hk, hres, hkn, hle, hgt⟩ | ⟨msg, hres, hgt⟩
      · left
        refine ⟨k, hk, hres, Nat.lt_succ_of_lt hkn, hle, ?_⟩
        intro j hj h1 h2
        by_cases hji : j = i
        · subst hji
          exact hlt
        · exact hgt j hj h1 (by omega)
      · right
        refine ⟨msg, hres, ?_⟩
        intro j hj h2
        by_cases hji : j = i
        · subst hji
          exact hlt
        · exact hgt j hj (by omega)

/-- In a list strictly ascending by a key, the key at position 0 is at most the
key at every position. -/
theorem key_zero_le_of_pairwise {key : indexEntry → Int} (l : List indexEntry)
    (hs : l.Pairwise (fun a b => key a < key b)) (i : Nat) (hi : i < l.length) :
    key (l.get ⟨0, Nat.lt_of_le_of_lt (Nat.zero_le i) hi⟩) ≤ key (l.get ⟨i, hi⟩) := by
  by_cases h0 : i = 0
  · subst h0
    exact le_refl _
  · have hlt : (⟨0, Nat.lt_of_le_of_lt (Nat.zero_le i) hi⟩ : Fin l.length) < ⟨i, hi⟩ :=
      Nat.pos_of_ne_zero h0
    exact le_of_lt (List.pairwise_iff_get.mp hs _ _ hlt)

/-- C1: for a session index whose event entries are strictly ascending by Index and
whose chunk entries are strictly ascending by Offset, and every query `q`,
`eventsFile q` returns the position `i` with `events[i].Index <= q` and (`i` last or
`q < events[i+1].Index`), `chunksFile q` returns the path and Offset of the chunk
entry with the same floor property, and each returns NotFound exactly when its
list is empty or `q` is below the key of the first entry. -/
theorem eventsFile_chunksFile_floor (filepathJoin : List String → String)
    (idx : sessionIndex) (q : Int)
    (hev : idx.events.Pairwise (fun a b => a.Index < b.Index))
    (hch : idx.chunks.Pairwise (fun a b => a.Offset < b.Offset)) :
    ((∃ i, ∃ hi : i < idx.events.length, idx.eventsFile q = Except.ok i ∧
          (idx.events.get ⟨i, hi⟩).Index ≤ q ∧
          ∀ hn : i + 1 < idx.events.length, q < (idx.events.get ⟨i + 1, hn⟩).Index) ∨
      (∃ msg, idx.eventsFile q = Except.error (Error.notFound msg))) ∧
    ((∃ msg, idx.eventsFile q = Except.error (Error.notFound msg)) ↔
      (idx.events = [] ∨ ∃ h0 : 0 < idx.events.length, q < (idx.events.get ⟨0, h0⟩).Index)) ∧
    ((∃ i, ∃ hi : i < idx.chunks.length,
          idx.chunksFile filepathJoin q
            = Except.ok (idx.chunksFileName filepathJoin i hi, (idx.chunks.get ⟨i, hi⟩).Offset) ∧
          (idx.chunks.get ⟨i, hi⟩).Offset ≤ q ∧
          ∀ hn : i + 1 < idx.chunks.length, q < (idx.chunks.get ⟨i + 1, hn⟩).Offset) ∨
      (∃ msg, idx.chunksFile filepathJoin q = Except.error (Error.notFound msg))) ∧
    ((∃ msg, idx.chunksFile filepathJoin q = Except.error (Error.notFound msg)) ↔
      (idx.chunks = [] ∨ ∃ h0 : 0 < idx.chunks.length, q < (idx.chunks.get ⟨0, h0⟩).Offset)) := by
  have hE := eventsFileLoop_scan idx q idx.events.length (Nat.le_refl _)
  have hC := chunksFileLoop_scan filepathJoin idx q idx.chunks.length (Nat.le_refl _)
  refine ⟨?_, ?_, ?_, ?_⟩
  · rcases hE with ⟨i, hi, hres, _, hle, hgt⟩ | ⟨msg, hres, _⟩
    · exact Or.inl ⟨i, hi, hres, hle, fun hn => hgt (i + 1) hn (Nat.lt_succ_self i) hn⟩
    · exact Or.inr ⟨msg, hres⟩
  · constructor
    · rintro ⟨msg, hmsg⟩
      rcases hE with ⟨i, hi, hres, _, _, _⟩ | ⟨_, _, hgt⟩
      · unfold sessionIndex.eventsFile at hmsg
        rw [hres] at hmsg
        cases hmsg
      · by_cases hlen : 0 < idx.events.length
        · exact Or.inr ⟨hlen, hgt 0 hlen hlen⟩
        · exact Or.inl (List.length_eq_zero.mp (by omega))
    · intro hcase
      rcases hE with ⟨i, hi, _, _, hle, _⟩ | ⟨msg, hres, _⟩
      · exfalso
        rcases hcase with hnil | ⟨h0, hlt⟩
        · rw [hnil] at hi
          exact Nat.not_lt_zero i hi
        · have := key_zero_le_of_pairwise idx.events hev i hi
          omega
      · exact ⟨msg, hres⟩
  · rcases hC with ⟨i, hi, hres, _, hle, hgt⟩ | ⟨msg, hres, _⟩
    · exact Or.inl ⟨i, hi, hres, hle, fun hn => hgt (i + 1) hn (Nat.lt_succ_self i) hn⟩
    · exact Or.inr ⟨msg, hres⟩
  · constructor
    · rintro ⟨msg, hmsg⟩
      rcases hC with ⟨i, hi, hres, _, _, _⟩ | ⟨_, _, hgt⟩
      · unfold sessionIndex.chunksFile at hmsg
        rw [hres] at hmsg
        cases hmsg
      · by_cases hlen : 0 < idx.chunks.length
        · exact Or.inr ⟨hlen, hgt 0 hlen hlen⟩
        · exact Or.inl (List.length_eq_zero.mp (by omega))
    · intro hcase
      rcases hC with ⟨i, hi, _, _, hle, _⟩ | ⟨msg, hres, _⟩
      · exfalso
        rcases hcase with hnil | ⟨h0, hlt⟩
        · rw [hnil] at hi
          exact Nat.not_lt_zero i hi
        · have := key_zero_le_of_pairwise idx.chunks hch i hi
          omega
      · exact ⟨msg, hres⟩

/-- Witness of C1 on the sample index (event files from events 0 and 2, chunk
files from offsets 0, 3 and 6) at the query 4. -/
theorem eventsFile_chunksFile_floor_witness :
    sampleIndex.events.Pairwise (fun a b => a.Index < b.Index) ∧
    sampleIndex.chunks.Pairwise (fun a b => a.Offset < b.Offset) ∧
    ((∃ i, ∃ hi : i < sampleIndex.events.length, sampleIndex.eventsFile 4 = Except.ok i ∧
          (sampleIndex.events.get ⟨i, hi⟩).Index ≤ 4 ∧
          ∀ hn : i + 1 < sampleIndex.events.length,
            4 < (sampleIndex.events.get ⟨i + 1, hn⟩).Index) ∨
      (∃ msg, sampleIndex.eventsFile 4 = Except.error (Error.notFound msg))) ∧
    ((∃ msg, sampleIndex.eventsFile 4 = Except.error (Error.notFound msg)) ↔
      (sampleIndex.events = [] ∨
        ∃ h0 : 0 < sampleIndex.events.length, 4 < (sampleIndex.events.get ⟨0, h0⟩).Index)) ∧
    ((∃ i, ∃ hi : i < sampleIndex.chunks.length,
          sampleIndex.chunksFile sampleJoin 4
            = Except.ok (sampleIndex.chunksFileName sampleJoin i hi,
                (sampleIndex.chunks.get ⟨i, hi⟩).Offset) ∧
          (sampleIndex.chunks.get ⟨i, hi⟩).Offset ≤ 4 ∧
          ∀ hn : i + 1 < sampleIndex.chunks.length,
            4 < (sampleIndex.chunks.get ⟨i + 1, hn⟩).Offset) ∨
      (∃ msg, sampleIndex.chunksFile sampleJoin 4 = Except.error (Error.notFound msg))) ∧
    ((∃ msg, sampleIndex.chunksFile sampleJoin 4 = Except.error (Error.notFound msg)) ↔
      (sampleIndex.chunks = [] ∨
        ∃ h0 : 0 < sampleIndex.chunks.length, 4 < (sampleIndex.chunks.get ⟨0, h0⟩).Offset)) :=
  ⟨by decide, by decide,
    eventsFile_chunksFile_floor sampleJoin sampleIndex 4 (by decide) (by decide)⟩

/-! ## Theorems: reading chunks of a tiled recording -/

/-- A value inside the `int64` range is unchanged by wrap-around. -/
theorem wrapInt64_of_range (x : Int) (h1 : -(2 ^ 63) ≤ x) (h2 : x < 2 ^ 63) :
    wrapInt64 x = x := by
  unfold wrapInt64
  omega

/-- A prefix of a list followed by a prefix of what follows it is a prefix. -/
theorem take_append_take_drop (l a b : List Byte) (ha : a = l.take a.length)
    (hb : b = (l.drop a.length).take b.length) :
    a ++ b = l.take (a ++ b).length := by
  rw [List.length_append, List.take_add]
  rw [← ha, ← hb]

/-- One read of a tiled recording: `getSessionChunk` succeeds at every offset
`>= 0` and returns a prefix of the stream from that offset, at most `maxBytes` long. -/
theorem getSessionChunk_tiled (r : Recording) (ns sid : String) (idx : sessionIndex)
    (stream : List Byte) (ht : Tiles r ns sid idx stream)
    (o M : Int) (ho : 0 ≤ o) (ho2 : o < 2 ^ 63) :
    ∃ out, getSessionChunk r ns sid o M = Except.ok out ∧
      out = (stream.drop o.toNat).take out.length ∧ out.length ≤ M.toNat := by
  obtain ⟨hns, _, hidx, ⟨h0, hfirst⟩, hfiles⟩ := ht
  rcases chunksFileLoop_scan r.filepathJoin idx o idx.chunks.length (Nat.le_refl _) with
    ⟨i, hi, hres, _, hle, _⟩ | ⟨_, _, hgt⟩
  · obtain ⟨hnonneg, _, hfile⟩ := hfiles i hi
    have hpos : wrapInt64 (o - (idx.chunks.get ⟨i, hi⟩).Offset)
        = o - (idx.chunks.get ⟨i, hi⟩).Offset :=
      wrapInt64_of_range _ (by omega) (by omega)
    have hcf : idx.chunksFile r.filepathJoin o
        = Except.ok (idx.chunksFileName r.filepathJoin i hi, (idx.chunks.get ⟨i, hi⟩).Offset) := hres
    refine ⟨(((stream.drop (idx.chunks.get ⟨i, hi⟩).Offset.toNat).take
        (idx.chunkEnd stream.length i - (idx.chunks.get ⟨i, hi⟩).Offset).toNat).drop
          (o - (idx.chunks.get ⟨i, hi⟩).Offset).toNat).take M.toNat, ?_, ?_, ?_⟩
    · unfold getSessionChunk
      rw [if_neg hns, hidx]
      simp only [hcf, hfile, hpos]
      rw [if_neg (by omega)]
    · have hsum : (idx.chunks.get ⟨i, hi⟩).Offset.toNat
          + (o - (idx.chunks.get ⟨i, hi⟩).Offset).toNat = o.toNat := by omega
      rw [List.drop_take, List.drop_drop, hsum, List.take_take, List.length_take]
      rw [List.take_eq_take]
      simp
    · rw [List.length_take]
      exact Nat.min_le_left _ _
  · exfalso
    have := hgt 0 h0 h0
    omega

/-- The loop of `GetSessionChunk` on a tiled recording: with more fuel than the
byte budget it returns, and what it appends to `data` is a prefix of the stream
from `offsetBytes`, at most `maxBytes` long. -/
theorem GetSessionChunkLoop_tiled (r : Recording) (ns sid : String) (idx : sessionIndex)
    (stream : List Byte) (ht : Tiles r ns sid idx stream)
    (hT : (stream.length : Int) < 2 ^ 63) :
    ∀ (fuel : Nat) (data : List Byte) (o M : Int), 0 ≤ o → o < 2 ^ 63 → 0 ≤ M → M < 2 ^ 63 →
      M < fuel →
      ∃ x, GetSessionChunkLoop r ns sid fuel data o M = some (Except.ok (data ++ x)) ∧
        x = (stream.drop o.toNat).take x.length ∧ (x.length : Int) ≤ M := by
  intro fuel
  induction fuel with
  | zero =>
    intro data o M _ _ hM _ hfuel
    exfalso
    simp at hfuel
    omega
  | succ fuel ih =>
    intro data o M ho ho2 hM hM2 hfuel
    obtain ⟨out, hget, hout, hlen⟩ := getSessionChunk_tiled r ns sid idx stream ht o M ho ho2
    by_cases hc : (((data ++ out).length : Nat) : Int) = M ∨ out.length = 0
    · refine ⟨out, ?_, hout, by omega⟩
      simp only [GetSessionChunkLoop, hget]
      rw [if_pos hc]
    · have hne : out.length ≠ 0 := fun h => hc (Or.inr h)
      have hbound : out.length ≤ stream.length - o.toNat := by
        have h1 := congrArg List.length hout
        rw [List.length_take, List.length_drop] at h1
        omega
      have ho' : wrapInt64 (o + out.length) = o + out.length :=
        wrapInt64_of_range _ (by omega) (by omega)
      have hM' : wrapInt64 (M - out.length) = M - out.length :=
        wrapInt64_of_range _ (by omega) (by omega)
      obtain ⟨x, hloop, hx, hxlen⟩ := ih (data ++ out) (o + out.length) (M - out.length)
        (by omega) (by omega) (by omega) (by omega) (by push_cast at hfuel ⊢; omega)
      refine ⟨out ++ x, ?_, ?_, ?_⟩
      · simp only [GetSessionChunkLoop, hget]
        rw [if_neg hc, ho', hM', hloop, List.append_assoc]
      · apply take_append_take_drop _ _ _ hout
        rw [List.drop_drop]
        have hnat : o.toNat + out.length = (o + out.length).toNat := by omega
        rw [hnat]
        exact hx
      · rw [List.length_append]
        push_cast
        omega

/-- C4: on a recording whose chunk files tile the logical byte stream, for every
`offsetBytes >= 0` and `maxBytes >= 0`, `GetSessionChunk` returns (with fuel above
the budget), and the bytes it returns are the contiguous slice of the stream that
starts at `offsetBytes` and has the length of the result, which is at most
`maxBytes`: bytes come in file-offset order, none skipped or repeated. -/
theorem GetSessionChunk_contiguous (r : Recording) (ns sid : String) (idx : sessionIndex)
    (stream : List Byte) (ht : Tiles r ns sid idx stream)
    (hT : (stream.length : Int) < 2 ^ 63)
    (fuel : Nat) (offsetBytes maxBytes : Int)
    (ho : 0 ≤ offsetBytes) (ho2 : offsetBytes < 2 ^ 63)
    (hM : 0 ≤ maxBytes) (hM2 : maxBytes < 2 ^ 63) (hfuel : maxBytes < fuel) :
    ∃ data, GetSessionChunk r fuel ns sid offsetBytes maxBytes = some (Except.ok data) ∧
      data = (stream.drop offsetBytes.toNat).take data.length ∧
      (data.length : Int) ≤ maxBytes := by
  obtain ⟨x, hloop, hx, hxlen⟩ := GetSessionChunkLoop_tiled r ns sid idx stream ht hT
    fuel [] offsetBytes maxBytes ho ho2 hM hM2 hfuel
  refine ⟨x, ?_, hx, hxlen⟩
  unfold GetSessionChunk
  rw [ht.2.1, hloop, List.nil_append]

/-- The three chunk files of the sample recording tile its nine-byte stream. -/
theorem sample_tiles : Tiles sampleRecording "default" "abc" sampleIndex sampleStream := by
  refine ⟨by decide, rfl, rfl, ⟨by decide, rfl⟩, ?_⟩
  intro i hi
  have h3 : i < 3 := hi
  interval_cases i
  · exact ⟨(by decide : (0 : Int) ≤ 0), (by decide : (0 : Int) ≤ 3), rfl⟩
  · exact ⟨(by decide : (0 : Int) ≤ 3), (by decide : (3 : Int) ≤ 6), rfl⟩
  · exact ⟨(by decide : (0 : Int) ≤ 6), (by decide : (6 : Int) ≤ 9), rfl⟩

/-- Witness of C4 on the sample recording: a request of four bytes from offset 3,
which starts in the second chunk file and ends in the third. -/
theorem GetSessionChunk_contiguous_witness :
    Tiles sampleRecording "default" "abc" sampleIndex sampleStream ∧
    ((sampleStream.length : Int) < 2 ^ 63) ∧
    ∃ data, GetSessionChunk sampleRecording 5 "default" "abc" 3 4 = some (Except.ok data) ∧
      data = (sampleStream.drop (3 : Int).toNat).take data.length ∧
      (data.length : Int) ≤ 4 :=
  ⟨sample_tiles, by decide,
    GetSessionChunk_contiguous sampleRecording "default" "abc" sampleIndex sampleStream
      sample_tiles (by decide) 5 3 4 (by decide) (by decide) (by decide) (by decide)
      (by decide)⟩

/-- C2 at a failing input: on the sample recording, whose three chunk files tile the
nine-byte stream, the windows `[0, 3)` and `[3, 9)` read separately give all nine
bytes, while the single call for `[0, 9)` returns only the first six, whatever the
fuel: the concatenation differs from the single call. -/
theorem GetSessionChunk_windows_differ :
    Tiles sampleRecording "default" "abc" sampleIndex sampleStream ∧
    (∀ fuel, 1 ≤ fuel → GetSessionChunk sampleRecording fuel "default" "abc" 0 3
      = some (Except.ok [11, 12, 13])) ∧
    (∀ fuel, 3 ≤ fuel → GetSessionChunk sampleRecording fuel "default" "abc" (0 + 3) 6
      = some (Except.ok [21, 22, 23, 31, 32, 33])) ∧
    (∀ fuel, 2 ≤ fuel → GetSessionChunk sampleRecording fuel "default" "abc" 0 (3 + 6)
      = some (Except.ok [11, 12, 13, 21, 22, 23])) ∧
    [11, 12, 13] ++ [21, 22, 23, 31, 32, 33] ≠ ([11, 12, 13, 21, 22, 23] : List Byte) := by
  refine ⟨sample_tiles, ?_, ?_, ?_, by decide⟩
  · intro fuel h
    obtain ⟨k, rfl⟩ := Nat.exists_eq_add_of_le h
    rw [Nat.add_comm]
    rfl
  · intro fuel h
    obtain ⟨k, rfl⟩ := Nat.exists_eq_add_of_le h
    rw [Nat.add_comm]
    rfl
  · intro fuel h
    obtain ⟨k, rfl⟩ := Nat.exists_eq_add_of_le h
    rw [Nat.add_comm]
    rfl

/-- C3 at a failing input: on the sample recording (total length 9, three chunk
files of three bytes) the call with `offsetBytes = 0` and `maxBytes = 9` spans three
files and returns six bytes, whatever the fuel, where `min(maxBytes, T - offsetBytes)`
is nine: the loop stops after the second file with budget and data left. -/
theorem GetSessionChunk_stops_short :
    Tiles sampleRecording "default" "abc" sampleIndex sampleStream ∧
    sampleStream.length = 9 ∧
    (∀ fuel, 2 ≤ fuel → ∃ data,
      GetSessionChunk sampleRecording fuel "default" "abc" 0 9 = some (Except.ok data) ∧
      data.length = 6 ∧ (data.length : Int) ≠ min 9 ((sampleStream.length : Int) - 0)) := by
  refine ⟨sample_tiles, rfl, ?_⟩
  intro fuel h
  obtain ⟨k, rfl⟩ := Nat.exists_eq_add_of_le h
  refine ⟨[11, 12, 13, 21, 22, 23], ?_, rfl, by decide⟩
  rw [Nat.add_comm]
  rfl

/-! ## Theorems: reading the events of a session -/

/-- The scanner loop on lines that decode: it appends to `retval` the events of
the remaining lines whose number is at least `afterN`. -/
theorem fetchSessionEventsLoop_readable (r : Recording) (afterN : Int) :
    ∀ (ls : List String) (lineNo : Nat) (retval : List EventFields),
      (∀ p ∈ ls.enumFrom lineNo, ¬ ((p.1 : Int) < afterN) →
        ∃ fields, r.jsonUnmarshal p.2 = Except.ok (some fields)) →
      fetchSessionEventsLoop r afterN lineNo ls retval
        = Except.ok (retval ++ (ls.enumFrom lineNo).filterMap (lineEvent r afterN)) := by
  intro ls
  induction ls with
  | nil =>
    intro lineNo retval _
    simp [fetchSessionEventsLoop]
  | cons line rest ih =>
    intro lineNo retval hdec
    have hrest : ∀ p ∈ rest.enumFrom (lineNo + 1), ¬ ((p.1 : Int) < afterN) →
        ∃ fields, r.jsonUnmarshal p.2 = Except.ok (some fields) := by
      intro p hp
      exact hdec p (by rw [List.enumFrom_cons]; exact List.mem_cons_of_mem _ hp)
    by_cases hskip : (lineNo : Int) < afterN
    · simp only [fetchSessionEventsLoop]
      rw [if_pos hskip, ih (lineNo + 1) retval hrest, List.enumFrom_cons, List.filterMap_cons]
      simp [lineEvent, hskip]
    · obtain ⟨fields, hfields⟩ := hdec (lineNo, line)
        (by rw [List.enumFrom_cons]; exact List.mem_cons_self _ _) hskip
      simp only [fetchSessionEventsLoop]
      rw [if_neg hskip]
      simp only [hfields]
      rw [ih (lineNo + 1) _ hrest, List.enumFrom_cons, List.filterMap_cons]
      simp [lineEvent, hskip, hfields]

/-- Reading a readable event file from line `afterN`: `fetchSessionEvents` returns
its events at line numbers `>= afterN`. -/
theorem fetchSessionEvents_readable (r : Recording) (fileName : String) (afterN : Int)
    (h : ReadableFrom r fileName afterN) :
    fetchSessionEvents r fileName afterN = Except.ok (eventsFromLine r fileName afterN) := by
  unfold ReadableFrom at h
  unfold fetchSessionEvents eventsFromLine
  cases hopen : r.openEvents fileName with
  | notExist => rfl
  | openFailed e => rw [hopen] at h; exact absurd h id
  | gzipFailed e => rw [hopen] at h; exact absurd h id
  | lines ls =>
    rw [hopen] at h
    simp only
    rw [fetchSessionEventsLoop_readable r afterN ls 0 [] h, List.nil_append]
    rfl

/-- The file loop of `GetSessionEvents` past the floor file: every remaining file is
read from its first line and its events are appended in index-entry order. -/
theorem GetSessionEventsLoop_after (r : Recording) (idx : sessionIndex) (f : Nat)
    (afterN : Int) :
    ∀ (k i : Nat) (h : i + k = idx.events.length) (acc : List EventFields), f < i →
      (∀ e ∈ idx.events.drop i, ReadableFrom r (idx.entryPath r.filepathJoin e) 0) →
      GetSessionEventsLoop r idx f afterN k i h acc
        = Except.ok (acc ++ (idx.events.drop i).flatMap
            (fun e => eventsFromLine r (idx.entryPath r.filepathJoin e) 0)) := by
  intro k
  induction k with
  | zero =>
    intro i h acc _ _
    have hi : idx.events.length ≤ i := by omega
    rw [List.drop_eq_nil_of_le hi]
    simp [GetSessionEventsLoop]
  | succ k ih =>
    intro i h acc hfi hread
    have hi : i < idx.events.length := by omega
    have hdrop : idx.events.drop i = idx.events.get ⟨i, hi⟩ :: idx.events.drop (i + 1) :=
      List.drop_eq_getElem_cons hi
    have hne : ¬ i = f := by omega
    have hfile : ReadableFrom r (idx.eventsFileName r.filepathJoin i hi) 0 :=
      hread _ (by rw [hdrop]; exact List.mem_cons_self _ _)
    have hrest : ∀ e ∈ idx.events.drop (i + 1),
        ReadableFrom r (idx.entryPath r.filepathJoin e) 0 :=
      fun e he => hread e (by rw [hdrop]; exact List.mem_cons_of_mem _ he)
    simp only [GetSessionEventsLoop]
    rw [if_neg hne, fetchSessionEvents_readable r _ 0 hfile]
    simp only
    rw [ih (i + 1) (by omega) _ (by omega) hrest, hdrop, List.flatMap_cons, List.append_assoc]
    rfl

/-- The file loop of `GetSessionEvents` started at the floor file `f`: the floor
file is read from line `afterN`, every later file from its first line. -/
theorem GetSessionEventsLoop_floor (r : Recording) (idx : sessionIndex) (f : Nat)
    (afterN : Int) (hfl : f < idx.events.length)
    (hfloor : ReadableFrom r (idx.eventsFileName r.filepathJoin f hfl) afterN)
    (hrest : ∀ e ∈ idx.events.drop (f + 1), ReadableFrom r (idx.entryPath r.filepathJoin e) 0) :
    ∀ (k : Nat) (h : f + k = idx.events.length),
      GetSessionEventsLoop r idx f afterN k f h []
        = Except.ok (eventsFromLine r (idx.eventsFileName r.filepathJoin f hfl) afterN ++
            (idx.events.drop (f + 1)).flatMap
              (fun e => eventsFromLine r (idx.entryPath r.filepathJoin e) 0)) := by
  intro k h
  cases k with
  | zero => omega
  | succ k =>
    simp only [GetSessionEventsLoop]
    rw [if_pos trivial, fetchSessionEvents_readable r _ afterN hfloor]
    simp only
    rw [GetSessionEventsLoop_after r idx f afterN k (f + 1) (by omega) _ (by omega) hrest,
      List.nil_append]

/-- The local path of `GetSessionEvents` on a downloaded session with index `idx`
whose floor file for `afterN` is at position `f`. -/
theorem GetSessionEventsLocal_from_floor (r : Recording) (ns sid : String)
    (idx : sessionIndex) (afterN : Int) (f : Nat)
    (hdl : r.downloadSession ns sid = none)
    (hidx : r.readSessionIndex ns sid = Except.ok idx)
    (hf : idx.eventsFile afterN = Except.ok f) (hfl : f < idx.events.length)
    (hfloor : ReadableFrom r (idx.eventsFileName r.filepathJoin f hfl) afterN)
    (hrest : ∀ e ∈ idx.events.drop (f + 1), ReadableFrom r (idx.entryPath r.filepathJoin e) 0) :
    GetSessionEventsLocal r ns sid afterN
      = Except.ok (eventsFromLine r (idx.eventsFileName r.filepathJoin f hfl) afterN ++
          (idx.events.drop (f + 1)).flatMap
            (fun e => eventsFromLine r (idx.entryPath r.filepathJoin e) 0)) := by
  unfold GetSessionEventsLocal
  rw [hdl, hidx]
  simp only [hf]
  rw [dif_pos (Nat.le_of_lt hfl)]
  exact GetSessionEventsLoop_floor r idx f afterN hfl hfloor hrest _ _

/-- A position returned by `eventsFile` is a position of the event list. -/
theorem eventsFile_lt_length (idx : sessionIndex) (afterN : Int) (f : Nat)
    (hf : idx.eventsFile afterN = Except.ok f) : f < idx.events.length := by
  rcases eventsFileLoop_scan idx afterN idx.events.length (Nat.le_refl _) with
    ⟨i, hi, hres, _, _, _⟩ | ⟨_, hres, _⟩
  · unfold sessionIndex.eventsFile at hf
    rw [hres] at hf
    cases hf
    exact hi
  · unfold sessionIndex.eventsFile at hf
    rw [hres] at hf
    cases hf

/-- C5: for a downloaded session with index `idx` (sorted or not) and every `afterN`
for which `eventsFile` finds a floor position `f`, the local path of
`GetSessionEvents` (print events requested, or no external store, or an external
store that answers NotImplemented) returns the events of file `f` at line numbers
`>= afterN` followed by all events of every file after `f`, in index-entry order,
provided those lines decode.  Nothing is assumed of the files before `f`: they
are not read. -/
theorem GetSessionEvents_from_floor (r : Recording) (ns sid : String)
    (idx : sessionIndex) (afterN : Int) (includePrintEvents : Bool) (f : Nat)
    (hns : ns ≠ "")
    (hlocal : includePrintEvents = true ∨ r.ExternalLog = none ∨
      ∃ ext err, r.ExternalLog = some ext ∧
        ext.GetSessionEvents ns sid afterN includePrintEvents = Except.error err ∧
        err.isNotImplemented = true)
    (hdl : r.downloadSession ns sid = none)
    (hidx : r.readSessionIndex ns sid = Except.ok idx)
    (hf : idx.eventsFile afterN = Except.ok f)
    (hfloor : ∀ hfl : f < idx.events.length,
      ReadableFrom r (idx.eventsFileName r.filepathJoin f hfl) afterN)
    (hrest : ∀ e ∈ idx.events.drop (f + 1), ReadableFrom r (idx.entryPath r.filepathJoin e) 0) :
    ∃ hfl : f < idx.events.length,
      GetSessionEvents r ns sid afterN includePrintEvents
        = Except.ok (eventsFromLine r (idx.eventsFileName r.filepathJoin f hfl) afterN ++
            (idx.events.drop (f + 1)).flatMap
              (fun e => eventsFromLine r (idx.entryPath r.filepathJoin e) 0)) := by
  have hfl := eventsFile_lt_length idx afterN f hf
  have hloc := GetSessionEventsLocal_from_floor r ns sid idx afterN f hdl hidx hf hfl
    (hfloor hfl) hrest
  refine ⟨hfl, ?_⟩
  unfold GetSessionEvents
  rw [if_neg hns]
  rcases hlocal with hinc | hnone | ⟨ext, err, hext, herr, hni⟩
  · simp only [hinc, if_true]
    exact hloc
  · rw [hnone]
    simp only [ite_self]
    exact hloc
  · cases includePrintEvents with
    | true =>
      simp only [if_true]
      exact hloc
    | false =>
      simp only [hext, Bool.false_eq_true, if_false]
      rw [herr]
      simp only [hni, if_true]
      exact hloc

/-- Every event file of the sample recording is readable from every line. -/
theorem sample_readable (fileName : String) (k : Int) :
    ReadableFrom sampleRecording fileName k := by
  unfold ReadableFrom
  cases h : sampleRecording.openEvents fileName with
  | notExist => trivial
  | lines ls =>
    intro p _ _
    exact ⟨_, rfl⟩
  | openFailed e =>
    simp only [sampleRecording] at h
    split_ifs at h
  | gzipFailed e =>
    simp only [sampleRecording] at h
    split_ifs at h

/-- Witness of C5 on the sample recording with `afterN = 1`: the floor file is the
first event file, read from line 1, followed by the whole second file. -/
theorem GetSessionEvents_from_floor_witness :
    sampleIndex.eventsFile 1 = Except.ok 0 ∧
    ∃ hfl : 0 < sampleIndex.events.length,
      GetSessionEvents sampleRecording "default" "abc" 1 true
        = Except.ok (eventsFromLine sampleRecording
              (sampleIndex.eventsFileName sampleRecording.filepathJoin 0 hfl) 1 ++
            (sampleIndex.events.drop (0 + 1)).flatMap
              (fun e => eventsFromLine sampleRecording
                (sampleIndex.entryPath sampleRecording.filepathJoin e) 0)) :=
  ⟨rfl, GetSessionEvents_from_floor sampleRecording "default" "abc" sampleIndex 1 true 0
    (by decide) (Or.inl rfl) rfl rfl rfl (fun _ => sample_readable _ _)
    (fun _ _ => sample_readable _ _)⟩

/-- C6 at a failing input: in the sample recording the second event file starts at
sequence number 2 and holds the events 2 and 3 on its lines 0 and 1.  For
`afterN = 3` the floor file is that second file, and the event with sequence number
3 is its line `3 - 2 = 1`; `GetSessionEvents` skips `afterN = 3` lines of the file
instead and returns no event at all. -/
theorem GetSessionEvents_skips_by_line_number :
    sampleIndex.eventsFile 3 = Except.ok 1 ∧
    sampleIndex.events.map (fun e => e.Index) = [0, 2] ∧
    sampleRecording.openEvents (sampleIndex.eventsFileName sampleJoin 0 (by decide))
      = EventFile.lines ["a", "b"] ∧
    sampleRecording.openEvents (sampleIndex.eventsFileName sampleJoin 1 (by decide))
      = EventFile.lines ["c", "d"] ∧
    eventsFromLine sampleRecording (sampleIndex.eventsFileName sampleJoin 1 (by decide)) (3 - 2)
      = [[(EventCursor, FieldValue.int 1), ("event", FieldValue.json "d")]] ∧
    GetSessionEvents sampleRecording "default" "abc" 3 true = Except.ok [] :=
  ⟨rfl, rfl, rfl, rfl, rfl, rfl⟩

/-! ## Theorems: the download coordinator -/

/-- Looking up a key other than the one just inserted skips the new entry. -/
theorem lookup_cons_ne (l : List (String × Ctx)) (p q : String) (c : Ctx) (h : q ≠ p) :
    List.lookup q ((p, c) :: l) = List.lookup q l := by
  have hb : (q == p) = false := by simpa using h
  simp [List.lookup, hb]

/-- Looking up the key just inserted finds the new entry. -/
theorem lookup_cons_self (l : List (String × Ctx)) (p : String) (c : Ctx) :
    List.lookup p ((p, c) :: l) = some c := by
  simp [List.lookup]

/-- Deleting a key from the registry: the key is gone, every other key is as before. -/
theorem lookup_filter_ne (l : List (String × Ctx)) (p q : String) :
    List.lookup q (l.filter (fun e => e.1 ≠ p)) = if q = p then none else List.lookup q l := by
  induction l with
  | nil => simp [List.lookup]
  | cons e rest ih =>
    obtain ⟨k, c⟩ := e
    by_cases hk : k = p
    · subst hk
      have hf : List.filter (fun e : String × Ctx => decide (e.1 ≠ k)) ((k, c) :: rest)
          = List.filter (fun e : String × Ctx => decide (e.1 ≠ k)) rest := by
        simp [List.filter]
      rw [hf, ih]
      by_cases hq : q = k
      · simp [hq]
      · rw [if_neg hq, if_neg hq, lookup_cons_ne rest k q c hq]
    · have hf : List.filter (fun e : String × Ctx => decide (e.1 ≠ p)) ((k, c) :: rest)
          = (k, c) :: List.filter (fun e : String × Ctx => decide (e.1 ≠ p)) rest := by
        simp [List.filter, hk]
      rw [hf]
      by_cases hq : q = k
      · subst hq
        rw [lookup_cons_self, lookup_cons_self, if_neg hk]
      · rw [lookup_cons_ne _ k q c hq, lookup_cons_ne _ k q c hq, ih]

/-- A call for a path that has an entry returns the stored context, a nil
completion function and the unchanged state. -/
theorem createOrGetDownload_of_entry (path : String) (s : AuditLogState) (ctx : Ctx)
    (h : s.activeDownloads.lookup path = some ctx) :
    createOrGetDownload path s = (s, ctx, none) := by
  simp only [createOrGetDownload, h]

/-- A call for a path leaves the entry of every other path as it was. -/
theorem createOrGetDownload_lookup_other (p q : String) (s : AuditLogState) (hq : q ≠ p) :
    (createOrGetDownload p s).1.activeDownloads.lookup q = s.activeDownloads.lookup q := by
  cases h : s.activeDownloads.lookup p with
  | none =>
    simp only [createOrGetDownload, h]
    exact lookup_cons_ne _ _ _ _ hq
  | some ctx =>
    simp only [createOrGetDownload, h]

/-- C7: `createOrGetDownload path` on a registry with no entry for `path` adds an
entry for `path` (leaving every other path as it was) and returns the context of
that entry together with a non-nil completion function; on a registry that already
has an entry for `path` it returns the stored context with a nil completion
function and leaves the state unchanged.  Calling the completion function cancels
the returned context and removes the entry. -/
theorem createOrGetDownload_creates_or_joins (path : String) (s : AuditLogState) :
    match s.activeDownloads.lookup path with
    | none =>
      (createOrGetDownload path s).2.2.isSome = true ∧
      (createOrGetDownload path s).1.activeDownloads.lookup path
        = some (createOrGetDownload path s).2.1 ∧
      (∀ q, q ≠ path → (createOrGetDownload path s).1.activeDownloads.lookup q
        = s.activeDownloads.lookup q) ∧
      (createOrGetDownload path s).1.files = s.files ∧
      (createOrGetDownload path s).1.cancelled = s.cancelled ∧
      (∀ done, (createOrGetDownload path s).2.2 = some done →
        (createOrGetDownload path s).2.1 ∈ (done.run (createOrGetDownload path s).1).cancelled ∧
        (done.run (createOrGetDownload path s).1).activeDownloads.lookup path = none)
    | some ctx => createOrGetDownload path s = (s, ctx, none) := by
  cases h : s.activeDownloads.lookup path with
  | none =>
    have hc : createOrGetDownload path s
        = ({ s with nextCtx := s.nextCtx + 1,
                    activeDownloads := (path, s.nextCtx) :: s.activeDownloads },
            s.nextCtx, some { ctx := s.nextCtx, path := path }) := by
      simp only [createOrGetDownload, h]
    rw [hc]
    refine ⟨rfl, lookup_cons_self _ _ _, fun q hq => lookup_cons_ne _ _ _ _ hq, rfl, rfl, ?_⟩
    intro done hdone
    cases hdone
    refine ⟨List.mem_cons_self _ _, ?_⟩
    simp only [Completion.run, lookup_filter_ne, if_true]
  | some ctx =>
    simp only [createOrGetDownload, h]

/-- A call of a run keeps the invariant of the coordinator. -/
theorem Run.step_coordinated (m m1 : Run) (call : Call) (hinv : m.Coordinated)
    (hstep : m.step call = some m1) : m1.Coordinated := by
  obtain ⟨hnd, hreg⟩ := hinv
  cases call with
  | createOrGet p =>
    cases h : m.log.activeDownloads.lookup p with
    | some ctx =>
      have hm : m1 = { log := m.log, outstanding := m.outstanding } := by
        simp only [Run.step, createOrGetDownload, h] at hstep
        exact (Option.some.inj hstep).symm
      subst hm
      exact ⟨hnd, hreg⟩
    | none =>
      have hm : m1 = Run.mk
          (AuditLogState.mk ((p, m.log.nextCtx) :: m.log.activeDownloads) m.log.cancelled
            (m.log.nextCtx + 1) m.log.files m.log.actions)
          (Completion.mk m.log.nextCtx p :: m.outstanding) := by
        simp only [Run.step, createOrGetDownload, h] at hstep
        exact (Option.some.inj hstep).symm
      subst hm
      have hfresh : p ∉ m.outstanding.map Completion.path := by
        intro hp
        obtain ⟨c, hc, hcp⟩ := List.mem_map.mp hp
        have := (hreg p).mpr ⟨c, hc, hcp⟩
        rw [h] at this
        exact absurd this (by simp)
      refine ⟨?_, ?_⟩
      · simp only [List.map_cons]
        exact List.nodup_cons.mpr ⟨hfresh, hnd⟩
      · intro q
        by_cases hq : q = p
        · subst hq
          simp only [lookup_cons_self, Option.isSome_some, true_iff]
          exact ⟨_, List.mem_cons_self _ _, rfl⟩
        · simp only [lookup_cons_ne _ _ _ _ hq]
          rw [hreg q]
          constructor
          · rintro ⟨c, hc, hcp⟩
            exact ⟨c, List.mem_cons_of_mem _ hc, hcp⟩
          · rintro ⟨c, hc, hcp⟩
            rcases List.mem_cons.mp hc with hnew | hold
            · subst hnew
              exact absurd hcp.symm hq
            · exact ⟨c, hold, hcp⟩
  | complete c =>
    by_cases hc : c ∈ m.outstanding
    · have hm : m1 = { log := c.run m.log, outstanding := m.outstanding.erase c } := by
        simp only [Run.step, if_pos hc] at hstep
        exact (Option.some.inj hstep).symm
      subst hm
      have hnd0 : m.outstanding.Nodup := List.Nodup.of_map _ hnd
      refine ⟨?_, ?_⟩
      · exact List.Nodup.sublist (List.Sublist.map _ (List.erase_sublist c m.outstanding)) hnd
      · intro q
        simp only [Completion.run, lookup_filter_ne]
        by_cases hq : q = c.path
        · rw [if_pos hq]
          simp only [Option.isSome_none, Bool.false_eq_true, false_iff]
          rintro ⟨d, hd, hdp⟩
          have hdm : d ∈ m.outstanding := List.mem_of_mem_erase hd
          have hdc : d = c :=
            List.inj_on_of_nodup_map hnd hdm hc (by rw [hdp, hq])
          subst hdc
          exact (List.Nodup.not_mem_erase hnd0) hd
        · rw [if_neg hq, hreg q]
          constructor
          · rintro ⟨d, hd, hdp⟩
            have hne : d ≠ c := fun hdc => hq (by rw [← hdp, hdc])
            exact ⟨d, (List.mem_erase_of_ne hne).mpr hd, hdp⟩
          · rintro ⟨d, hd, hdp⟩
            exact ⟨d, List.mem_of_mem_erase hd, hdp⟩
    · simp only [Run.step, if_neg hc] at hstep
      cases hstep

/-- Every run keeps the invariant of the coordinator. -/
theorem Run.steps_coordinated (calls : List Call) :
    ∀ (m m1 : Run), m.Coordinated → m.steps calls = some m1 → m1.Coordinated := by
  induction calls with
  | nil =>
    intro m m1 hinv hrun
    simp only [Run.steps] at hrun
    cases hrun
    exact hinv
  | cons call rest ih =>
    intro m m1 hinv hrun
    cases hstep : m.step call with
    | none =>
      simp only [Run.steps, hstep] at hrun
      cases hrun
    | some m2 =>
      simp only [Run.steps, hstep] at hrun
      exact ih m2 m1 (Run.step_coordinated m m2 call hinv hstep) hrun

/-- C8: in every run of `createOrGetDownload` calls and completion invocations in
which a completion function is invoked only while outstanding (so at most once),
at every point the outstanding completion functions have pairwise distinct paths;
while a completion function for a path is outstanding every call for that path
returns a nil completion function and changes nothing, a non-nil completion
function is returned only for a path with none outstanding, and neither a
completion nor a call for one path changes the entry of another path. -/
theorem at_most_one_outstanding_per_path (files : List String) (calls : List Call) (m : Run)
    (hrun : (Run.init files).steps calls = some m) :
    (m.outstanding.map Completion.path).Nodup ∧
    (∀ c ∈ m.outstanding, (createOrGetDownload c.path m.log).2.2 = none ∧
      (createOrGetDownload c.path m.log).1 = m.log) ∧
    (∀ p, (createOrGetDownload p m.log).2.2.isSome = true →
      ∀ c ∈ m.outstanding, c.path ≠ p) ∧
    (∀ c ∈ m.outstanding, ∀ q, q ≠ c.path →
      (c.run m.log).activeDownloads.lookup q = m.log.activeDownloads.lookup q) ∧
    (∀ p q, q ≠ p →
      (createOrGetDownload p m.log).1.activeDownloads.lookup q
        = m.log.activeDownloads.lookup q) := by
  have hinit : (Run.init files).Coordinated := by
    refine ⟨List.nodup_nil, ?_⟩
    intro p
    simp [Run.init, AuditLogState.init, List.lookup]
  obtain ⟨hnd, hreg⟩ := Run.steps_coordinated calls _ m hinit hrun
  have hjoin : ∀ c ∈ m.outstanding, (createOrGetDownload c.path m.log).2.2 = none ∧
      (createOrGetDownload c.path m.log).1 = m.log := by
    intro c hc
    have hsome := (hreg c.path).mpr ⟨c, hc, rfl⟩
    obtain ⟨ctx, hctx⟩ := Option.isSome_iff_exists.mp hsome
    rw [createOrGetDownload_of_entry c.path m.log ctx hctx]
    exact ⟨rfl, rfl⟩
  refine ⟨hnd, hjoin, ?_, ?_, ?_⟩
  · intro p hp c hc hcp
    have := (hjoin c hc).1
    rw [hcp] at this
    rw [this] at hp
    exact absurd hp (by simp)
  · intro c _ q hq
    simp only [Completion.run, lookup_filter_ne, if_neg hq]
  · intro p q hq
    exact createOrGetDownload_lookup_other p q m.log hq

/-- Witness of C8 on the sample run, which ends with one download in flight. -/
theorem at_most_one_outstanding_per_path_witness :
    (Run.init []).steps sampleCalls = some sampleRun ∧
    (sampleRun.outstanding.map Completion.path).Nodup ∧
    (∀ c ∈ sampleRun.outstanding, (createOrGetDownload c.path sampleRun.log).2.2 = none ∧
      (createOrGetDownload c.path sampleRun.log).1 = sampleRun.log) ∧
    (∀ p, (createOrGetDownload p sampleRun.log).2.2.isSome = true →
      ∀ c ∈ sampleRun.outstanding, c.path ≠ p) ∧
    (∀ c ∈ sampleRun.outstanding, ∀ q, q ≠ c.path →
      (c.run sampleRun.log).activeDownloads.lookup q
        = sampleRun.log.activeDownloads.lookup q) ∧
    (∀ p q, q ≠ p →
      (createOrGetDownload p sampleRun.log).1.activeDownloads.lookup q
        = sampleRun.log.activeDownloads.lookup q) :=
  ⟨by decide, at_most_one_outstanding_per_path [] sampleCalls sampleRun (by decide)⟩

/-! ## Theorems: downloading a session -/

/-- C9 at a failing input: the tarball is absent, the transfer succeeds and format
detection fails.  The first `downloadSession` returns the detection error and
leaves the tarball on disk (the entry of the registry is released); the second
call for the same session finds the tarball, returns nil and performs no step at
all: no transfer, no detection, no unpacking. -/
theorem downloadSession_leaves_tarball :
    (downloadSession sampleEnv "default" "abc" (AuditLogState.init [])).2
      = some (traceWrap (Error.other "unknown format")) ∧
    "/data/playbacks/sessions/default/abc.tar"
      ∈ (downloadSession sampleEnv "default" "abc" (AuditLogState.init [])).1.files ∧
    (downloadSession sampleEnv "default" "abc" (AuditLogState.init [])).1.activeDownloads = [] ∧
    (downloadSession sampleEnv "default" "abc" (AuditLogState.init [])).1.actions
      = [Action.openTarball "/data/playbacks/sessions/default/abc.tar", Action.download "abc",
          Action.seek, Action.detectFormat,
          Action.closeTarball "/data/playbacks/sessions/default/abc.tar"] ∧
    (downloadSession sampleEnv "default" "abc"
      (downloadSession sampleEnv "default" "abc" (AuditLogState.init [])).1).2 = none ∧
    (downloadSession sampleEnv "default" "abc"
      (downloadSession sampleEnv "default" "abc" (AuditLogState.init [])).1).1.actions
      = (downloadSession sampleEnv "default" "abc" (AuditLogState.init [])).1.actions := by
  refine ⟨by rfl, by decide, by rfl, by rfl, by rfl, by rfl⟩

/-- C10: when `downloadSession` holds the download entry, finds no tarball, creates it,
and `UploadHandler.Download` returns an error `e`, then `downloadSession` returns
`trace.Wrap(e)`, whose innermost error is that of `e`; the tarball is removed when
the removal succeeds; the steps performed are exactly open, transfer, remove and
close, so no format detection, conversion or extraction is attempted; and the
entry of the registry is released. -/
theorem downloadSession_transfer_failure (env : DownloadEnv) (ns sid : String)
    (s : AuditLogState) (e err : Error)
    (hfree : s.activeDownloads.lookup (env.filepathJoin [env.playbackDir, sid ++ ".tar"]) = none)
    (hstat : osStat env s (env.filepathJoin [env.playbackDir, sid ++ ".tar"]) = some err)
    (hnf : err.isNotFound = true)
    (hopen : env.openFault (env.filepathJoin [env.playbackDir, sid ++ ".tar"]) = none)
    (hdl : env.Download sid = some e) :
    (downloadSession env ns sid s).2 = some (traceWrap e) ∧
    (traceWrap e).unwrap = e.unwrap ∧
    (env.removeFault (env.filepathJoin [env.playbackDir, sid ++ ".tar"]) = none →
      env.filepathJoin [env.playbackDir, sid ++ ".tar"]
        ∉ (downloadSession env ns sid s).1.files) ∧
    (downloadSession env ns sid s).1.actions
      = s.actions ++
        [Action.openTarball (env.filepathJoin [env.playbackDir, sid ++ ".tar"]),
          Action.download sid,
          Action.removeTarball (env.filepathJoin [env.playbackDir, sid ++ ".tar"]),
          Action.closeTarball (env.filepathJoin [env.playbackDir, sid ++ ".tar"])] ∧
    (downloadSession env ns sid s).1.activeDownloads.lookup
      (env.filepathJoin [env.playbackDir, sid ++ ".tar"]) = none := by
  have hres : downloadSession env ns sid s
      = ((Completion.mk s.nextCtx (env.filepathJoin [env.playbackDir, sid ++ ".tar"])).run
          (((osRemove env
              ((osOpenFile env
                (AuditLogState.mk
                  ((env.filepathJoin [env.playbackDir, sid ++ ".tar"], s.nextCtx)
                    :: s.activeDownloads)
                  s.cancelled (s.nextCtx + 1) s.files s.actions)
                (env.filepathJoin [env.playbackDir, sid ++ ".tar"])).1.did (Action.download sid))
              (env.filepathJoin [env.playbackDir, sid ++ ".tar"])).1).did
            (Action.closeTarball (env.filepathJoin [env.playbackDir, sid ++ ".tar"]))),
          some (traceWrap e)) := by
    have hstat1 : osStat env
        (AuditLogState.mk
          ((env.filepathJoin [env.playbackDir, sid ++ ".tar"], s.nextCtx) :: s.activeDownloads)
          s.cancelled (s.nextCtx + 1) s.files s.actions)
        (env.filepathJoin [env.playbackDir, sid ++ ".tar"]) = some err := hstat
    simp only [downloadSession, createOrGetDownload, hfree, downloadSessionOwner, hstat1, hnf,
      osOpenFile, hopen, hdl]
    rfl
  rw [hres]
  refine ⟨rfl, rfl, ?_, ?_, ?_⟩
  · intro hrm
    simp only [Completion.run, AuditLogState.did, osRemove, hrm, osOpenFile, hopen]
    intro hmem
    have := (List.mem_filter.mp hmem).2
    simp at this
  · cases hrm : env.removeFault (env.filepathJoin [env.playbackDir, sid ++ ".tar"]) <;>
      simp [Completion.run, AuditLogState.did, osRemove, hrm, osOpenFile, hopen]
  · simp only [Completion.run, lookup_filter_ne, if_true]

/-- Witness of C10: a failed transfer on an empty playback directory. -/
theorem downloadSession_transfer_failure_witness :
    sampleFailedTransfer.Download "abc" = some (Error.other "connection reset") ∧
    (downloadSession sampleFailedTransfer "default" "abc" (AuditLogState.init [])).2
      = some (traceWrap (Error.other "connection reset")) ∧
    (traceWrap (Error.other "connection reset")).unwrap
      = (Error.other "connection reset").unwrap ∧
    (sampleFailedTransfer.removeFault "/data/playbacks/sessions/default/abc.tar" = none →
      "/data/playbacks/sessions/default/abc.tar"
        ∉ (downloadSession sampleFailedTransfer "default" "abc" (AuditLogState.init [])).1.files) ∧
    (downloadSession sampleFailedTransfer "default" "abc" (AuditLogState.init [])).1.actions
      = [] ++
        [Action.openTarball "/data/playbacks/sessions/default/abc.tar",
          Action.download "abc",
          Action.removeTarball "/data/playbacks/sessions/default/abc.tar",
          Action.closeTarball "/data/playbacks/sessions/default/abc.tar"] ∧
    (downloadSession sampleFailedTransfer "default" "abc"
      (AuditLogState.init [])).1.activeDownloads.lookup
      "/data/playbacks/sessions/default/abc.tar" = none :=
  ⟨rfl, downloadSession_transfer_failure sampleFailedTransfer "default" "abc"
    (AuditLogState.init []) (Error.other "connection reset") _ rfl rfl rfl rfl rfl⟩

/-! ## Theorems: joining a download in flight -/

/-- C11 at a concrete input: the owner of the download of session `abc` fails in the
transfer and returns the wrapped transfer error, while the caller that joined
that download and is released by the owner's completion returns nil. -/
theorem downloadSession_join_hides_failure :
    (downloadSession sampleFailedTransfer "default" "abc" (AuditLogState.init [])).2
      = some (traceWrap (Error.other "connection reset")) ∧
    sampleInFlight.activeDownloads.lookup "/data/playbacks/sessions/default/abc.tar" = some 0 ∧
    sampleFailedTransfer.joinSelect = JoinSelect.ctxDone ∧
    (downloadSession sampleFailedTransfer "default" "abc" sampleInFlight).2 = none :=
  ⟨rfl, rfl, rfl, rfl⟩

/-- C11 as amended: a `downloadSession` call that finds an entry for its tarball path
and is released by the completion of the owner (the `<-ctx.Done()` case fires)
returns nil and leaves the state as it found it, so it performs no transfer of
its own; the outcome of the owner does not reach it. -/
theorem downloadSession_join_released (env : DownloadEnv) (ns sid : String)
    (s : AuditLogState) (ctx : Ctx)
    (hentry : s.activeDownloads.lookup (env.filepathJoin [env.playbackDir, sid ++ ".tar"])
      = some ctx)
    (hsel : env.joinSelect = JoinSelect.ctxDone) :
    downloadSession env ns sid s = (s, none) := by
  simp only [downloadSession, createOrGetDownload, hentry, hsel]

/-- Witness of C11 as amended: the caller that joins the sample download in flight. -/
theorem downloadSession_join_released_witness :
    sampleInFlight.activeDownloads.lookup
      (sampleFailedTransfer.filepathJoin [sampleFailedTransfer.playbackDir, "abc" ++ ".tar"])
      = some 0 ∧
    downloadSession sampleFailedTransfer "default" "abc" sampleInFlight
      = (sampleInFlight, none) :=
  ⟨rfl, downloadSession_join_released sampleFailedTransfer "default" "abc" sampleInFlight 0
    rfl rfl⟩

/-- C12: a `downloadSession` call that finds an entry for its tarball path whose
context is not cancelled, while the audit log is closing, leaves the `select`
through the only case that is ready and returns the error 'audit log is closing,
aborting the download', never nil; the state is unchanged, so it performs no
transfer of its own. -/
theorem downloadSession_join_closing (env : DownloadEnv) (ns sid : String)
    (s : AuditLogState) (ctx : Ctx)
    (hentry : s.activeDownloads.lookup (env.filepathJoin [env.playbackDir, sid ++ ".tar"])
      = some ctx)
    (hpending : ctx ∉ s.cancelled)
    (hready : JoinSelect.ready s ctx true env.joinSelect = true) :
    downloadSession env ns sid s
      = (s, some (Error.badParameter "audit log is closing, aborting the download")) ∧
    (downloadSession env ns sid s).2 ≠ none ∧
    (downloadSession env ns sid s).1.actions = s.actions := by
  have hsel : env.joinSelect = JoinSelect.logClosing := by
    cases h : env.joinSelect with
    | ctxDone =>
      rw [h] at hready
      simp only [JoinSelect.ready, decide_eq_true_eq] at hready
      exact absurd hready hpending
    | logClosing => rfl
  have hres : downloadSession env ns sid s
      = (s, some (Error.badParameter "audit log is closing, aborting the download")) := by
    simp only [downloadSession, createOrGetDownload, hentry, hsel]
  rw [hres]
  exact ⟨rfl, by simp, rfl⟩

/-- Witness of C12: the sample download is in flight and the log is closing. -/
theorem downloadSession_join_closing_witness :
    (0 : Ctx) ∉ sampleInFlight.cancelled ∧
    downloadSession sampleClosing "default" "abc" sampleInFlight
      = (sampleInFlight,
          some (Error.badParameter "audit log is closing, aborting the download")) ∧
    (downloadSession sampleClosing "default" "abc" sampleInFlight).2 ≠ none ∧
    (downloadSession sampleClosing "default" "abc" sampleInFlight).1.actions
      = sampleInFlight.actions :=
  ⟨by decide, downloadSession_join_closing sampleClosing "default" "abc" sampleInFlight 0
    rfl (by decide) rfl⟩

/-! ## Theorems: streaming the events of a session -/

/-- The forwarding goroutine sends the events at or above `startIndex` among the
first `k` events of the reader, in read order, and then exactly one terminal
operation: `close(c)` when all events were read and the reader ended with
`io.EOF`, an error otherwise. -/
theorem StreamSessionEventsForward_shape (ctxErr : Nat → Option Error) (startIndex : Int)
    (terminal : Error) :
    ∀ (evs : List AuditEvent) (n : Nat),
      ∃ k, k ≤ evs.length ∧ ∃ last,
        StreamSessionEventsForward ctxErr startIndex terminal n evs
          = ((evs.take k).filter (fun ev => decide (startIndex ≤ ev.Index))).map
              ChanOp.sendEvent ++ [last] ∧
        (last = ChanOp.closeEvents ∨ ∃ e, last = ChanOp.sendError e) ∧
        (last = ChanOp.closeEvents → terminal = Error.eof ∧ k = evs.length) ∧
        ((∀ i, i < evs.length → ctxErr (n + i) = none) → k = evs.length) := by
  intro evs
  induction evs with
  | nil =>
    intro n
    refine ⟨0, Nat.le_refl _, ?_⟩
    cases hctx : ctxErr n with
    | some err =>
      refine ⟨ChanOp.sendError (traceWrap err), ?_, Or.inr ⟨_, rfl⟩, ?_, fun _ => rfl⟩
      · simp [StreamSessionEventsForward, hctx]
      · intro h
        cases h
    | none =>
      by_cases ht : terminal = Error.eof
      · refine ⟨ChanOp.closeEvents, ?_, Or.inl rfl, fun _ => ⟨ht, rfl⟩, fun _ => rfl⟩
        simp [StreamSessionEventsForward, hctx, ht]
      · refine ⟨ChanOp.sendError (traceWrap terminal), ?_, Or.inr ⟨_, rfl⟩, ?_, fun _ => rfl⟩
        · simp [StreamSessionEventsForward, hctx, ht]
        · intro h
          cases h
  | cons ev rest ih =>
    intro n
    cases hctx : ctxErr n with
    | some err =>
      refine ⟨0, Nat.zero_le _, ChanOp.sendError (traceWrap err), ?_, Or.inr ⟨_, rfl⟩, ?_, ?_⟩
      · simp [StreamSessionEventsForward, hctx]
      · intro h
        cases h
      · intro hall
        have := hall 0 (Nat.succ_pos _)
        rw [Nat.add_zero, hctx] at this
        cases this
    | none =>
      obtain ⟨k, hk, last, hops, hlast, hclose, hall⟩ := ih (n + 1)
      refine ⟨k + 1, Nat.succ_le_succ hk, last, ?_, hlast, ?_, ?_⟩
      · by_cases hidx : startIndex ≤ ev.Index
        · have hge : ev.Index ≥ startIndex := hidx
          simp only [StreamSessionEventsForward, hctx]
          rw [if_pos hge, hops]
          simp [List.take_succ_cons, List.filter_cons, hidx]
        · have hge : ¬ ev.Index ≥ startIndex := hidx
          simp only [StreamSessionEventsForward, hctx]
          rw [if_neg hge, hops]
          simp [List.take_succ_cons, List.filter_cons, hidx]
      · intro h
        obtain ⟨ht, hkl⟩ := hclose h
        exact ⟨ht, by simp [hkl]⟩
      · intro hall'
        have : k = rest.length := by
          apply hall
          intro i hi
          have := hall' (i + 1) (Nat.succ_lt_succ hi)
          rw [← this]
          congr 1
          omega
        simp [this]

/-- The channel operations of `StreamSessionEvents`: one error sent before the
goroutine starts, or the operations of the forwarding goroutine. -/
theorem StreamSessionEvents_ops (env : DownloadEnv) (reader : ProtoReader)
    (ctxErr : Nat → Option Error) (sid : String) (startIndex : Int) (s : AuditLogState) :
    (∃ e, (StreamSessionEvents env reader ctxErr sid startIndex s).2 = [ChanOp.sendError e]) ∨
    (StreamSessionEvents env reader ctxErr sid startIndex s).2
      = StreamSessionEventsForward ctxErr startIndex reader.terminal 0 reader.events := by
  have hfetch : ∀ (path : String) (t : AuditLogState),
      (∃ e, (StreamSessionEventsFetch env reader ctxErr sid startIndex path t).2
        = [ChanOp.sendError e]) ∨
      (StreamSessionEventsFetch env reader ctxErr sid startIndex path t).2
        = StreamSessionEventsForward ctxErr startIndex reader.terminal 0 reader.events := by
    intro path t
    unfold StreamSessionEventsFetch osOpenFile
    cases env.openFault path with
    | some err => exact Or.inl ⟨_, rfl⟩
    | none =>
      simp only
      cases env.Download sid with
      | some err => exact Or.inl ⟨_, rfl⟩
      | none =>
        simp only
        cases env.seekFault 0 with
        | some err => exact Or.inl ⟨_, rfl⟩
        | none => exact Or.inr rfl
  unfold StreamSessionEvents
  simp only
  cases hc : createOrGetDownload (env.filepathJoin [env.playbackDir, sid ++ ".stream.tar"]) s with
  | mk s1 rest =>
    obtain ⟨ctx, cancel⟩ := rest
    cases cancel with
    | none =>
      simp only
      cases env.joinSelect with
      | logClosing => exact Or.inl ⟨_, rfl⟩
      | ctxDone => exact hfetch _ _
    | some cancel =>
      simp only
      exact hfetch _ _

/-- The channel operations of every `StreamSessionEvents` call: the events at or
above `startIndex` among the first `k` events of the reader, then one terminal
operation, which is `close(c)` only if the reader ended with `io.EOF` after all
its events were read. -/
theorem StreamSessionEvents_shape (env : DownloadEnv) (reader : ProtoReader)
    (ctxErr : Nat → Option Error) (sid : String) (startIndex : Int) (s : AuditLogState) :
    ∃ k, k ≤ reader.events.length ∧ ∃ last,
      (StreamSessionEvents env reader ctxErr sid startIndex s).2
        = ((reader.events.take k).filter (fun ev => decide (startIndex ≤ ev.Index))).map
            ChanOp.sendEvent ++ [last] ∧
      (last = ChanOp.closeEvents ∨ ∃ e, last = ChanOp.sendError e) ∧
      (last = ChanOp.closeEvents → reader.terminal = Error.eof ∧ k = reader.events.length) := by
  rcases StreamSessionEvents_ops env reader ctxErr sid startIndex s with ⟨e, he⟩ | hfw
  · refine ⟨0, Nat.zero_le _, ChanOp.sendError e, ?_, Or.inr ⟨_, rfl⟩, ?_⟩
    · rw [he]
      simp
    · intro h
      cases h
  · obtain ⟨k, hk, last, hops, hlast, hclose, _⟩ :=
      StreamSessionEventsForward_shape ctxErr startIndex reader.terminal reader.events 0
    exact ⟨k, hk, last, by rw [hfw, hops], hlast, hclose⟩

/-- The events delivered by a run of sends followed by one terminal operation. -/
theorem delivered_sends_then_last (evs : List AuditEvent) (last : ChanOp)
    (hlast : last = ChanOp.closeEvents ∨ ∃ e, last = ChanOp.sendError e) :
    delivered (evs.map ChanOp.sendEvent ++ [last]) = evs := by
  unfold delivered
  rw [List.filterMap_append, List.filterMap_map]
  have h1 : List.filterMap ((fun op => match op with
      | ChanOp.sendEvent event => some event
      | _ => none) ∘ ChanOp.sendEvent) evs = evs := by
    induction evs with
    | nil => rfl
    | cons ev rest ih => simp [List.filterMap_cons, ih]
  rw [h1]
  rcases hlast with h | ⟨e, h⟩ <;> subst h <;> simp

/-- The errors reported by a run of sends followed by one terminal operation. -/
theorem reported_sends_then_last (evs : List AuditEvent) (last : ChanOp) :
    reported (evs.map ChanOp.sendEvent ++ [last])
      = match last with
        | ChanOp.sendError err => [err]
        | _ => [] := by
  unfold reported
  rw [List.filterMap_append, List.filterMap_map]
  have h1 : List.filterMap ((fun op => match op with
      | ChanOp.sendError err => some err
      | _ => none) ∘ ChanOp.sendEvent) evs = [] := by
    induction evs with
    | nil => rfl
    | cons ev rest ih => simp [List.filterMap_cons, ih]
  rw [h1]
  cases last <;> simp

/-- A `close(c)` among sends followed by one terminal operation is that terminal
operation. -/
theorem closeEvents_mem_sends_then_last (evs : List AuditEvent) (last : ChanOp)
    (h : ChanOp.closeEvents ∈ evs.map ChanOp.sendEvent ++ [last]) :
    last = ChanOp.closeEvents := by
  rcases List.mem_append.mp h with hm | hl
  · obtain ⟨ev, _, hev⟩ := List.mem_map.mp hm
    cases hev
  · exact (List.mem_singleton.mp hl).symm

/-- C13 at a failing input: a stream download of session `abc` is in flight (its
owner has registered the stream tarball, created the file and started the
transfer).  A second `StreamSessionEvents` call gets a nil completion function,
waits, is released by the owner, and then opens the tarball with truncation and
runs `UploadHandler.Download` itself: two transfers into one file. -/
theorem StreamSessionEvents_join_downloads_again :
    (createOrGetDownload "/data/playbacks/sessions/default/abc.stream.tar"
      sampleStreamInFlight).2.2 = none ∧
    sampleEnv.joinSelect = JoinSelect.ctxDone ∧
    "/data/playbacks/sessions/default/abc.stream.tar" ∈ sampleStreamInFlight.files ∧
    (StreamSessionEvents sampleEnv sampleReader (fun _ => none) "abc" 0
      sampleStreamInFlight).1.actions
      = sampleStreamInFlight.actions ++
        [Action.openTarball "/data/playbacks/sessions/default/abc.stream.tar",
          Action.download "abc", Action.seek] :=
  ⟨rfl, rfl, by decide, rfl⟩

/-- The forwarding goroutine, exactly: when the caller's context is live at the
first `k` iterations and either all events are read or the context is cancelled
at iteration `k`, the goroutine sends the events at or above `startIndex` among
the first `k` events, in read order, and then the one terminal operation. -/
theorem StreamSessionEventsForward_exact (ctxErr : Nat → Option Error) (startIndex : Int)
    (terminal : Error) :
    ∀ (evs : List AuditEvent) (n k : Nat), k ≤ evs.length →
      (∀ i, i < k → ctxErr (n + i) = none) →
      (k = evs.length ∨ ctxErr (n + k) ≠ none) →
      StreamSessionEventsForward ctxErr startIndex terminal n evs
        = ((evs.take k).filter (fun ev => decide (startIndex ≤ ev.Index))).map
            ChanOp.sendEvent ++
          [match ctxErr (n + k) with
            | some err => ChanOp.sendError (traceWrap err)
            | none =>
              if terminal ≠ Error.eof then ChanOp.sendError (traceWrap terminal)
              else ChanOp.closeEvents] := by
  intro evs
  induction evs with
  | nil =>
    intro n k hk _ _
    have hk0 : k = 0 := Nat.le_zero.mp hk
    subst hk0
    simp only [StreamSessionEventsForward, Nat.add_zero, List.take_nil, List.filter_nil,
      List.map_nil, List.nil_append]
    cases ctxErr n with
    | some err => rfl
    | none =>
      simp only
      by_cases ht : terminal ≠ Error.eof
      · rw [if_pos ht, if_pos ht]
      · rw [if_neg ht, if_neg ht]
  | cons ev rest ih =>
    intro n k hk hlive hstop
    cases k with
    | zero =>
      have hcancel : ctxErr n ≠ none := by
        rcases hstop with h | h
        · simp at h
        · simpa using h
      cases hctx : ctxErr n with
      | none => exact absurd hctx hcancel
      | some err =>
        simp only [StreamSessionEventsForward, hctx, Nat.add_zero, List.take_zero,
          List.filter_nil, List.map_nil, List.nil_append]
    | succ k =>
      have hctx : ctxErr n = none := by
        have := hlive 0 (Nat.succ_pos _)
        rwa [Nat.add_zero] at this
      have hk1 : k ≤ rest.length := Nat.le_of_succ_le_succ hk
      have hlive1 : ∀ i, i < k → ctxErr (n + 1 + i) = none := by
        intro i hi
        have := hlive (i + 1) (Nat.succ_lt_succ hi)
        rw [← this]
        congr 1
        omega
      have hidx : n + (k + 1) = n + 1 + k := by omega
      have hstop1 : k = rest.length ∨ ctxErr (n + 1 + k) ≠ none := by
        rcases hstop with h | h
        · left
          simpa using h
        · right
          rwa [hidx] at h
      have hrec := ih (n + 1) k hk1 hlive1 hstop1
      rw [hidx]
      by_cases hge : ev.Index ≥ startIndex
      · have hle : startIndex ≤ ev.Index := hge
        simp only [StreamSessionEventsForward, hctx]
        rw [if_pos hge, hrec]
        simp [List.take_succ_cons, List.filter_cons, hle]
      · have hle : ¬ startIndex ≤ ev.Index := hge
        simp only [StreamSessionEventsForward, hctx]
        rw [if_neg hge, hrec]
        simp [List.take_succ_cons, List.filter_cons, hle]

/-- A `StreamSessionEvents` call that is not turned away while it waits for a
download in flight, and whose tarball opens, transfers and rewinds, performs the
channel operations of the forwarding goroutine on the events of the reader. -/
theorem StreamSessionEvents_ops_of_setup (env : DownloadEnv) (reader : ProtoReader)
    (ctxErr : Nat → Option Error) (sid : String) (startIndex : Int) (s : AuditLogState)
    (hjoin : s.activeDownloads.lookup (env.filepathJoin [env.playbackDir, sid ++ ".stream.tar"])
      ≠ none → env.joinSelect = JoinSelect.ctxDone)
    (hopen : env.openFault (env.filepathJoin [env.playbackDir, sid ++ ".stream.tar"]) = none)
    (hdownload : env.Download sid = none)
    (hseek : env.seekFault 0 = none) :
    (StreamSessionEvents env reader ctxErr sid startIndex s).2
      = StreamSessionEventsForward ctxErr startIndex reader.terminal 0 reader.events := by
  have hfetch : ∀ t : AuditLogState,
      (StreamSessionEventsFetch env reader ctxErr sid startIndex
        (env.filepathJoin [env.playbackDir, sid ++ ".stream.tar"]) t).2
        = StreamSessionEventsForward ctxErr startIndex reader.terminal 0 reader.events := by
    intro t
    simp only [StreamSessionEventsFetch, osOpenFile, hopen, hdownload, hseek]
  unfold StreamSessionEvents createOrGetDownload
  simp only
  cases hl : s.activeDownloads.lookup
      (env.filepathJoin [env.playbackDir, sid ++ ".stream.tar"]) with
  | some ctx =>
    have hsel : env.joinSelect = JoinSelect.ctxDone := hjoin (by rw [hl]; simp)
    simp only [hsel]
    exact hfetch _
  | none =>
    simp only
    exact hfetch _

/-- C14: for every sequence of events of the reader and every `startIndex`, on a
`StreamSessionEvents` call that reaches the forwarding goroutine (it is not turned
away while waiting for a download in flight, and the tarball opens, transfers and
rewinds), where the goroutine reads `k` events (the caller's context is live at the
first `k` iterations, and then all events are read or the context is cancelled):
the events sent on the event channel are exactly the `k` events read whose index is
`>= startIndex`, in read order, each as often as it was read; no event with index
`< startIndex` is sent; the channel operations are these sends followed by the one
terminal operation; and when the context is never cancelled these are all events of
the reader with index `>= startIndex`. -/
theorem StreamSessionEvents_delivers_from_startIndex (env : DownloadEnv)
    (reader : ProtoReader) (ctxErr : Nat → Option Error) (sid : String) (startIndex : Int)
    (s : AuditLogState) (k : Nat)
    (hjoin : s.activeDownloads.lookup (env.filepathJoin [env.playbackDir, sid ++ ".stream.tar"])
      ≠ none → env.joinSelect = JoinSelect.ctxDone)
    (hopen : env.openFault (env.filepathJoin [env.playbackDir, sid ++ ".stream.tar"]) = none)
    (hdownload : env.Download sid = none)
    (hseek : env.seekFault 0 = none)
    (hk : k ≤ reader.events.length)
    (hlive : ∀ i, i < k → ctxErr i = none)
    (hstop : k = reader.events.length ∨ ctxErr k ≠ none) :
    delivered (StreamSessionEvents env reader ctxErr sid startIndex s).2
      = (reader.events.take k).filter (fun ev => decide (startIndex ≤ ev.Index)) ∧
    (StreamSessionEvents env reader ctxErr sid startIndex s).2
      = ((reader.events.take k).filter (fun ev => decide (startIndex ≤ ev.Index))).map
          ChanOp.sendEvent ++
        [match ctxErr k with
          | some err => ChanOp.sendError (traceWrap err)
          | none =>
            if reader.terminal ≠ Error.eof then ChanOp.sendError (traceWrap reader.terminal)
            else ChanOp.closeEvents] ∧
    (∀ ev ∈ delivered (StreamSessionEvents env reader ctxErr sid startIndex s).2,
      startIndex ≤ ev.Index ∧ ev ∈ reader.events.take k) ∧
    (∀ ev ∈ reader.events.take k, startIndex ≤ ev.Index →
      (delivered (StreamSessionEvents env reader ctxErr sid startIndex s).2).count ev
        = (reader.events.take k).count ev) ∧
    (delivered (StreamSessionEvents env reader ctxErr sid startIndex s).2).Sublist
      reader.events ∧
    ((∀ i, i ≤ reader.events.length → ctxErr i = none) →
      delivered (StreamSessionEvents env reader ctxErr sid startIndex s).2
        = reader.events.filter (fun ev => decide (startIndex ≤ ev.Index))) := by
  have hops := StreamSessionEvents_ops_of_setup env reader ctxErr sid startIndex s hjoin hopen
    hdownload hseek
  have hlive0 : ∀ i, i < k → ctxErr (0 + i) = none := by
    intro i hi
    rw [Nat.zero_add]
    exact hlive i hi
  have hstop0 : k = reader.events.length ∨ ctxErr (0 + k) ≠ none := by
    rw [Nat.zero_add]
    exact hstop
  have hexact := StreamSessionEventsForward_exact ctxErr startIndex reader.terminal
    reader.events 0 k hk hlive0 hstop0
  rw [Nat.zero_add] at hexact
  have hlast : ∀ last : ChanOp,
      last = (match ctxErr k with
        | some err => ChanOp.sendError (traceWrap err)
        | none =>
          if reader.terminal ≠ Error.eof then ChanOp.sendError (traceWrap reader.terminal)
          else ChanOp.closeEvents) →
      (last = ChanOp.closeEvents ∨ ∃ e, last = ChanOp.sendError e) := by
    intro last hl
    cases hc : ctxErr k with
    | some err => rw [hc] at hl; exact Or.inr ⟨_, hl⟩
    | none =>
      rw [hc] at hl
      simp only at hl
      by_cases ht : reader.terminal ≠ Error.eof
      · rw [if_pos ht] at hl; exact Or.inr ⟨_, hl⟩
      · rw [if_neg ht] at hl; exact Or.inl hl
  have hdel : delivered (StreamSessionEvents env reader ctxErr sid startIndex s).2
      = (reader.events.take k).filter (fun ev => decide (startIndex ≤ ev.Index)) := by
    rw [hops, hexact]
    exact delivered_sends_then_last _ _ (hlast _ rfl)
  refine ⟨hdel, by rw [hops, hexact], ?_, ?_, ?_, ?_⟩
  · intro ev hev
    rw [hdel] at hev
    obtain ⟨hmem, hidx⟩ := List.mem_filter.mp hev
    exact ⟨by simpa using hidx, hmem⟩
  · intro ev _ hidx
    rw [hdel]
    exact List.count_filter (by simpa using hidx)
  · rw [hdel]
    exact (List.filter_sublist _).trans (List.take_sublist _ _)
  · intro hnever
    rw [hdel]
    have hkl : k = reader.events.length := by
      rcases hstop with h | h
      · exact h
      · exact absurd (hnever k hk) h
    rw [hkl, List.take_length]

/-- Witness of C14 on the sample reader (events 0 to 3, then end of stream) with
`startIndex` 2: twice with a context that is never cancelled, where all four events
are read and events 2 and 3 are delivered before the close, and once with a context
cancelled at the fourth iteration, where three events are read and event 2 is
delivered before the error. -/
theorem StreamSessionEvents_delivers_from_startIndex_witness :
    (delivered (StreamSessionEvents sampleEnv sampleReader (fun _ => none) "abc" 2
        (AuditLogState.init [])).2 = [⟨2, "print"⟩, ⟨3, "end"⟩] ∧
      (StreamSessionEvents sampleEnv sampleReader (fun _ => none) "abc" 2
        (AuditLogState.init [])).2
        = [ChanOp.sendEvent ⟨2, "print"⟩, ChanOp.sendEvent ⟨3, "end"⟩, ChanOp.closeEvents]) ∧
    (delivered (StreamSessionEvents sampleEnv sampleReader
        (fun n => if n = 3 then some (Error.other "context canceled") else none) "abc" 2
        sampleStreamInFlight).2 = [⟨2, "print"⟩]) ∧
    delivered (StreamSessionEvents sampleEnv sampleReader (fun _ => none) "abc" 2
        (AuditLogState.init [])).2
      = (sampleReader.events.take 4).filter (fun ev => decide ((2 : Int) ≤ ev.Index)) :=
  ⟨⟨rfl, rfl⟩,
    (StreamSessionEvents_delivers_from_startIndex sampleEnv sampleReader
      (fun n => if n = 3 then some (Error.other "context canceled") else none) "abc" 2
      sampleStreamInFlight 3 (fun _ => rfl) rfl rfl rfl (by decide)
      (fun i hi => if_neg (Nat.ne_of_lt hi)) (Or.inr (by simp))).1,
    (StreamSessionEvents_delivers_from_startIndex sampleEnv sampleReader (fun _ => none)
      "abc" 2 (AuditLogState.init []) 4 (fun _ => rfl) rfl rfl rfl (by decide)
      (fun _ _ => rfl) (Or.inl rfl)).1⟩

/-- C15: on every `StreamSessionEvents` call, failures before the goroutine
included, at most one error is sent on the error channel; the event channel is
closed only if the reader ended with `io.EOF`, and then no error is sent; and the
operations are sends of events followed by one last operation, the close or the
error, so nothing is sent or closed after an error. -/
theorem StreamSessionEvents_single_terminal (env : DownloadEnv) (reader : ProtoReader)
    (ctxErr : Nat → Option Error) (sid : String) (startIndex : Int) (s : AuditLogState) :
    (reported (StreamSessionEvents env reader ctxErr sid startIndex s).2).length ≤ 1 ∧
    (ChanOp.closeEvents ∈ (StreamSessionEvents env reader ctxErr sid startIndex s).2 →
      reader.terminal = Error.eof ∧
      reported (StreamSessionEvents env reader ctxErr sid startIndex s).2 = []) ∧
    (∃ (evs : List AuditEvent) (last : ChanOp),
      (StreamSessionEvents env reader ctxErr sid startIndex s).2
        = evs.map ChanOp.sendEvent ++ [last] ∧
      (last = ChanOp.closeEvents ∨ ∃ e, last = ChanOp.sendError e)) := by
  obtain ⟨k, _, last, hops, hlast, hclose⟩ :=
    StreamSessionEvents_shape env reader ctxErr sid startIndex s
  refine ⟨?_, ?_, ⟨_, last, hops, hlast⟩⟩
  · rw [hops, reported_sends_then_last]
    cases last <;> simp
  · intro hmem
    rw [hops] at hmem
    have hl := closeEvents_mem_sends_then_last _ last hmem
    refine ⟨(hclose hl).1, ?_⟩
    rw [hops, reported_sends_then_last, hl]

/-! ## Theorems: the playback sweep -/

/-- The sweep loop calls `os.Remove` on the paths of the stale entries, in listing
order, whatever the removals answer, and a file is gone afterwards exactly when
it is the path of a stale entry whose removal succeeded. -/
theorem cleanupOldPlaybacksLoop_effect (env : DownloadEnv) (ttl : Int) :
    ∀ (entries : List (FileInfo × Int)) (s : AuditLogState),
      (cleanupOldPlaybacksLoop env ttl entries s).actions
        = s.actions ++ ((entries.filter (isStale ttl)).map
            (fun e => Action.removeTarball (playbackPath env e))) ∧
      (∀ f, f ∈ (cleanupOldPlaybacksLoop env ttl entries s).files ↔
        f ∈ s.files ∧ ¬ (env.removeFault f = none ∧
          ∃ e ∈ entries, isStale ttl e = true ∧ playbackPath env e = f)) ∧
      (cleanupOldPlaybacksLoop env ttl entries s).activeDownloads = s.activeDownloads := by
  intro entries
  induction entries with
  | nil =>
    intro s
    simp [cleanupOldPlaybacksLoop]
  | cons e rest ih =>
    intro s
    obtain ⟨fi, now⟩ := e
    by_cases hdir : fi.IsDir = true
    · have hns : isStale ttl (fi, now) = false := by simp [isStale, hdir]
      simp only [cleanupOldPlaybacksLoop, hdir, if_true]
      obtain ⟨h1, h2, h3⟩ := ih s
      refine ⟨?_, ?_, h3⟩
      · rw [h1, List.filter_cons, hns]
        simp
      · intro f
        rw [h2 f]
        simp [hns]
    · by_cases hfresh : timeSub now fi.ModTime ≤ ttl
      · have hns : isStale ttl (fi, now) = false := by
          simp [isStale, hdir, not_lt.mpr hfresh]
        simp only [cleanupOldPlaybacksLoop, hdir, hfresh, if_true]
        obtain ⟨h1, h2, h3⟩ := ih s
        refine ⟨?_, ?_, h3⟩
        · rw [if_neg (by simp), h1, List.filter_cons, hns]
          simp
        · intro f
          rw [if_neg (by simp), h2 f]
          simp [hns]
      · have hst : isStale ttl (fi, now) = true := by
          simp [isStale, hdir, lt_of_not_ge hfresh]
        simp only [cleanupOldPlaybacksLoop, hdir, hfresh, if_false]
        rw [if_neg (by simp)]
        obtain ⟨h1, h2, h3⟩ := ih (osRemove env s (env.filepathJoin [env.playbackDir, fi.Name])).1
        refine ⟨?_, ?_, ?_⟩
        · rw [h1, List.filter_cons, hst]
          cases hrm : env.removeFault (env.filepathJoin [env.playbackDir, fi.Name]) <;>
            simp [osRemove, hrm, playbackPath]
        · intro f
          rw [h2 f]
          cases hrm : env.removeFault (env.filepathJoin [env.playbackDir, fi.Name]) with
          | some err =>
            simp only [osRemove, hrm]
            constructor
            · rintro ⟨hf, hno⟩
              refine ⟨hf, ?_⟩
              rintro ⟨hnone, e, he, hse, hpe⟩
              rcases List.mem_cons.mp he with heq | hrest
              · subst heq
                simp only [playbackPath] at hpe
                rw [hpe] at hrm
                rw [hrm] at hnone
                cases hnone
              · exact hno ⟨hnone, e, hrest, hse, hpe⟩
            · rintro ⟨hf, hno⟩
              refine ⟨hf, ?_⟩
              rintro ⟨hnone, e, he, hse, hpe⟩
              exact hno ⟨hnone, e, List.mem_cons_of_mem _ he, hse, hpe⟩
          | none =>
            simp only [osRemove, hrm, List.mem_filter, decide_eq_true_eq]
            constructor
            · rintro ⟨⟨hf, hne⟩, hno⟩
              refine ⟨hf, ?_⟩
              rintro ⟨hnone, e, he, hse, hpe⟩
              rcases List.mem_cons.mp he with heq | hrest
              · subst heq
                exact hne hpe.symm
              · exact hno ⟨hnone, e, hrest, hse, hpe⟩
            · rintro ⟨hf, hno⟩
              refine ⟨⟨hf, ?_⟩, ?_⟩
              · intro hfe
                exact hno ⟨by rw [hfe]; exact hrm, (fi, now), List.mem_cons_self _ _, hst,
                  hfe.symm⟩
              · rintro ⟨hnone, e, he, hse, hpe⟩
                exact hno ⟨hnone, e, List.mem_cons_of_mem _ he, hse, hpe⟩
        · rw [h3]
          cases hrm : env.removeFault (env.filepathJoin [env.playbackDir, fi.Name]) <;>
            simp [osRemove, hrm]

/-- An entry is stale exactly when it is no directory and older than the TTL. -/
theorem isStale_iff (ttl : Int) (e : FileInfo × Int) :
    isStale ttl e = true ↔ e.1.IsDir = false ∧ timeSub e.2 e.1.ModTime > ttl := by
  simp [isStale]

/-- C16: for every listing of the playback directory (entries with distinct paths),
every clock reading and every TTL, `cleanupOldPlaybacks` returns nil; it calls
`os.Remove` exactly on the non-directory entries with `now - lastModified > TTL`,
in listing order, also after a removal failed; when removals succeed an entry
is deleted if and only if it is no directory and `now - lastModified > TTL`;
directories and entries with `now - lastModified <= TTL` are retained in any case.
The difference is the duration `Sub` computes, which is `now - lastModified`
whenever that fits a duration. -/
theorem cleanupOldPlaybacks_sweep (env : DownloadEnv) (entries : List (FileInfo × Int))
    (ttl : Int) (s : AuditLogState)
    (hnodup : (entries.map (playbackPath env)).Nodup) :
    (cleanupOldPlaybacks env (Except.ok entries) ttl s).2 = none ∧
    (cleanupOldPlaybacks env (Except.ok entries) ttl s).1.actions
      = s.actions ++ ((entries.filter (isStale ttl)).map
          (fun e => Action.removeTarball (playbackPath env e))) ∧
    ((∀ p, env.removeFault p = none) → ∀ e ∈ entries, playbackPath env e ∈ s.files →
      (playbackPath env e ∉ (cleanupOldPlaybacks env (Except.ok entries) ttl s).1.files ↔
        e.1.IsDir = false ∧ timeSub e.2 e.1.ModTime > ttl)) ∧
    (∀ e ∈ entries, e.1.IsDir = true ∨ timeSub e.2 e.1.ModTime ≤ ttl →
      (playbackPath env e ∈ (cleanupOldPlaybacks env (Except.ok entries) ttl s).1.files ↔
        playbackPath env e ∈ s.files)) ∧
    (∀ e ∈ entries, minDuration ≤ e.2 - e.1.ModTime → e.2 - e.1.ModTime ≤ maxDuration →
      timeSub e.2 e.1.ModTime = e.2 - e.1.ModTime) := by
  obtain ⟨hact, hfiles, _⟩ := cleanupOldPlaybacksLoop_effect env ttl entries s
  have hown : ∀ e ∈ entries, (∃ e' ∈ entries, isStale ttl e' = true ∧
      playbackPath env e' = playbackPath env e) ↔ isStale ttl e = true := by
    intro e he
    constructor
    · rintro ⟨e', he', hst, hp⟩
      have : e' = e := List.inj_on_of_nodup_map hnodup he' he hp
      rw [← this]
      exact hst
    · intro hst
      exact ⟨e, he, hst, rfl⟩
  refine ⟨rfl, hact, ?_, ?_, ?_⟩
  · intro hrm e he hin
    show playbackPath env e ∉ (cleanupOldPlaybacksLoop env ttl entries s).files ↔ _
    rw [hfiles, ← isStale_iff, ← hown e he]
    constructor
    · intro h
      by_contra hno
      exact h ⟨hin, fun hx => hno hx.2⟩
    · rintro hex ⟨_, hno⟩
      exact hno ⟨hrm _, hex⟩
  · intro e he hkeep
    show playbackPath env e ∈ (cleanupOldPlaybacksLoop env ttl entries s).files ↔ _
    rw [hfiles]
    have hns : ¬ isStale ttl e = true := by
      rw [isStale_iff]
      rintro ⟨hd, hgt⟩
      rcases hkeep with h | h
      · rw [hd] at h
        cases h
      · exact absurd hgt (not_lt.mpr h)
    constructor
    · exact fun h => h.1
    · intro hin
      exact ⟨hin, fun hx => hns ((hown e he).mp hx.2)⟩
  · intro e _ h1 h2
    unfold timeSub
    rw [if_neg (not_lt.mpr h2), if_neg (not_lt.mpr h1)]

/-- Witness of C16: the sweep of the sample listing at instant 1000 with TTL 100. -/
theorem cleanupOldPlaybacks_sweep_witness :
    (sampleListing.map (playbackPath sampleEnv)).Nodup ∧
    (cleanupOldPlaybacks sampleEnv (Except.ok sampleListing) 100 samplePlaybacks).1.files
      = ["/data/playbacks/sessions/default/edge.tar", "/data/playbacks/sessions/default/dir"] ∧
    (cleanupOldPlaybacks sampleEnv (Except.ok sampleListing) 100 samplePlaybacks).2 = none ∧
    (cleanupOldPlaybacks sampleEnv (Except.ok sampleListing) 100 samplePlaybacks).1.actions
      = samplePlaybacks.actions ++ ((sampleListing.filter (isStale 100)).map
          (fun e => Action.removeTarball (playbackPath sampleEnv e))) ∧
    ((∀ p, sampleEnv.removeFault p = none) → ∀ e ∈ sampleListing,
      playbackPath sampleEnv e ∈ samplePlaybacks.files →
      (playbackPath sampleEnv e
          ∉ (cleanupOldPlaybacks sampleEnv (Except.ok sampleListing) 100 samplePlaybacks).1.files ↔
        e.1.IsDir = false ∧ timeSub e.2 e.1.ModTime > 100)) ∧
    (∀ e ∈ sampleListing, e.1.IsDir = true ∨ timeSub e.2 e.1.ModTime ≤ 100 →
      (playbackPath sampleEnv e
          ∈ (cleanupOldPlaybacks sampleEnv (Except.ok sampleListing) 100 samplePlaybacks).1.files ↔
        playbackPath sampleEnv e ∈ samplePlaybacks.files)) ∧
    (∀ e ∈ sampleListing, minDuration ≤ e.2 - e.1.ModTime → e.2 - e.1.ModTime ≤ maxDuration →
      timeSub e.2 e.1.ModTime = e.2 - e.1.ModTime) :=
  ⟨by decide, by decide,
    cleanupOldPlaybacks_sweep sampleEnv sampleListing 100 samplePlaybacks (by decide)⟩

/-! ## Theorems: unpacking a chunk file -/

/-- Dropping the entries of one key does not change the lookup of another key. -/
theorem lookup_filter_other {β : Type} (l : List (String × β)) (p q : String) (h : q ≠ p) :
    List.lookup q (l.filter (fun e => e.1 ≠ p)) = List.lookup q l := by
  induction l with
  | nil => rfl
  | cons e rest ih =>
    obtain ⟨k, v⟩ := e
    simp only [decide_not] at ih
    by_cases hk : k = p
    · subst hk
      have hb : (q == k) = false := by simpa using h
      simp [List.filter, List.lookup, hb, ih]
    · by_cases hq : q = k
      · subst hq
        simp [List.filter, hk, List.lookup]
      · have hb : (q == k) = false := by simpa using hq
        simp [List.filter, hk, List.lookup, hb, ih]

/-- Writing a file leaves the file at every other path as it was. -/
theorem Disk.lookup_write_other (d : Disk) (p q : String) (f : DiskFile) (h : q ≠ p) :
    List.lookup q (d.write p f) = List.lookup q d := by
  have hb : (q == p) = false := by simpa using h
  simp only [Disk.write, List.lookup, hb]
  exact lookup_filter_other d p q h

/-- Writing a file twice leaves the second content. -/
theorem Disk.write_write (d : Disk) (p : String) (f g : DiskFile) :
    (d.write p f).write p g = d.write p g := by
  simp [Disk.write, List.filter_cons, List.filter_filter]

/-- C17 at a failing input: the source `c1.gz` was modified at 10.7 s, later than
its unpacked copy `c1`, written at 10.2 s, and decompresses to the bytes 21, 22, 23,
one byte more than the copy holds.  `unpackFile` compares whole seconds, finds
10 >= 10, takes the branch for `no new data has been added` and returns the existing
copy, bytes 21 and 22, without rewriting it; the extraction it skips would have
returned all three bytes. -/
theorem unpackFile_keeps_copy_within_second :
    sampleStaleDisk.lookup "c1.gz"
      = some { ModTime := 10700000000, content := [0, 21, 22, 23] } ∧
    sampleStaleDisk.lookup (sampleUnpackEnv.unpackedFile "c1.gz")
      = some { ModTime := 10200000000, content := [21, 22] } ∧
    (10200000000 : Int) < 10700000000 ∧
    unixSeconds 10200000000 = 10 ∧ unixSeconds 10700000000 = 10 ∧
    (sampleUnpackEnv.gunzip [0, 21, 22, 23]).data = [21, 22, 23] ∧
    unpackFile sampleUnpackEnv sampleStaleDisk "c1.gz"
      = (sampleStaleDisk, Except.ok [21, 22]) ∧
    (unpackFileExtract sampleUnpackEnv sampleStaleDisk "c1.gz" "c1").2
      = Except.ok [21, 22, 23] :=
  ⟨rfl, rfl, by decide, by decide, by decide, rfl, rfl, rfl⟩

/-- The comparison made by `unpackFile`: for a compressed source file and a cached
unpacked copy that `os.Stat` both finds, it re-extracts if and only if the modification
time of the source in whole seconds is greater than that of the copy in whole
seconds.  If it is not greater, the disk is unchanged and the handle returned
reads the existing copy.  If it is greater, the copy is truncated and rewritten:
when the files open, the copy is not the source itself and decompression ends
without error or with `io.ErrUnexpectedEOF`, the copy afterwards holds the
decompressed bytes and the handle reads them. -/
theorem unpackFile_compares_whole_seconds (env : UnpackEnv) (d : Disk)
    (fileName : String) (packed unpacked : DiskFile)
    (hstatU : env.statFault (env.unpackedFile fileName) = none)
    (hstatP : env.statFault fileName = none)
    (hU : d.lookup (env.unpackedFile fileName) = some unpacked)
    (hP : d.lookup fileName = some packed) :
    (unixSeconds packed.ModTime ≤ unixSeconds unpacked.ModTime →
      unpackFile env d fileName = (d, openRead env d (env.unpackedFile fileName)) ∧
      (env.openFault (env.unpackedFile fileName) = none →
        unpackFile env d fileName = (d, Except.ok unpacked.content))) ∧
    (unixSeconds unpacked.ModTime < unixSeconds packed.ModTime →
      unpackFile env d fileName
        = unpackFileExtract env d fileName (env.unpackedFile fileName) ∧
      (env.openFault (env.unpackedFile fileName) = none → env.openFault fileName = none →
        fileName ≠ env.unpackedFile fileName →
        (env.gunzip packed.content).header = none →
        ((env.gunzip packed.content).copyErr = none ∨
          (env.gunzip packed.content).copyErr = some ErrUnexpectedEOF) →
        env.seekFault = none →
        unpackFile env d fileName
          = (d.write (env.unpackedFile fileName)
                { ModTime := env.writeTime, content := (env.gunzip packed.content).data },
              Except.ok (env.gunzip packed.content).data))) := by
  have hsU : statFile env d (env.unpackedFile fileName) = Except.ok unpacked := by
    simp only [statFile, hstatU, hU]
  have hsP : statFile env d fileName = Except.ok packed := by
    simp only [statFile, hstatP, hP]
  constructor
  · intro hle
    have hres : unpackFile env d fileName = (d, openRead env d (env.unpackedFile fileName)) := by
      have hge : unixSeconds unpacked.ModTime ≥ unixSeconds packed.ModTime := hle
      simp only [unpackFile, hsU, hsP]
      rw [if_pos hge]
    refine ⟨hres, ?_⟩
    intro hopen
    rw [hres]
    simp only [openRead, hopen, hU]
  · intro hlt
    have hres : unpackFile env d fileName
        = unpackFileExtract env d fileName (env.unpackedFile fileName) := by
      have hge : ¬ unixSeconds unpacked.ModTime ≥ unixSeconds packed.ModTime := not_le.mpr hlt
      simp only [unpackFile, hsU, hsP]
      rw [if_neg hge]
    refine ⟨hres, ?_⟩
    intro hoU hoP hne hhead hcopy hseek
    rw [hres]
    have hread : openRead env
        (d.write (env.unpackedFile fileName) { ModTime := env.writeTime, content := [] })
        fileName = Except.ok packed.content := by
      simp only [openRead, hoP, Disk.lookup_write_other d _ _ _ hne, hP]
    simp only [unpackFileExtract, hoU, hread, hhead, Disk.write_write, hseek]
    rcases hcopy with hc | hc
    · simp only [hc]
    · simp only [hc]
      rw [if_neg (by simp)]

/-- On the sample disk whose source was modified in a later second than its unpacked
copy, the copy is rewritten from the source. -/
theorem unpackFile_compares_whole_seconds_on_sample :
    sampleNewerDisk.lookup (sampleUnpackEnv.unpackedFile "c1.gz")
      = some { ModTime := 10200000000, content := [21, 22] } ∧
    sampleNewerDisk.lookup "c1.gz"
      = some { ModTime := 11100000000, content := [0, 21, 22, 23] } ∧
    unpackFile sampleUnpackEnv sampleNewerDisk "c1.gz"
      = (sampleNewerDisk.write "c1" { ModTime := 20000000000, content := [21, 22, 23] },
          Except.ok [21, 22, 23]) :=
  ⟨rfl, rfl,
    ((unpackFile_compares_whole_seconds sampleUnpackEnv sampleNewerDisk "c1.gz"
      { ModTime := 11100000000, content := [0, 21, 22, 23] }
      { ModTime := 10200000000, content := [21, 22] } rfl rfl rfl rfl).2 (by decide)).2
      rfl rfl (by decide) rfl (Or.inl rfl) rfl⟩

/-! ## Theorems: building the session index -/

/-- The scanner loop of `readIndexEntries`, when it succeeds, appends the tagged
entry of every line. -/
theorem readIndexEntriesLoop_ok (env : IndexEnv) (authServer : String) :
    ∀ (lines : List String) (acc entries : List indexEntry),
      readIndexEntriesLoop env authServer lines acc = Except.ok entries →
      entries = acc ++ lines.filterMap (env.entryOfLine authServer) := by
  intro lines
  induction lines with
  | nil =>
    intro acc entries h
    simp only [readIndexEntriesLoop] at h
    cases h
    simp
  | cons line rest ih =>
    intro acc entries h
    cases hdec : env.jsonUnmarshal line with
    | error err =>
      simp only [readIndexEntriesLoop, hdec] at h
      cases h
    | ok entry =>
      simp only [readIndexEntriesLoop, hdec] at h
      rw [ih _ _ h]
      simp [List.filterMap_cons, IndexEnv.entryOfLine, hdec]

/-- The state of the buckets after reading the entries `read`: each bucket holds
the entries of its type, in the order of reading. -/
theorem readSessionIndexEntries_ok :
    ∀ (entries read : List indexEntry) (index index1 : sessionIndex),
      index.events = ofType fileTypeEvents read →
      index.chunks = ofType fileTypeChunks read →
      index.enhancedEvents = [(SessionCommandEvent, ofType SessionCommandEvent read),
        (SessionDiskEvent, ofType SessionDiskEvent read),
        (SessionNetworkEvent, ofType SessionNetworkEvent read)] →
      readSessionIndexEntries index entries = Except.ok index1 →
      index1.events = ofType fileTypeEvents (read ++ entries) ∧
      index1.chunks = ofType fileTypeChunks (read ++ entries) ∧
      index1.enhancedEvents = [(SessionCommandEvent, ofType SessionCommandEvent (read ++ entries)),
        (SessionDiskEvent, ofType SessionDiskEvent (read ++ entries)),
        (SessionNetworkEvent, ofType SessionNetworkEvent (read ++ entries))] ∧
      index1.indexFiles = index.indexFiles ∧
      (∀ e ∈ entries, knownType e.EntryType) := by
  intro entries
  induction entries with
  | nil =>
    intro read index index1 he hc hx h
    simp only [readSessionIndexEntries] at h
    cases h
    simp [he, hc, hx]
  | cons entry rest ih =>
    intro read index index1 he hc hx h
    have happ : read ++ entry :: rest = (read ++ [entry]) ++ rest := by simp
    rw [happ]
    by_cases h1 : entry.EntryType = fileTypeEvents
    · simp only [readSessionIndexEntries, h1, if_true] at h
      obtain ⟨r1, r2, r3, r4, r5⟩ := ih (read ++ [entry]) _ index1
        (by simp [ofType, List.filter_append, he, h1])
        (by simp [ofType, List.filter_append, hc, h1, fileTypeEvents, fileTypeChunks])
        (by simp [ofType, List.filter_append, hx, h1, fileTypeEvents, SessionCommandEvent,
              SessionDiskEvent, SessionNetworkEvent]) h
      refine ⟨r1, r2, r3, r4, ?_⟩
      intro e hmem
      rcases List.mem_cons.mp hmem with heq | hrest
      · subst heq
        exact Or.inl h1
      · exact r5 e hrest
    · by_cases h2 : entry.EntryType = fileTypeChunks
      · simp only [readSessionIndexEntries, h1, if_false, h2, if_true] at h
        obtain ⟨r1, r2, r3, r4, r5⟩ := ih (read ++ [entry]) _ index1
          (by simp [ofType, List.filter_append, he, h2, fileTypeEvents, fileTypeChunks])
          (by simp [ofType, List.filter_append, hc, h2])
          (by simp [ofType, List.filter_append, hx, h2, fileTypeChunks, SessionCommandEvent,
                SessionDiskEvent, SessionNetworkEvent]) h
        refine ⟨r1, r2, r3, r4, ?_⟩
        intro e hmem
        rcases List.mem_cons.mp hmem with heq | hrest
        · subst heq
          exact Or.inr (Or.inl h2)
        · exact r5 e hrest
      · by_cases h3 : entry.EntryType = SessionCommandEvent ∨
            entry.EntryType = SessionDiskEvent ∨ entry.EntryType = SessionNetworkEvent
        · simp only [readSessionIndexEntries, h1, if_false, h2, h3, if_true] at h
          have hev : ¬ entry.EntryType = "events" := h1
          have hch : ¬ entry.EntryType = "chunks" := h2
          obtain ⟨r1, r2, r3, r4, r5⟩ := ih (read ++ [entry]) _ index1
            (by simp [ofType, List.filter_append, he, fileTypeEvents, hev])
            (by simp [ofType, List.filter_append, hc, fileTypeChunks, hch])
            (by
              rcases h3 with h3 | h3 | h3 <;>
                simp [ofType, List.filter_append, hx, h3, appendEnhanced, List.lookup,
                  SessionCommandEvent, SessionDiskEvent, SessionNetworkEvent]) h
          refine ⟨r1, r2, r3, r4, ?_⟩
          intro e hmem
          rcases List.mem_cons.mp hmem with heq | hrest
          · subst heq
            exact Or.inr (Or.inr h3)
          · exact r5 e hrest
        · simp only [readSessionIndexEntries, h1, if_false, h2, h3] at h
          cases h

/-- The loop over the origin servers, when it succeeds, leaves in each bucket the
entries of its type read across the servers, in the order of reading, and every
entry read has a known type. -/
theorem readSessionIndexLoop_ok (env : IndexEnv) (dataDir ns sid : String) :
    ∀ (servers : List String) (read : List indexEntry) (index index1 : sessionIndex),
      index.holds read →
      readSessionIndexLoop env dataDir ns sid servers index = Except.ok index1 →
      index1.holds (read ++ env.entriesRead dataDir servers ns sid) ∧
      (∀ e ∈ env.entriesRead dataDir servers ns sid, knownType e.EntryType) := by
  intro servers
  induction servers with
  | nil =>
    intro read index index1 hinv h
    simp only [readSessionIndexLoop] at h
    cases h
    simp only [IndexEnv.entriesRead, List.flatMap_nil, List.append_nil]
    exact ⟨hinv, fun e he => absurd he (List.not_mem_nil e)⟩
  | cons authServer rest ih =>
    intro read index index1 hinv h
    have hread : env.entriesRead dataDir (authServer :: rest) ns sid
        = env.entriesOf dataDir ns sid authServer ++ env.entriesRead dataDir rest ns sid := by
      simp only [IndexEnv.entriesRead, List.flatMap_cons]
    rw [hread]
    cases hopen : env.openIndex
        (env.filepathJoin [dataDir, authServer, SessionLogsDir, ns, sid ++ ".index"]) with
    | failed err =>
      have hof : env.entriesOf dataDir ns sid authServer = [] := by
        simp only [IndexEnv.entriesOf, IndexEnv.indexFileName, hopen]
      simp only [readSessionIndexLoop, hopen] at h
      by_cases hnf : err.isNotFound = true
      · simp only [hnf, Bool.not_true, Bool.false_eq_true, if_false] at h
        rw [hof, List.nil_append]
        exact ih read index index1 hinv h
      · simp only [hnf, Bool.not_false, if_true] at h
        cases h
    | opened lines closeErr =>
      have hof : env.entriesOf dataDir ns sid authServer
          = lines.filterMap (env.entryOfLine authServer) := by
        simp only [IndexEnv.entriesOf, IndexEnv.indexFileName, hopen]
      simp only [readSessionIndexLoop, hopen] at h
      cases hent : readIndexEntries env lines authServer with
      | error err =>
        simp only [hent] at h
        cases h
      | ok entries =>
        simp only [hent] at h
        have hentries : entries = lines.filterMap (env.entryOfLine authServer) := by
          have := readIndexEntriesLoop_ok env authServer lines [] entries hent
          simpa using this
        cases hbk : readSessionIndexEntries
            { index with indexFiles := index.indexFiles ++
                [env.filepathJoin [dataDir, authServer, SessionLogsDir, ns, sid ++ ".index"]] }
            entries with
        | error err =>
          simp only [hbk] at h
          cases h
        | ok index2 =>
          simp only [hbk] at h
          cases closeErr with
          | some err =>
            simp only at h
            cases h
          | none =>
            simp only at h
            have hinv1 : sessionIndex.holds
                { index with indexFiles := index.indexFiles ++
                    [env.filepathJoin [dataDir, authServer, SessionLogsDir, ns, sid ++ ".index"]] }
                read := hinv
            obtain ⟨r1, r2, r3, _, r5⟩ := readSessionIndexEntries_ok entries read _ index2
              hinv1.1 hinv1.2.1 hinv1.2.2 hbk
            obtain ⟨q1, q2⟩ := ih (read ++ entries) index2 index1 ⟨r1, r2, r3⟩ h
            rw [hof, ← hentries, ← List.append_assoc]
            refine ⟨q1, ?_⟩
            intro e he
            rcases List.mem_append.mp he with h1 | h2
            · exact r5 e h1
            · exact q2 e h2

/-- A successful `readSessionIndex` is the sorted state of a successful loop over
the origin servers that found at least one index file. -/
theorem readSessionIndex_ok (env : IndexEnv) (ss : SortSlice) (dataDir : String)
    (authServers : List String) (ns sid : String) (idx : sessionIndex)
    (h : readSessionIndex env ss dataDir authServers ns sid = Except.ok idx) :
    ∃ index : sessionIndex, index.holds (env.entriesRead dataDir authServers ns sid) ∧
      (∀ e ∈ env.entriesRead dataDir authServers ns sid, knownType e.EntryType) ∧
      index.indexFiles.length ≠ 0 ∧ idx = index.sort ss := by
  unfold readSessionIndex at h
  simp only at h
  cases hloop : readSessionIndexLoop env dataDir ns sid authServers
      { sid := sid, dataDir := dataDir, ns := ns, events := [], chunks := [], indexFiles := [],
        enhancedEvents :=
          [(SessionCommandEvent, []), (SessionDiskEvent, []), (SessionNetworkEvent, [])] } with
  | error err =>
    rw [hloop] at h
    cases h
  | ok index =>
    rw [hloop] at h
    simp only at h
    by_cases hlen : index.indexFiles.length = 0
    · rw [if_pos hlen] at h
      cases h
    · rw [if_neg hlen] at h
      cases h
      obtain ⟨q1, q2⟩ := readSessionIndexLoop_ok env dataDir ns sid authServers [] _ index
        ⟨rfl, rfl, rfl⟩ hloop
      rw [List.nil_append] at q1
      exact ⟨index, q1, q2, hlen, rfl⟩

/-- C18: for every set of index files that `readSessionIndex` parses successfully,
whatever rearrangement `sort.Slice` picks among equal keys, each bucket of the
returned index is an ascending rearrangement of exactly the entries of its type
read across all origins: events non-decreasing by Index, chunks non-decreasing by
Offset, each of the three enhanced kinds non-decreasing by Index; every entry read
has one of the five types, so none is lost, duplicated or put in another bucket. -/
theorem readSessionIndex_buckets_sorted (env : IndexEnv) (ss : SortSlice) (dataDir : String)
    (authServers : List String) (ns sid : String) (idx : sessionIndex)
    (h : readSessionIndex env ss dataDir authServers ns sid = Except.ok idx) :
    (idx.events.Perm (ofType fileTypeEvents (env.entriesRead dataDir authServers ns sid)) ∧
      idx.events.Pairwise (fun a b => a.Index ≤ b.Index)) ∧
    (idx.chunks.Perm (ofType fileTypeChunks (env.entriesRead dataDir authServers ns sid)) ∧
      idx.chunks.Pairwise (fun a b => a.Offset ≤ b.Offset)) ∧
    (∀ kind ∈ [SessionCommandEvent, SessionDiskEvent, SessionNetworkEvent],
      ∃ bucket, idx.enhancedEvents.lookup kind = some bucket ∧
        bucket.Perm (ofType kind (env.entriesRead dataDir authServers ns sid)) ∧
        bucket.Pairwise (fun a b => a.Index ≤ b.Index)) ∧
    idx.enhancedEvents.map Prod.fst
      = [SessionCommandEvent, SessionDiskEvent, SessionNetworkEvent] ∧
    (∀ e ∈ env.entriesRead dataDir authServers ns sid, knownType e.EntryType) := by
  obtain ⟨index, ⟨he, hc, hx⟩, hknown, _, hidx⟩ :=
    readSessionIndex_ok env ss dataDir authServers ns sid idx h
  subst hidx
  refine ⟨⟨?_, ?_⟩, ⟨?_, ?_⟩, ?_, ?_, hknown⟩
  · show (ss.sort _ index.events).Perm _
    rw [← he]
    exact ss.perm _ _
  · exact ss.sorted (fun e => e.Index) index.events
  · show (ss.sort _ index.chunks).Perm _
    rw [← hc]
    exact ss.perm _ _
  · exact ss.sorted (fun e => e.Offset) index.chunks
  · intro kind hkind
    simp only [sessionIndex.sort, hx, List.map_cons, List.map_nil]
    simp only [List.mem_cons, List.mem_singleton, List.not_mem_nil, or_false] at hkind
    rcases hkind with hk | hk | hk
    · subst hk
      exact ⟨_, by simp [List.lookup], ss.perm _ _, ss.sorted (fun e => e.Index) _⟩
    · subst hk
      exact ⟨_, by simp [List.lookup, SessionCommandEvent, SessionDiskEvent],
        ss.perm _ _, ss.sorted (fun e => e.Index) _⟩
    · subst hk
      exact ⟨_, by simp [List.lookup, SessionCommandEvent, SessionDiskEvent,
        SessionNetworkEvent], ss.perm _ _, ss.sorted (fun e => e.Index) _⟩
  · simp only [sessionIndex.sort, hx, List.map_cons, List.map_nil]


/-- Witness of C18: the index built from the sample index files, whose five lines
are not in order. -/
theorem readSessionIndex_buckets_sorted_witness :
    readSessionIndex sampleIndexEnv sampleSort "/data" ["playbacks", "node1"] "default" "abc"
      = Except.ok sampleBuiltIndex ∧
    (sampleBuiltIndex.events.Perm (ofType fileTypeEvents
        (sampleIndexEnv.entriesRead "/data" ["playbacks", "node1"] "default" "abc")) ∧
      sampleBuiltIndex.events.Pairwise (fun a b => a.Index ≤ b.Index)) ∧
    (sampleBuiltIndex.chunks.Perm (ofType fileTypeChunks
        (sampleIndexEnv.entriesRead "/data" ["playbacks", "node1"] "default" "abc")) ∧
      sampleBuiltIndex.chunks.Pairwise (fun a b => a.Offset ≤ b.Offset)) ∧
    (∀ kind ∈ [SessionCommandEvent, SessionDiskEvent, SessionNetworkEvent],
      ∃ bucket, sampleBuiltIndex.enhancedEvents.lookup kind = some bucket ∧
        bucket.Perm (ofType kind
          (sampleIndexEnv.entriesRead "/data" ["playbacks", "node1"] "default" "abc")) ∧
        bucket.Pairwise (fun a b => a.Index ≤ b.Index)) ∧
    sampleBuiltIndex.enhancedEvents.map Prod.fst
      = [SessionCommandEvent, SessionDiskEvent, SessionNetworkEvent] ∧
    (∀ e ∈ sampleIndexEnv.entriesRead "/data" ["playbacks", "node1"] "default" "abc",
      knownType e.EntryType) :=
  ⟨rfl, readSessionIndex_buckets_sorted sampleIndexEnv sampleSort "/data"
    ["playbacks", "node1"] "default" "abc" sampleBuiltIndex rfl⟩

/-- The scanner loop of `readIndexEntries` succeeds when every line decodes. -/
theorem readIndexEntriesLoop_total (env : IndexEnv) (authServer : String) :
    ∀ (lines : List String) (acc : List indexEntry),
      (∀ line ∈ lines, ∃ entry, env.jsonUnmarshal line = Except.ok entry) →
      ∃ entries, readIndexEntriesLoop env authServer lines acc = Except.ok entries := by
  intro lines
  induction lines with
  | nil =>
    intro acc _
    exact ⟨acc, rfl⟩
  | cons line rest ih =>
    intro acc hall
    obtain ⟨entry, hentry⟩ := hall line (List.mem_cons_self _ _)
    obtain ⟨entries, hent⟩ := ih (acc ++ [{ entry with authServer := authServer }])
      (fun l hl => hall l (List.mem_cons_of_mem _ hl))
    exact ⟨entries, by simp only [readIndexEntriesLoop, hentry, hent]⟩

/-- The bucket loop succeeds on entries of known types and leaves the list of
index files as it was. -/
theorem readSessionIndexEntries_total :
    ∀ (entries : List indexEntry) (index : sessionIndex),
      (∀ e ∈ entries, knownType e.EntryType) →
      ∃ index1, readSessionIndexEntries index entries = Except.ok index1 ∧
        index1.indexFiles = index.indexFiles := by
  intro entries
  induction entries with
  | nil =>
    intro index _
    exact ⟨index, rfl, rfl⟩
  | cons entry rest ih =>
    intro index hall
    have hrest : ∀ e ∈ rest, knownType e.EntryType :=
      fun e he => hall e (List.mem_cons_of_mem _ he)
    by_cases h1 : entry.EntryType = fileTypeEvents
    · obtain ⟨index1, hok, hfiles⟩ := ih { index with events := index.events ++ [entry] } hrest
      refine ⟨index1, ?_, hfiles⟩
      simp only [readSessionIndexEntries]
      rw [if_pos h1, hok]
    · by_cases h2 : entry.EntryType = fileTypeChunks
      · obtain ⟨index1, hok, hfiles⟩ := ih { index with chunks := index.chunks ++ [entry] } hrest
        refine ⟨index1, ?_, hfiles⟩
        simp only [readSessionIndexEntries]
        rw [if_neg h1, if_pos h2, hok]
      · have h3 : entry.EntryType = SessionCommandEvent ∨
            entry.EntryType = SessionDiskEvent ∨ entry.EntryType = SessionNetworkEvent := by
          rcases hall entry (List.mem_cons_self _ _) with h | h | h
          · exact absurd h h1
          · exact absurd h h2
          · exact h
        obtain ⟨index1, hok, hfiles⟩ := ih
          { index with
            enhancedEvents := appendEnhanced index.enhancedEvents entry.EntryType entry } hrest
        refine ⟨index1, ?_, hfiles⟩
        simp only [readSessionIndexEntries]
        rw [if_neg h1, if_neg h2, if_pos h3, hok]

/-- The loop over the origin servers succeeds when every origin either has no
index file or has one that parses: it skips the former, lists the latter, and
changes nothing when all are absent. -/
theorem readSessionIndexLoop_total (env : IndexEnv) (dataDir ns sid : String) :
    ∀ (servers : List String) (index : sessionIndex),
      (∀ a ∈ servers, env.absent dataDir ns sid a ∨ env.parses dataDir ns sid a) →
      ∃ index1, readSessionIndexLoop env dataDir ns sid servers index = Except.ok index1 ∧
        index.indexFiles.length ≤ index1.indexFiles.length ∧
        ((∃ a ∈ servers, env.parses dataDir ns sid a) → index1.indexFiles.length ≠ 0) ∧
        ((∀ a ∈ servers, env.absent dataDir ns sid a) → index1 = index) := by
  intro servers
  induction servers with
  | nil =>
    intro index _
    refine ⟨index, rfl, Nat.le_refl _, ?_, fun _ => rfl⟩
    rintro ⟨a, ha, _⟩
    exact absurd ha (List.not_mem_nil a)
  | cons authServer rest ih =>
    intro index hall
    have hrest : ∀ a ∈ rest, env.absent dataDir ns sid a ∨ env.parses dataDir ns sid a :=
      fun a ha => hall a (List.mem_cons_of_mem _ ha)
    rcases hall authServer (List.mem_cons_self _ _) with ⟨err, hopen, hnf⟩ | ⟨lines, hopen, hlines⟩
    · simp only [IndexEnv.indexFileName] at hopen
      obtain ⟨index1, hok, hle, hsome, hnone⟩ := ih index hrest
      refine ⟨index1, ?_, hle, ?_, ?_⟩
      · simp only [readSessionIndexLoop, hopen, hnf, Bool.not_true, Bool.false_eq_true, if_false]
        exact hok
      · rintro ⟨a, ha, hp⟩
        rcases List.mem_cons.mp ha with heq | hmem
        · subst heq
          obtain ⟨lines, hopen2, _⟩ := hp
          simp only [IndexEnv.indexFileName] at hopen2
          rw [hopen] at hopen2
          cases hopen2
        · exact hsome ⟨a, hmem, hp⟩
      · intro habs
        exact hnone (fun a ha => habs a (List.mem_cons_of_mem _ ha))
    · simp only [IndexEnv.indexFileName] at hopen
      obtain ⟨entries, hent⟩ := readIndexEntriesLoop_total env authServer lines []
        (fun l hl => (hlines l hl).imp (fun _ h => h.1))
      have hentries := readIndexEntriesLoop_ok env authServer lines [] entries hent
      have hknown : ∀ e ∈ entries, knownType e.EntryType := by
        intro e he
        rw [hentries, List.nil_append] at he
        obtain ⟨line, hline, hdec⟩ := List.mem_filterMap.mp he
        obtain ⟨entry, hentry, hk⟩ := hlines line hline
        simp only [IndexEnv.entryOfLine, hentry, Option.some.injEq] at hdec
        rw [← hdec]
        exact hk
      obtain ⟨index2, hbk, hfiles⟩ := readSessionIndexEntries_total entries
        { index with indexFiles := index.indexFiles ++
            [env.filepathJoin [dataDir, authServer, SessionLogsDir, ns, sid ++ ".index"]] } hknown
      obtain ⟨index1, hok, hle, _, _⟩ := ih index2 hrest
      have hlen : index.indexFiles.length + 1 ≤ index1.indexFiles.length := by
        rw [hfiles] at hle
        simpa using hle
      refine ⟨index1, ?_, by omega, fun _ => by omega, ?_⟩
      · have hent2 : readIndexEntries env lines authServer = Except.ok entries := hent
        simp only [readSessionIndexLoop, hopen, hent2, hbk]
        exact hok
      · intro habs
        obtain ⟨err, hopen2, _⟩ := habs authServer (List.mem_cons_self _ _)
        simp only [IndexEnv.indexFileName] at hopen2
        rw [hopen] at hopen2
        cases hopen2

/-- C19: `readSessionIndex` returns NotFound whenever none of the listed origins has an
index file for the session, the empty list of origins included; when every origin
either has no index file or has one that parses, and at least one has one, it
returns an index and no error, also when the files have no lines: the origins
without an index file are skipped. -/
theorem readSessionIndex_not_found_without_file (env : IndexEnv) (ss : SortSlice)
    (dataDir : String) (authServers : List String) (ns sid : String) :
    ((∀ a ∈ authServers, env.absent dataDir ns sid a) →
      ∃ msg, readSessionIndex env ss dataDir authServers ns sid
        = Except.error (Error.notFound msg)) ∧
    ((∀ a ∈ authServers, env.absent dataDir ns sid a ∨ env.parses dataDir ns sid a) →
      (∃ a ∈ authServers, env.parses dataDir ns sid a) →
      ∃ idx, readSessionIndex env ss dataDir authServers ns sid = Except.ok idx) := by
  constructor
  · intro habs
    obtain ⟨index1, hok, _, _, hnone⟩ := readSessionIndexLoop_total env dataDir ns sid
      authServers
      { sid := sid, dataDir := dataDir, ns := ns, events := [], chunks := [], indexFiles := [],
        enhancedEvents :=
          [(SessionCommandEvent, []), (SessionDiskEvent, []), (SessionNetworkEvent, [])] }
      (fun a ha => Or.inl (habs a ha))
    have h1 := hnone habs
    subst h1
    refine ⟨s!"session {sid} not found", ?_⟩
    unfold readSessionIndex
    simp only [hok]
    rfl
  · intro hall hsome
    obtain ⟨index1, hok, _, hlen, _⟩ := readSessionIndexLoop_total env dataDir ns sid
      authServers
      { sid := sid, dataDir := dataDir, ns := ns, events := [], chunks := [], indexFiles := [],
        enhancedEvents :=
          [(SessionCommandEvent, []), (SessionDiskEvent, []), (SessionNetworkEvent, [])] }
      hall
    refine ⟨index1.sort ss, ?_⟩
    unfold readSessionIndex
    simp only [hok]
    rw [if_neg (hlen hsome)]

/-- Witness of C19 on the sample index files: no file at the playback origin alone,
one file once the origin `node1` is listed too. -/
theorem readSessionIndex_not_found_without_file_witness :
    (∃ msg, readSessionIndex sampleIndexEnv sampleSort "/data" ["playbacks"] "default" "abc"
      = Except.error (Error.notFound msg)) ∧
    (∃ idx, readSessionIndex sampleIndexEnv sampleSort "/data" ["playbacks", "node1"]
      "default" "abc" = Except.ok idx) := by
  have habsent : sampleIndexEnv.absent "/data" "default" "abc" "playbacks" :=
    ⟨Error.notFound "/data/playbacks/sessions/default/abc.index", rfl, rfl⟩
  have hparses : sampleIndexEnv.parses "/data" "default" "abc" "node1" := by
    refine ⟨["e2", "c3", "e0", "c0", "net"], rfl, ?_⟩
    intro line hline
    simp only [List.mem_cons, List.mem_singleton, List.not_mem_nil, or_false] at hline
    rcases hline with h | h | h | h | h <;> subst h
    · exact ⟨_, rfl, Or.inl rfl⟩
    · exact ⟨_, rfl, Or.inr (Or.inl rfl)⟩
    · exact ⟨_, rfl, Or.inl rfl⟩
    · exact ⟨_, rfl, Or.inr (Or.inl rfl)⟩
    · exact ⟨_, rfl, Or.inr (Or.inr (Or.inr (Or.inr rfl)))⟩
  refine ⟨?_, ?_⟩
  · apply (readSessionIndex_not_found_without_file sampleIndexEnv sampleSort "/data"
      ["playbacks"] "default" "abc").1
    intro a ha
    rw [List.mem_singleton.mp ha]
    exact habsent
  · apply (readSessionIndex_not_found_without_file sampleIndexEnv sampleSort "/data"
      ["playbacks", "node1"] "default" "abc").2
    · intro a ha
      simp only [List.mem_cons, List.mem_singleton, List.not_mem_nil, or_false] at ha
      rcases ha with h | h <;> subst h
      · exact Or.inl habsent
      · exact Or.inr hparses
    · exact ⟨"node1", by simp, hparses⟩

/-! ## Theorems: searching events -/

/-- C20: `SearchEvents` passes to the selected store (the external store if
configured, else the local log) the effective limit and every other argument
unchanged: the default `EventsIterationLimit` when the caller's limit is `<= 0`
(the default being within the maximum), the caller's limit when it is positive
and within the maximum; when the caller's limit exceeds the maximum (which is
not negative) it returns BadParameter and no call reaches the external store or
the local log. -/
theorem SearchEvents_effective_limit (l : AuditLogStores) (args : SearchEventsArgs) :
    (args.limit ≤ 0 → l.EventsIterationLimit ≤ l.EventsMaxIterationLimit →
      (∀ ext, l.ExternalLog = some ext →
        SearchEvents l args
          = ([StoreCall.externalSearchEvents { args with limit := l.EventsIterationLimit }],
              ext.SearchEvents { args with limit := l.EventsIterationLimit })) ∧
      (∀ loc, l.ExternalLog = none → l.localLog = some loc →
        SearchEvents l args
          = ([StoreCall.localSearchEvents { args with limit := l.EventsIterationLimit }],
              loc.SearchEvents { args with limit := l.EventsIterationLimit }))) ∧
    (0 < args.limit → args.limit ≤ l.EventsMaxIterationLimit →
      (∀ ext, l.ExternalLog = some ext →
        SearchEvents l args = ([StoreCall.externalSearchEvents args], ext.SearchEvents args)) ∧
      (∀ loc, l.ExternalLog = none → l.localLog = some loc →
        SearchEvents l args = ([StoreCall.localSearchEvents args], loc.SearchEvents args))) ∧
    (0 ≤ l.EventsMaxIterationLimit → l.EventsMaxIterationLimit < args.limit →
      (SearchEvents l args).1 = [] ∧
      ∃ msg, (SearchEvents l args).2 = Except.error (Error.badParameter msg)) := by
  refine ⟨?_, ?_, ?_⟩
  · intro hlim hdef
    have hgt : ¬ l.EventsIterationLimit > l.EventsMaxIterationLimit := not_lt.mpr hdef
    constructor
    · intro ext hext
      simp only [SearchEvents, hlim, if_true, hgt, if_false, hext]
    · intro loc hext hloc
      simp only [SearchEvents, hlim, if_true, hgt, if_false, hext, hloc]
  · intro hpos hmax
    have hle : ¬ args.limit ≤ 0 := not_le.mpr hpos
    have hgt : ¬ args.limit > l.EventsMaxIterationLimit := not_lt.mpr hmax
    constructor
    · intro ext hext
      simp only [SearchEvents, hle, if_false, hgt, hext]
    · intro loc hext hloc
      simp only [SearchEvents, hle, if_false, hgt, hext, hloc]
  · intro hmax hover
    have hle : ¬ args.limit ≤ 0 := not_le.mpr (lt_of_le_of_lt hmax hover)
    have hgt : args.limit > l.EventsMaxIterationLimit := hover
    have hres : SearchEvents l args
        = ([], Except.error (Error.badParameter
            s!"limit {args.limit} exceeds max iteration limit")) := by
      simp only [SearchEvents, hle, if_false, hgt, if_true]
    rw [hres]
    exact ⟨rfl, _, rfl⟩

/-- Witness of C20 on the sample stores: a search without a limit reaches the local
log with the default limit 500, and a search with limit 10001 reaches no store. -/
theorem SearchEvents_effective_limit_witness :
    (SearchEvents sampleStores sampleSearch).1
      = [StoreCall.localSearchEvents { sampleSearch with limit := 500 }] ∧
    (SearchEvents sampleStores { sampleSearch with limit := 10001 }).1 = [] ∧
    ∃ msg, (SearchEvents sampleStores { sampleSearch with limit := 10001 }).2
      = Except.error (Error.badParameter msg) := by
  have h1 := ((SearchEvents_effective_limit sampleStores sampleSearch).1
    (by decide) (by decide)).2 _ rfl rfl
  have h2 := (SearchEvents_effective_limit sampleStores
    { sampleSearch with limit := 10001 }).2.2 (by decide) (by decide)
  exact ⟨by rw [h1]; rfl, h2.1, h2.2⟩

/-! ## Theorems: emitting, searching sessions and closing -/

/-- C21 at a failing input: on the sample audit log (default limit 500, maximum
10000, no external store) `SearchSessionEvents` hands the caller's limit to the
local log as it is, 0 instead of the default and 10001 instead of a BadParameter,
while `SearchEvents` on the same log replaces 0 by 500 and rejects 10001 without
calling a store. -/
theorem SearchSessionEvents_passes_limit_through :
    (SearchSessionEvents sampleLive sampleSessionSearch).1.calls
      = [LogCall.SearchSessionEvents Receiver.localLog sampleSessionSearch] ∧
    sampleSessionSearch.limit = 0 ∧
    (SearchSessionEvents sampleLive { sampleSessionSearch with limit := 10001 }).1.calls
      = [LogCall.SearchSessionEvents Receiver.localLog
          { sampleSessionSearch with limit := 10001 }] ∧
    (SearchSessionEvents sampleLive { sampleSessionSearch with limit := 10001 }).2
      = Except.ok ([], "10001") ∧
    (SearchEvents sampleLive.stores sampleSearch).1
      = [StoreCall.localSearchEvents { sampleSearch with limit := 500 }] ∧
    (SearchEvents sampleLive.stores { sampleSearch with limit := 10001 }).1 = [] :=
  ⟨rfl, rfl, rfl, rfl, rfl, rfl⟩

/-- C22 at a failing input: the local log of the sample fails to emit;
`EmitAuditEvent` returns the wrapped error and leaves the counter
`AuditFailedEmit` at its value.  No call of `EmitAuditEvent` changes the counter. -/
theorem EmitAuditEvent_failure_not_counted :
    (EmitAuditEvent sampleFailingLive "session.start").2
      = some (traceWrap (Error.other "disk full")) ∧
    sampleFailingLive.AuditFailedEmit = 0 ∧
    (EmitAuditEvent sampleFailingLive "session.start").1.AuditFailedEmit = 0 ∧
    (∀ (l : AuditLogLive) (event : String),
      (EmitAuditEvent l event).1.AuditFailedEmit = l.AuditFailedEmit) := by
  refine ⟨rfl, rfl, rfl, ?_⟩
  intro l event
  unfold EmitAuditEvent
  simp only
  split <;> rfl

/-- `Close` on an audit log with neither an external store nor a local log: it
cancels the context and closes nothing. -/
theorem Close_without_logs (m : AuditLogLive) (hext : m.ExternalLog = none)
    (hloc : m.localLog = none) :
    Close m = ({ m with closing := true, calls := m.calls ++ [LogCall.cancel] }, none) := by
  obtain ⟨ext, loc, closing, counter, lim, mx, calls⟩ := m
  simp only at hext hloc
  subst hext
  subst hloc
  rfl

/-- `EmitAuditEvent` on an audit log with neither an external store nor a local
log: the event goes to the discard log. -/
theorem EmitAuditEvent_without_logs (m : AuditLogLive) (event : String)
    (hext : m.ExternalLog = none) (hloc : m.localLog = none) :
    EmitAuditEvent m event
      = ({ m with calls := m.calls ++ [LogCall.EmitAuditEvent Receiver.discardLog event] },
          none) := by
  obtain ⟨ext, loc, closing, counter, lim, mx, calls⟩ := m
  simp only at hext hloc
  subst hext
  subst hloc
  rfl

/-- C23: for an audit log with no external store, after `Close` the local log
pointer is nil and `getLocalLog` returns the discard log; `Close` returns nil;
every `EmitAuditEvent` after `Close` goes to the discard log, returns nil and
leaves the pointer nil; and a second `Close` returns nil and only cancels the
context again, without closing the local log a second time. -/
theorem Close_then_discard (l : AuditLogLive) (hext : l.ExternalLog = none) :
    (Close l).2 = none ∧
    (Close l).1.localLog = none ∧
    (Close l).1.ExternalLog = none ∧
    (getLocalLog (Close l).1).1 = Receiver.discardLog ∧
    (∀ event, (EmitAuditEvent (Close l).1 event).2 = none ∧
      (EmitAuditEvent (Close l).1 event).1.calls
        = (Close l).1.calls ++ [LogCall.EmitAuditEvent Receiver.discardLog event] ∧
      (EmitAuditEvent (Close l).1 event).1.localLog = none) ∧
    (Close (Close l).1).2 = none ∧
    (Close (Close l).1).1.calls = (Close l).1.calls ++ [LogCall.cancel] ∧
    (Close (Close l).1).1.localLog = none := by
  have hnil : (Close l).1.localLog = none := by
    unfold Close
    simp only [hext]
    cases l.localLog <;> rfl
  have hext1 : (Close l).1.ExternalLog = none := by
    unfold Close
    simp only [hext]
    cases l.localLog <;> rfl
  have hres : (Close l).2 = none := by
    unfold Close
    simp only [hext]
    cases l.localLog <;> rfl
  refine ⟨hres, hnil, hext1, ?_, ?_, ?_, ?_, ?_⟩
  · simp only [getLocalLog, hnil]
  · intro event
    rw [EmitAuditEvent_without_logs _ event hext1 hnil]
    exact ⟨rfl, rfl, hnil⟩
  · rw [Close_without_logs _ hext1 hnil]
  · rw [Close_without_logs _ hext1 hnil]
  · rw [Close_without_logs _ hext1 hnil]
    exact hnil

/-- Witness of C23 on the sample audit log. -/
theorem Close_then_discard_witness :
    sampleLive.ExternalLog = none ∧
    (Close sampleLive).1.calls = [LogCall.cancel, LogCall.Close Receiver.localLog] ∧
    (Close sampleLive).2 = none ∧
    (Close sampleLive).1.localLog = none ∧
    (Close sampleLive).1.ExternalLog = none ∧
    (getLocalLog (Close sampleLive).1).1 = Receiver.discardLog ∧
    (∀ event, (EmitAuditEvent (Close sampleLive).1 event).2 = none ∧
      (EmitAuditEvent (Close sampleLive).1 event).1.calls
        = (Close sampleLive).1.calls ++ [LogCall.EmitAuditEvent Receiver.discardLog event] ∧
      (EmitAuditEvent (Close sampleLive).1 event).1.localLog = none) ∧
    (Close (Close sampleLive).1).2 = none ∧
    (Close (Close sampleLive).1).1.calls = (Close sampleLive).1.calls ++ [LogCall.cancel] ∧
    (Close (Close sampleLive).1).1.localLog = none :=
  ⟨rfl, rfl, Close_then_discard sampleLive rfl⟩

/-- C24 at a failing input: after `Close` of the sample audit log (no external
store) the local log pointer is nil; `SearchEvents` and `SearchSessionEvents`
call their method on that nil pointer, which is a run-time panic, where
`EmitAuditEvent` goes through `getLocalLog` and reaches the discard log. -/
theorem Search_after_Close_nil_local_log :
    (Close sampleLive).1.localLog = none ∧
    (Close sampleLive).1.ExternalLog = none ∧
    SearchEvents (Close sampleLive).1.stores sampleSearch
      = ([], Except.error (Error.panic "nil pointer dereference")) ∧
    (SearchSessionEvents (Close sampleLive).1 sampleSessionSearch).2
      = Except.error (Error.panic "nil pointer dereference") ∧
    (EmitAuditEvent (Close sampleLive).1 "session.start").2 = none :=
  ⟨rfl, rfl, rfl, rfl, rfl⟩

/-! ## Theorems: corrupt lines of an event file -/

/-- The scanner loop stops with the wrapped decode error at the first line, at or
above `afterN`, that `json.Unmarshal` rejects, when no line at or above `afterN`
is the JSON value `null`. -/
theorem fetchSessionEventsLoop_corrupt (r : Recording) (afterN : Int) :
    ∀ (ls : List String) (lineNo : Nat) (retval : List EventFields),
      (∀ p ∈ ls.enumFrom lineNo, ¬ ((p.1 : Int) < afterN) →
        r.jsonUnmarshal p.2 ≠ Except.ok none) →
      (∃ p ∈ ls.enumFrom lineNo, ¬ ((p.1 : Int) < afterN) ∧
        ∃ e, r.jsonUnmarshal p.2 = Except.error e) →
      ∃ e, fetchSessionEventsLoop r afterN lineNo ls retval = Except.error (traceWrap e) := by
  intro ls
  induction ls with
  | nil =>
    intro lineNo retval _ hbad
    obtain ⟨p, hp, _⟩ := hbad
    simp at hp
  | cons line rest ih =>
    intro lineNo retval hnonnull hbad
    have hrestnn : ∀ p ∈ rest.enumFrom (lineNo + 1), ¬ ((p.1 : Int) < afterN) →
        r.jsonUnmarshal p.2 ≠ Except.ok none :=
      fun p hp => hnonnull p (by rw [List.enumFrom_cons]; exact List.mem_cons_of_mem _ hp)
    obtain ⟨p, hp, hge, e, he⟩ := hbad
    rw [List.enumFrom_cons] at hp
    by_cases hskip : (lineNo : Int) < afterN
    · have hprest : p ∈ rest.enumFrom (lineNo + 1) := by
        rcases List.mem_cons.mp hp with heq | hmem
        · subst heq
          exact absurd hskip hge
        · exact hmem
      simp only [fetchSessionEventsLoop]
      rw [if_pos hskip]
      exact ih (lineNo + 1) retval hrestnn ⟨p, hprest, hge, e, he⟩
    · simp only [fetchSessionEventsLoop]
      rw [if_neg hskip]
      cases hdec : r.jsonUnmarshal line with
      | error err => exact ⟨err, rfl⟩
      | ok decoded =>
        cases decoded with
        | none =>
          exact absurd hdec (hnonnull (lineNo, line)
            (by rw [List.enumFrom_cons]; exact List.mem_cons_self _ _) hskip)
        | some fields =>
          have hprest : p ∈ rest.enumFrom (lineNo + 1) := by
            rcases List.mem_cons.mp hp with heq | hmem
            · subst heq
              rw [hdec] at he
              cases he
            · exact hmem
          exact ih (lineNo + 1) _ hrestnn ⟨p, hprest, hge, e, he⟩

/-- C25 at a concrete input: the first line of the first event file of the sample
is corrupt; with `afterN = 1` that line is below `afterN`, it is skipped without
being decoded, and `fetchSessionEvents` returns the event of line 1 and no error. -/
theorem fetchSessionEvents_skips_corrupt_line_below_afterN :
    sampleCorruptRecording.openEvents "/data/playbacks/sessions/default/e0"
      = EventFile.lines ["\x7bbad", "b"] ∧
    sampleCorruptRecording.jsonUnmarshal "\x7bbad"
      = Except.error (Error.other "unexpected end of JSON input") ∧
    fetchSessionEvents sampleCorruptRecording "/data/playbacks/sessions/default/e0" 1
      = Except.ok [[(EventCursor, FieldValue.int 1), ("event", FieldValue.json "b")]] ∧
    GetSessionEvents sampleCorruptRecording "default" "abc" 1 true
      = Except.ok [[(EventCursor, FieldValue.int 1), ("event", FieldValue.json "b")],
          [(EventCursor, FieldValue.int 0), ("event", FieldValue.json "c")],
          [(EventCursor, FieldValue.int 1), ("event", FieldValue.json "d")]] :=
  ⟨rfl, rfl, rfl, rfl⟩

/-- When reading the floor file fails, the local path of `GetSessionEvents` returns
that error, wrapped. -/
theorem GetSessionEventsLocal_floor_error (r : Recording) (ns sid : String)
    (idx : sessionIndex) (afterN : Int) (f : Nat) (hfl : f < idx.events.length) (e : Error)
    (hdl : r.downloadSession ns sid = none)
    (hidx : r.readSessionIndex ns sid = Except.ok idx)
    (hf : idx.eventsFile afterN = Except.ok f)
    (hfetch : fetchSessionEvents r (idx.eventsFileName r.filepathJoin f hfl) afterN
      = Except.error (traceWrap e)) :
    GetSessionEventsLocal r ns sid afterN = Except.error (traceWrap (traceWrap e)) := by
  have hloop : ∀ (k : Nat) (h : f + k = idx.events.length),
      GetSessionEventsLoop r idx f afterN k f h []
        = Except.error (traceWrap (traceWrap e)) := by
    intro k h
    cases k with
    | zero => omega
    | succ k =>
      simp only [GetSessionEventsLoop]
      rw [if_pos trivial, hfetch]
      rfl
  unfold GetSessionEventsLocal
  rw [hdl, hidx]
  simp only [hf]
  rw [dif_pos (Nat.le_of_lt hfl)]
  exact hloop _ _

/-- C25 as amended: for every event file that opens and has, at a line number
`>= afterN`, a line that `json.Unmarshal` rejects, `fetchSessionEvents` returns a
wrapped decode error (no line at or above `afterN` being the JSON value `null`),
and so does the local path of `GetSessionEvents` when that file is its floor
file; lines below `afterN` are skipped without being decoded. -/
theorem fetchSessionEvents_corrupt_line (r : Recording) (fileName : String) (afterN : Int)
    (ls : List String)
    (hopen : r.openEvents fileName = EventFile.lines ls)
    (hnonnull : ∀ p ∈ ls.enum, ¬ ((p.1 : Int) < afterN) → r.jsonUnmarshal p.2 ≠ Except.ok none)
    (hbad : ∃ p ∈ ls.enum, ¬ ((p.1 : Int) < afterN) ∧ ∃ e, r.jsonUnmarshal p.2 = Except.error e) :
    ∃ e, fetchSessionEvents r fileName afterN = Except.error (traceWrap e) ∧
      ∀ (ns sid : String) (idx : sessionIndex) (f : Nat) (hfl : f < idx.events.length)
        (includePrintEvents : Bool),
        ns ≠ "" → r.ExternalLog = none → r.downloadSession ns sid = none →
        r.readSessionIndex ns sid = Except.ok idx → idx.eventsFile afterN = Except.ok f →
        idx.eventsFileName r.filepathJoin f hfl = fileName →
        GetSessionEvents r ns sid afterN includePrintEvents
          = Except.error (traceWrap (traceWrap e)) := by
  have hfetch : ∃ e, fetchSessionEvents r fileName afterN = Except.error (traceWrap e) := by
    unfold fetchSessionEvents
    rw [hopen]
    exact fetchSessionEventsLoop_corrupt r afterN ls 0 [] hnonnull hbad
  obtain ⟨e, he⟩ := hfetch
  refine ⟨e, he, ?_⟩
  intro ns sid idx f hfl inc hns hext hdl hidx hf hname
  rw [← hname] at he
  unfold GetSessionEvents
  rw [if_neg hns, hext]
  simp only [ite_self]
  exact GetSessionEventsLocal_floor_error r ns sid idx afterN f hfl e hdl hidx hf he

/-- Witness of C25 as amended: read from line 0, the corrupt first line of the
sample file is decoded and both calls fail. -/
theorem fetchSessionEvents_corrupt_line_witness :
    sampleCorruptRecording.openEvents "/data/playbacks/sessions/default/e0"
      = EventFile.lines ["\x7bbad", "b"] ∧
    ∃ e, fetchSessionEvents sampleCorruptRecording "/data/playbacks/sessions/default/e0" 0
        = Except.error (traceWrap e) ∧
      GetSessionEvents sampleCorruptRecording "default" "abc" 0 true
        = Except.error (traceWrap (traceWrap e)) := by
  obtain ⟨e, he, hget⟩ := fetchSessionEvents_corrupt_line sampleCorruptRecording
    "/data/playbacks/sessions/default/e0" 0 ["\x7bbad", "b"] rfl
    (by
      intro p hp _
      simp only [List.enum, List.enumFrom, List.mem_cons, List.mem_singleton,
        List.not_mem_nil, or_false] at hp
      rcases hp with h | h <;> subst h <;> simp [sampleCorruptRecording])
    ⟨(0, "\x7bbad"), by simp [List.enum, List.enumFrom], by decide, _, rfl⟩
  exact ⟨rfl, e, he,
    hget "default" "abc" sampleIndex 0 (by decide) true (by decide) rfl rfl rfl rfl rfl⟩

/-! ## Theorems: configuration of the audit log -/

/-- The early defaults: what they keep and what they set. -/
theorem setEarlyDefaults_fields (d : ConfigDefaults) (a : AuditLogConfig) :
    ((a.setEarlyDefaults d).DataDir = a.DataDir ∧ (a.setEarlyDefaults d).ServerID = a.ServerID ∧
      (a.setEarlyDefaults d).UID = a.UID ∧ (a.setEarlyDefaults d).GID = a.GID ∧
      (a.setEarlyDefaults d).UploadHandler = a.UploadHandler ∧
      (a.setEarlyDefaults d).ExternalLog = a.ExternalLog ∧
      (a.setEarlyDefaults d).PlaybackRecycleTTL = a.PlaybackRecycleTTL ∧
      (a.setEarlyDefaults d).Context = a.Context) ∧
    ((a.RotationPeriod ≠ 0 → (a.setEarlyDefaults d).RotationPeriod = a.RotationPeriod) ∧
      (a.Clock ≠ none → (a.setEarlyDefaults d).Clock = a.Clock) ∧
      (a.UIDGenerator ≠ none → (a.setEarlyDefaults d).UIDGenerator = a.UIDGenerator) ∧
      (a.DirMask ≠ none → (a.setEarlyDefaults d).DirMask = a.DirMask)) ∧
    ((a.setEarlyDefaults d).Clock ≠ none ∧ (a.setEarlyDefaults d).UIDGenerator ≠ none ∧
      (a.setEarlyDefaults d).DirMask ≠ none ∧
      (d.LogRotationPeriod ≠ 0 → (a.setEarlyDefaults d).RotationPeriod ≠ 0)) := by
  obtain ⟨dataDir, serverID, rot, clock, uidgen, gid, uid, mask, ttl, handler, ext, ctx⟩ := a
  by_cases h1 : clock = none <;> by_cases h2 : uidgen = none <;> by_cases h3 : rot = 0 <;>
    by_cases h4 : mask = none <;>
    simp [AuditLogConfig.setEarlyDefaults, h1, h2, h3, h4]

/-- The late defaults: what they keep and what they set. -/
theorem setLateDefaults_fields (d : ConfigDefaults) (a : AuditLogConfig) :
    ((a.setLateDefaults d).DataDir = a.DataDir ∧ (a.setLateDefaults d).ServerID = a.ServerID ∧
      (a.setLateDefaults d).UID = a.UID ∧ (a.setLateDefaults d).GID = a.GID ∧
      (a.setLateDefaults d).UploadHandler = a.UploadHandler ∧
      (a.setLateDefaults d).ExternalLog = a.ExternalLog ∧
      (a.setLateDefaults d).RotationPeriod = a.RotationPeriod ∧
      (a.setLateDefaults d).Clock = a.Clock ∧
      (a.setLateDefaults d).UIDGenerator = a.UIDGenerator ∧
      (a.setLateDefaults d).DirMask = a.DirMask) ∧
    ((a.PlaybackRecycleTTL ≠ 0 →
        (a.setLateDefaults d).PlaybackRecycleTTL = a.PlaybackRecycleTTL) ∧
      (a.Context ≠ none → (a.setLateDefaults d).Context = a.Context)) ∧
    ((a.setLateDefaults d).Context ≠ none ∧
      (d.PlaybackRecycleTTL ≠ 0 → (a.setLateDefaults d).PlaybackRecycleTTL ≠ 0)) := by
  obtain ⟨dataDir, serverID, rot, clock, uidgen, gid, uid, mask, ttl, handler, ext, ctx⟩ := a
  by_cases h1 : ttl = 0 <;> by_cases h2 : ctx = none <;>
    simp [AuditLogConfig.setLateDefaults, h1, h2]

/-- C26: `CheckAndSetDefaults` returns BadParameter whenever DataDir is empty, ServerID
is empty, or exactly one of UID and GID is set; when it succeeds, DataDir,
ServerID, UID, GID, UploadHandler and ExternalLog are unchanged, every field the
caller set (non-zero, non-nil) keeps its value, Clock, UIDGenerator, DirMask and
Context are set, and RotationPeriod and PlaybackRecycleTTL are non-zero when the
default constants are. -/
theorem CheckAndSetDefaults_validates_and_fills (d : ConfigDefaults) (a : AuditLogConfig) :
    ((a.DataDir = "" ∨ a.ServerID = "" ∨ (a.GID ≠ none ∧ a.UID = none) ∨
        (a.UID ≠ none ∧ a.GID = none)) →
      ∃ msg, (a.CheckAndSetDefaults d).2 = some (Error.badParameter msg)) ∧
    ((a.CheckAndSetDefaults d).2 = none →
      ((a.CheckAndSetDefaults d).1.DataDir = a.DataDir ∧
        (a.CheckAndSetDefaults d).1.ServerID = a.ServerID ∧
        (a.CheckAndSetDefaults d).1.UID = a.UID ∧
        (a.CheckAndSetDefaults d).1.GID = a.GID ∧
        (a.CheckAndSetDefaults d).1.UploadHandler = a.UploadHandler ∧
        (a.CheckAndSetDefaults d).1.ExternalLog = a.ExternalLog) ∧
      ((a.RotationPeriod ≠ 0 → (a.CheckAndSetDefaults d).1.RotationPeriod = a.RotationPeriod) ∧
        (a.PlaybackRecycleTTL ≠ 0 →
          (a.CheckAndSetDefaults d).1.PlaybackRecycleTTL = a.PlaybackRecycleTTL) ∧
        (a.Clock ≠ none → (a.CheckAndSetDefaults d).1.Clock = a.Clock) ∧
        (a.UIDGenerator ≠ none → (a.CheckAndSetDefaults d).1.UIDGenerator = a.UIDGenerator) ∧
        (a.DirMask ≠ none → (a.CheckAndSetDefaults d).1.DirMask = a.DirMask) ∧
        (a.Context ≠ none → (a.CheckAndSetDefaults d).1.Context = a.Context)) ∧
      ((a.CheckAndSetDefaults d).1.Clock ≠ none ∧
        (a.CheckAndSetDefaults d).1.UIDGenerator ≠ none ∧
        (a.CheckAndSetDefaults d).1.DirMask ≠ none ∧
        (a.CheckAndSetDefaults d).1.Context ≠ none ∧
        (d.LogRotationPeriod ≠ 0 → (a.CheckAndSetDefaults d).1.RotationPeriod ≠ 0) ∧
        (d.PlaybackRecycleTTL ≠ 0 → (a.CheckAndSetDefaults d).1.PlaybackRecycleTTL ≠ 0))) := by
  obtain ⟨⟨e1, e2, e3, e4, e5, e6, e7, e8⟩, ⟨k1, k2, k3, k4⟩, ⟨s1, s2, s3, s4⟩⟩ :=
    setEarlyDefaults_fields d a
  obtain ⟨⟨l1, l2, l3, l4, l5, l6, l7, l8, l9, l10⟩, ⟨m1, m2⟩, ⟨t1, t2⟩⟩ :=
    setLateDefaults_fields d (a.setEarlyDefaults d)
  by_cases hd : a.DataDir = ""
  · refine ⟨fun _ => ⟨"missing parameter DataDir", by
      simp only [AuditLogConfig.CheckAndSetDefaults, hd, if_true]⟩, ?_⟩
    intro h
    simp only [AuditLogConfig.CheckAndSetDefaults, hd, if_true] at h
    cases h
  by_cases hs : a.ServerID = ""
  · refine ⟨fun _ => ⟨"missing parameter ServerID", by
      simp only [AuditLogConfig.CheckAndSetDefaults, hd, if_false, hs, if_true]⟩, ?_⟩
    intro h
    simp only [AuditLogConfig.CheckAndSetDefaults, hd, if_false, hs, if_true] at h
    cases h
  by_cases hu : a.UploadHandler = none
  · refine ⟨fun _ => ⟨"missing parameter UploadHandler", by
      simp only [AuditLogConfig.CheckAndSetDefaults, hd, if_false, hs, hu, if_true]⟩, ?_⟩
    intro h
    simp only [AuditLogConfig.CheckAndSetDefaults, hd, if_false, hs, hu, if_true] at h
    cases h
  by_cases hg : (a.GID ≠ none ∧ a.UID = none) ∨ (a.UID ≠ none ∧ a.GID = none)
  · have hg1 : ((a.setEarlyDefaults d).GID ≠ none ∧ (a.setEarlyDefaults d).UID = none) ∨
        ((a.setEarlyDefaults d).UID ≠ none ∧ (a.setEarlyDefaults d).GID = none) := by
      rw [e3, e4]
      exact hg
    have hres : a.CheckAndSetDefaults d
        = (a.setEarlyDefaults d,
            some (Error.badParameter "if UID or GID is set, both should be specified")) := by
      simp only [AuditLogConfig.CheckAndSetDefaults, hd, if_false, hs, hu]
      rw [if_pos hg1]
    rw [hres]
    refine ⟨fun _ => ⟨_, rfl⟩, ?_⟩
    intro h
    cases h
  · have hg1 : ¬ (((a.setEarlyDefaults d).GID ≠ none ∧ (a.setEarlyDefaults d).UID = none) ∨
        ((a.setEarlyDefaults d).UID ≠ none ∧ (a.setEarlyDefaults d).GID = none)) := by
      rw [e3, e4]
      exact hg
    have hres : a.CheckAndSetDefaults d = ((a.setEarlyDefaults d).setLateDefaults d, none) := by
      simp only [AuditLogConfig.CheckAndSetDefaults, hd, if_false, hs, hu]
      rw [if_neg hg1]
    rw [hres]
    constructor
    · intro h
      rcases h with h | h | h | h
      · exact absurd h hd
      · exact absurd h hs
      · exact absurd (Or.inl h) hg
      · exact absurd (Or.inr h) hg
    · intro _
      refine ⟨⟨?_, ?_, ?_, ?_, ?_, ?_⟩, ⟨?_, ?_, ?_, ?_, ?_, ?_⟩, ⟨?_, ?_, ?_, ?_, ?_, ?_⟩⟩
      · rw [l1, e1]
      · rw [l2, e2]
      · rw [l3, e3]
      · rw [l4, e4]
      · rw [l5, e5]
      · rw [l6, e6]
      · intro h
        rw [l7, k1 h]
      · intro h
        rw [m1 (by rw [e7]; exact h), e7]
      · intro h
        rw [l8, k2 h]
      · intro h
        rw [l9, k3 h]
      · intro h
        rw [l10, k4 h]
      · intro h
        rw [m2 (by rw [e8]; exact h), e8]
      · rw [l8]
        exact s1
      · rw [l9]
        exact s2
      · rw [l10]
        exact s3
      · exact t1
      · intro h
        rw [l7]
        exact s4 h
      · exact t2

/-- Witness of C26 on the sample configuration, which sets the mandatory fields and a
rotation period of one hour: the call succeeds, keeps the rotation period and fills in
the playback TTL, the clock and the context. -/
theorem CheckAndSetDefaults_validates_and_fills_witness :
    (sampleConfig.CheckAndSetDefaults sampleDefaults).2 = none ∧
    (sampleConfig.CheckAndSetDefaults sampleDefaults).1.RotationPeriod = 3600000000000 ∧
    (sampleConfig.CheckAndSetDefaults sampleDefaults).1.PlaybackRecycleTTL = 10800000000000 ∧
    (sampleConfig.CheckAndSetDefaults sampleDefaults).1.DataDir = sampleConfig.DataDir ∧
    (sampleConfig.CheckAndSetDefaults sampleDefaults).1.Clock ≠ none ∧
    (sampleConfig.CheckAndSetDefaults sampleDefaults).1.Context ≠ none :=
  ⟨rfl, rfl, rfl,
    ((CheckAndSetDefaults_validates_and_fills sampleDefaults sampleConfig).2 rfl).1.1,
    ((CheckAndSetDefaults_validates_and_fills sampleDefaults sampleConfig).2 rfl).2.2.1,
    ((CheckAndSetDefaults_validates_and_fills sampleDefaults sampleConfig).2 rfl).2.2.2.2.2.1⟩

/-! ## Theorems: the PKCS11 key identifier -/

theorem KeyType_of_pkcs11Prefix (buf : List Byte) :
    KeyType ( pkcs11Prefix ++ buf) = PrivateKeyType.PKCS11 := by
  simp [KeyType]

theorem KeyType_sampleUsedKeys :
    sampleUsedKeys.map KeyType
      = [PrivateKeyType.PKCS11, PrivateKeyType.PKCS11, PrivateKeyType.PKCS11, PrivateKeyType.RAW] := by
  decide

/-- C30: for every key identifier `k` that `json.Marshal` encodes as `buf` and
`json.Unmarshal` decodes from `buf` again (the contract of the JSON library for a
struct of two valid UTF-8 strings), `k.marshal()` succeeds with the pkcs11 prefix
followed by `buf`, the output starts with the prefix and is classified as a PKCS11
key, and `parseKeyID` of the output returns `k` without error. -/
theorem parseKeyID_marshal_roundtrip (env : KeystoreEnv) (k : keyID) (buf : List Byte)
    (hmarshal : env.jsonMarshal k = Except.ok buf)
    (hunmarshal : env.jsonUnmarshal buf = Except.ok k) :
    ∃ out, k.marshal env = Except.ok out ∧
      out = pkcs11Prefix ++ buf ∧
      out.take pkcs11Prefix.length = pkcs11Prefix ∧
      KeyType out = PrivateKeyType.PKCS11 ∧
      parseKeyID env out = Except.ok k := by
  refine ⟨ pkcs11Prefix ++ buf, ?_, rfl, ?_, KeyType_of_pkcs11Prefix buf, ?_⟩
  · simp only [keyID.marshal, hmarshal]
  · simp
  · simp only [parseKeyID, KeyType_of_pkcs11Prefix, ne_eq, not_true_eq_false, if_false,
      List.drop_left, hunmarshal]

theorem parseKeyID_marshal_roundtrip_witness :
    sampleKeystoreEnv.jsonMarshal sampleKeyID = Except.ok [1] ∧
    sampleKeystoreEnv.jsonUnmarshal [1] = Except.ok sampleKeyID ∧
    ∃ out, sampleKeyID.marshal sampleKeystoreEnv = Except.ok out ∧
      out = pkcs11Prefix ++ [1] ∧
      out.take pkcs11Prefix.length = pkcs11Prefix ∧
      KeyType out = PrivateKeyType.PKCS11 ∧
      parseKeyID sampleKeystoreEnv out = Except.ok sampleKeyID :=
  ⟨rfl, rfl, parseKeyID_marshal_roundtrip sampleKeystoreEnv sampleKeyID [1] rfl rfl⟩

/-! ## Theorems: deleting the unused keys of the HSM -/

theorem getSigner_error_of_not_pkcs11 (env : KeystoreEnv) (faults : HsmFaults)
    (hostUUID : String) (hsm : Hsm) (rawKey : List Byte)
    (h : KeyType rawKey ≠ PrivateKeyType.PKCS11) :
    getSigner env faults hostUUID hsm rawKey
      = Except.error (Error.badParameter "cannot get raw signer from PKCS11 KeyStore") := by
  unfold getSigner
  cases hk : KeyType rawKey with
  | RAW => rfl
  | PKCS11 => exact absurd hk h

theorem resolvedPublicKeys_cons_error (env : KeystoreEnv) (faults : HsmFaults)
    (hostUUID : String) (hsm : Hsm) (usedKey : List Byte) (rest : List (List Byte)) (err : Error)
    (h : getSigner env faults hostUUID hsm usedKey = Except.error err) :
    resolvedPublicKeys env faults hostUUID hsm (usedKey :: rest)
      = resolvedPublicKeys env faults hostUUID hsm rest := by
  simp only [resolvedPublicKeys, List.filterMap_cons, h]

theorem resolvedPublicKeys_cons_ok (env : KeystoreEnv) (faults : HsmFaults)
    (hostUUID : String) (hsm : Hsm) (usedKey : List Byte) (rest : List (List Byte))
    (signer : HsmKey)
    (h : getSigner env faults hostUUID hsm usedKey = Except.ok signer) :
    resolvedPublicKeys env faults hostUUID hsm (usedKey :: rest)
      = signer.pub :: resolvedPublicKeys env faults hostUUID hsm rest := by
  simp only [resolvedPublicKeys, List.filterMap_cons, h]

theorem mem_resolvedPublicKeys (env : KeystoreEnv) (faults : HsmFaults)
    (hostUUID : String) (hsm : Hsm) (usedKeys : List (List Byte)) (pk : PublicKey) :
    pk ∈ resolvedPublicKeys env faults hostUUID hsm usedKeys ↔
      ∃ usedKey ∈ usedKeys, KeyType usedKey = PrivateKeyType.PKCS11 ∧
        ∃ signer, getSigner env faults hostUUID hsm usedKey = Except.ok signer ∧
          signer.pub = pk := by
  simp only [resolvedPublicKeys, List.mem_filterMap]
  constructor
  · rintro ⟨usedKey, hmem, h⟩
    cases hs : getSigner env faults hostUUID hsm usedKey with
    | error err => rw [hs] at h; simp at h
    | ok signer =>
      rw [hs] at h
      simp only [Option.some.injEq] at h
      refine ⟨usedKey, hmem, ?_, signer, hs, h⟩
      by_contra hk
      rw [getSigner_error_of_not_pkcs11 env faults hostUUID hsm usedKey hk] at hs
      cases hs
  · rintro ⟨usedKey, hmem, _, signer, hs, hpub⟩
    exact ⟨usedKey, hmem, by rw [hs]; simp only [hpub]⟩

theorem usedPublicKeysLoop_ok (env : KeystoreEnv) (faults : HsmFaults)
    (hostUUID : String) (hsm : Hsm) :
    ∀ (usedKeys : List (List Byte)) (acc ups : List PublicKey),
      usedPublicKeysLoop env faults hostUUID hsm usedKeys acc = Except.ok ups →
      ups = acc ++ resolvedPublicKeys env faults hostUUID hsm usedKeys := by
  intro usedKeys
  induction usedKeys with
  | nil =>
    intro acc ups h
    simp only [usedPublicKeysLoop, Except.ok.injEq] at h
    simp [resolvedPublicKeys, h]
  | cons usedKey rest ih =>
    intro acc ups h
    unfold usedPublicKeysLoop at h
    by_cases hk : KeyType usedKey ≠ PrivateKeyType.PKCS11
    · rw [if_pos hk] at h
      rw [resolvedPublicKeys_cons_error env faults hostUUID hsm usedKey rest _
        (getSigner_error_of_not_pkcs11 env faults hostUUID hsm usedKey hk)]
      exact ih acc ups h
    · rw [if_neg hk] at h
      cases hs : getSigner env faults hostUUID hsm usedKey with
      | error err =>
        rw [hs] at h
        simp only at h
        rw [resolvedPublicKeys_cons_error env faults hostUUID hsm usedKey rest err hs]
        by_cases hnf : err.isNotFound = true
        · rw [if_pos hnf] at h
          exact ih acc ups h
        · rw [if_neg hnf] at h
          cases h
      | ok signer =>
        rw [hs] at h
        simp only at h
        rw [resolvedPublicKeys_cons_ok env faults hostUUID hsm usedKey rest signer hs]
        cases hp : signer.pub with
        | other algorithm =>
          rw [hp] at h
          cases h
        | rsa n e =>
          rw [hp] at h
          simp only at h
          rw [ih _ ups h]
          simp

theorem deleteUnusedLoop_eq_diff (faults : HsmFaults) (ups : List PublicKey)
    (hdel : ∀ key, faults.delete key = none) :
    ∀ (signers : List HsmKey) (hsm : Hsm),
      deleteUnusedLoop faults ups signers hsm
        = hsm.diff (signers.filter (fun s => !keyIsUsed ups s)) := by
  intro signers
  induction signers with
  | nil => intro hsm; simp [deleteUnusedLoop]
  | cons signer rest ih =>
    intro hsm
    unfold deleteUnusedLoop
    by_cases hu : keyIsUsed ups signer = true
    · rw [if_pos hu, ih hsm]
      simp [List.filter_cons, hu]
    · rw [if_neg hu, hdel signer]
      simp only
      rw [ih (hsm.erase signer)]
      simp [List.filter_cons, hu]

theorem diff_filter_self {α : Type} [DecidableEq α] (p : α → Bool) :
    ∀ l : List α, l.diff (l.filter p) = l.filter (fun a => !p a) := by
  intro l
  induction l with
  | nil => simp
  | cons a l ih =>
    by_cases hp : p a = true
    · simp [List.filter_cons, hp, ih]
    · have hnot : a ∉ l.filter p := by
        intro hmem
        exact hp (List.mem_filter.mp hmem).2
      simp only [Bool.not_eq_true] at hp
      have h1 : (a :: l).filter p = l.filter p := by simp [List.filter_cons, hp]
      have h2 : (a :: l).filter (fun a => !p a) = a :: l.filter (fun a => !p a) := by
        simp [List.filter_cons, hp]
      rw [h1, h2, List.cons_diff_of_not_mem hnot, ih]

theorem keyIsUsed_eq (ups : List PublicKey) (key : HsmKey) :
    keyIsUsed ups key =
      ((match key.pub with
        | PublicKey.other _ => true
        | PublicKey.rsa _ _ => false) || decide (key.pub ∈ ups)) := by
  unfold keyIsUsed
  cases hp : key.pub with
  | other a => rfl
  | rsa n e =>
    rw [Bool.eq_iff_iff]
    simp only [List.any_eq_true, decide_eq_true_eq, Bool.false_or]
    constructor
    · rintro ⟨x, hx, rfl⟩
      exact hx
    · intro hx
      exact ⟨_, hx, rfl⟩

theorem DeleteUnusedKeys_eq_filter (env : KeystoreEnv) (faults : HsmFaults)
    (hostUUID : String) (hsm : Hsm) (usedKeys : List (List Byte))
    (hnil : (DeleteUnusedKeys env faults hostUUID hsm usedKeys).2 = none)
    (hdel : ∀ key, faults.delete key = none) :
    (DeleteUnusedKeys env faults hostUUID hsm usedKeys).1
      = hsm.filter (keptKey env faults hostUUID hsm usedKeys) := by
  unfold DeleteUnusedKeys at hnil ⊢
  cases hl : usedPublicKeysLoop env faults hostUUID hsm usedKeys [] with
  | error err => rw [hl] at hnil; simp at hnil
  | ok ups =>
    have hups := usedPublicKeysLoop_ok env faults hostUUID hsm usedKeys [] ups hl
    rw [List.nil_append] at hups
    rw [hl] at hnil
    simp only at hnil ⊢
    cases hf : FindKeyPairs faults hsm hostUUID with
    | error err => rw [hf] at hnil; simp at hnil
    | ok signers =>
      simp only
      have hsig : signers = hsm.filter (fun k => decide (k.label = hostUUID)) := by
        unfold FindKeyPairs at hf
        cases hff : faults.findKeyPairs with
        | some err => rw [hff] at hf; cases hf
        | none =>
          rw [hff] at hf
          simp only [Except.ok.injEq] at hf
          exact hf.symm
      rw [deleteUnusedLoop_eq_diff faults ups hdel, hsig, List.filter_filter,
        diff_filter_self]
      apply List.filter_congr
      intro key _
      rw [keyIsUsed_eq, hups]
      unfold keptKey
      by_cases hlab : key.label = hostUUID <;> simp [hlab]

/-- C27: for every content of the HSM and every `usedKeys`, when `DeleteUnusedKeys`
returns nil and every deletion succeeds: a key labelled with the host UUID whose RSA
public key is the public key of a PKCS11 entry of `usedKeys` that resolves on this host
is still present; an RSA key labelled with the host UUID whose public key matches no such
entry is gone; a key that is not an RSA key and a key with another label are untouched
(as many copies as before); and nothing else changes: the HSM afterwards holds exactly
the kept keys, in their order. -/
theorem DeleteUnusedKeys_deletes_exactly_unused (env : KeystoreEnv) (faults : HsmFaults)
    (hostUUID : String) (hsm : Hsm) (usedKeys : List (List Byte))
    (hnil : (DeleteUnusedKeys env faults hostUUID hsm usedKeys).2 = none)
    (hdel : ∀ key, faults.delete key = none) :
    (∀ key ∈ hsm, key.label = hostUUID → (∃ n e, key.pub = PublicKey.rsa n e) →
      (∃ usedKey ∈ usedKeys, KeyType usedKey = PrivateKeyType.PKCS11 ∧
        ∃ signer, getSigner env faults hostUUID hsm usedKey = Except.ok signer ∧
          signer.pub = key.pub) →
      key ∈ (DeleteUnusedKeys env faults hostUUID hsm usedKeys).1 ∧
      (DeleteUnusedKeys env faults hostUUID hsm usedKeys).1.count key = hsm.count key) ∧
    (∀ key ∈ hsm, key.label = hostUUID → (∃ n e, key.pub = PublicKey.rsa n e) →
      (¬ ∃ usedKey ∈ usedKeys, KeyType usedKey = PrivateKeyType.PKCS11 ∧
        ∃ signer, getSigner env faults hostUUID hsm usedKey = Except.ok signer ∧
          signer.pub = key.pub) →
      key ∉ (DeleteUnusedKeys env faults hostUUID hsm usedKeys).1) ∧
    (∀ key, (key.label ≠ hostUUID ∨ ∃ algorithm, key.pub = PublicKey.other algorithm) →
      (key ∈ (DeleteUnusedKeys env faults hostUUID hsm usedKeys).1 ↔ key ∈ hsm) ∧
      (DeleteUnusedKeys env faults hostUUID hsm usedKeys).1.count key = hsm.count key) ∧
    (DeleteUnusedKeys env faults hostUUID hsm usedKeys).1
      = hsm.filter (keptKey env faults hostUUID hsm usedKeys) := by
  have heq := DeleteUnusedKeys_eq_filter env faults hostUUID hsm usedKeys hnil hdel
  rw [heq]
  refine ⟨?_, ?_, ?_, rfl⟩
  · intro key hmem _ _ hused
    have hkept : keptKey env faults hostUUID hsm usedKeys key = true := by
      unfold keptKey
      have := (mem_resolvedPublicKeys env faults hostUUID hsm usedKeys key.pub).mpr hused
      simp [this]
    exact ⟨List.mem_filter.mpr ⟨hmem, hkept⟩, List.count_filter hkept⟩
  · intro key _ hlab hrsa hunused hin
    have hkept := (List.mem_filter.mp hin).2
    obtain ⟨n, e, hp⟩ := hrsa
    unfold keptKey at hkept
    rw [← mem_resolvedPublicKeys env faults hostUUID hsm usedKeys key.pub] at hunused
    simp [hlab, hp] at hkept
    rw [hp] at hunused
    exact hunused hkept
  · intro key hcase
    have hkept : keptKey env faults hostUUID hsm usedKeys key = true := by
      unfold keptKey
      rcases hcase with hlab | ⟨a, hp⟩
      · simp [hlab]
      · simp [hp]
    exact ⟨by simp [List.mem_filter, hkept], List.count_filter hkept⟩

theorem DeleteUnusedKeys_deletes_exactly_unused_witness :
    (DeleteUnusedKeys sampleKeystoreEnv sampleFaults "host-1" sampleHsm sampleUsedKeys).2 = none ∧
    (DeleteUnusedKeys sampleKeystoreEnv sampleFaults "host-1" sampleHsm sampleUsedKeys).1
      = [ { id := [17], label := "host-1", pub := PublicKey.rsa 3233 17 },
          { id := [85], label := "host-1", pub := PublicKey.other "ecdsa" },
          { id := [34], label := "host-2", pub := PublicKey.rsa 8633 5 } ] ∧
    (DeleteUnusedKeys sampleKeystoreEnv sampleFaults "host-1" sampleHsm sampleUsedKeys).1
      = sampleHsm.filter (keptKey sampleKeystoreEnv sampleFaults "host-1" sampleHsm sampleUsedKeys) :=
  ⟨rfl, rfl,
    (DeleteUnusedKeys_deletes_exactly_unused sampleKeystoreEnv sampleFaults "host-1" sampleHsm
      sampleUsedKeys rfl (fun _ => rfl)).2.2.2⟩

/-! ## Theorems: the ticker of the cloud users service -/

/-- The ticker duration of a positive `Interval` whose product with 7 fits 64 bits. -/
theorem tickerDuration_of_fits (Interval : Int) (hpos : 0 < Interval)
    (hfit : Interval * 7 < 2 ^ 63) : tickerDuration Interval = Interval * 7 / 6 := by
  unfold tickerDuration wrapInt64
  have hmod : (Interval * 7 + 2 ^ 63) % 2 ^ 64 = Interval * 7 + 2 ^ 63 :=
    Int.emod_eq_of_lt (by omega) (by omega)
  rw [hmod, Int.add_sub_cancel]
  exact Int.tdiv_eq_ediv (by omega) (by omega)

/-- C28 at a failing input: `Interval` = 1317624576693539402 ns (about 41.8 years, a
positive `time.Duration`) is the least `Interval` whose product with 7 exceeds the
largest `int64`. The product wraps around to -9223372036854775802 and the ticker
duration `n = Interval*7/6` is -1537228672809129300 ns: it is negative, `6n/7` lies
below `Interval` (`6n < 7*Interval`), and no period lies in the range `[6n/7, n)`.
For every positive `Interval` up to 1317624576693539401 ns the product fits, and every
period of whole nanoseconds in `[6n/7, n)` is at least `Interval`. -/
theorem tickerDuration_wraps_below_Interval :
    (0 : Int) < 1317624576693539402 ∧ (1317624576693539402 : Int) < 2 ^ 63 ∧
    (1317624576693539401 : Int) * 7 = 2 ^ 63 - 1 ∧
    wrapInt64 (1317624576693539402 * 7) = -9223372036854775802 ∧
    tickerDuration 1317624576693539402 = -1537228672809129300 ∧
    tickerDuration 1317624576693539402 < 0 ∧
    6 * tickerDuration 1317624576693539402 < 7 * 1317624576693539402 ∧
    (∀ p : Int, inSeventhJitterRange (tickerDuration 1317624576693539402) p = false) ∧
    (∀ Interval : Int, 0 < Interval → Interval ≤ 1317624576693539401 →
      tickerDuration Interval = Interval * 7 / 6 ∧
      Interval ≤ tickerDuration Interval ∧
      ∀ p : Int, inSeventhJitterRange (tickerDuration Interval) p = true → Interval ≤ p) ∧
    tickerDuration 1000000000 = 1166666666 ∧
    inSeventhJitterRange (tickerDuration 1000000000) 1000000000 = true ∧
    inSeventhJitterRange (tickerDuration 1000000000) 999999999 = false := by
  have hn : tickerDuration 1317624576693539402 = -1537228672809129300 := by decide
  refine ⟨by decide, by decide, by decide, by decide, hn, by decide, by decide, ?_, ?_,
    by decide, by decide, by decide⟩
  · intro p
    rw [hn]
    simp only [inSeventhJitterRange, decide_eq_false_iff_not]
    omega
  · intro Interval hpos hmax
    have hfit : Interval * 7 < 2 ^ 63 := by omega
    have hd := tickerDuration_of_fits Interval hpos hfit
    refine ⟨hd, by rw [hd]; omega, ?_⟩
    intro p hp
    rw [hd] at hp
    simp only [inSeventhJitterRange, decide_eq_true_eq] at hp
    omega

/-! ## Theorems: termination of the chunk loop -/

theorem getSessionChunk_length_le (r : Recording) (ns sid : String) (offsetBytes maxBytes : Int)
    (out : List Byte) (h : getSessionChunk r ns sid offsetBytes maxBytes = Except.ok out) :
    out.length ≤ maxBytes.toNat := by
  unfold getSessionChunk at h
  split at h
  · cases h
  · split at h
    · cases h
    · split at h
      · cases h
      · split at h
        · cases h
        · simp only at h
          split at h
          · cases h
          · simp only [Except.ok.injEq] at h
            rw [← h, List.length_take]
            exact Nat.min_le_left _ _

theorem GetSessionChunkLoop_step (r : Recording) (ns sid : String) (data : List Byte)
    (offsetBytes maxBytes : Int) (hint : maxBytes < 2 ^ 63) (out : List Byte)
    (hget : getSessionChunk r ns sid offsetBytes maxBytes = Except.ok out)
    (hgo : ¬ (((data ++ out).length : Int) = maxBytes ∨ out.length = 0)) :
    1 ≤ out.length ∧ (out.length : Int) ≤ maxBytes ∧
    wrapInt64 (maxBytes - out.length) = maxBytes - out.length ∧
    0 ≤ wrapInt64 (maxBytes - out.length) ∧
    wrapInt64 (maxBytes - out.length) < maxBytes := by
  have hle := getSessionChunk_length_le r ns sid offsetBytes maxBytes out hget
  have hne : out.length ≠ 0 := fun h0 => hgo (Or.inr h0)
  have hpos : 1 ≤ out.length := Nat.one_le_iff_ne_zero.mpr hne
  have hM : (out.length : Int) ≤ maxBytes := by omega
  have hw : wrapInt64 (maxBytes - out.length) = maxBytes - out.length :=
    wrapInt64_of_range _ (by omega) (by omega)
  rw [hw]
  exact ⟨hpos, hM, rfl, by omega, by omega⟩

theorem GetSessionChunkLoop_returns (r : Recording) (ns sid : String) :
    ∀ (fuel : Nat) (data : List Byte) (offsetBytes maxBytes : Int),
      maxBytes < 2 ^ 63 → maxBytes.toNat < fuel →
      ∃ res, GetSessionChunkLoop r ns sid fuel data offsetBytes maxBytes = some res := by
  intro fuel
  induction fuel with
  | zero => intro data o M _ hf; omega
  | succ fuel ih =>
    intro data o M hint hf
    unfold GetSessionChunkLoop
    cases hget : getSessionChunk r ns sid o M with
    | error err =>
      simp only
      by_cases he : err = Error.eof
      · exact ⟨_, by rw [if_pos he]⟩
      · exact ⟨_, by rw [if_neg he]⟩
    | ok out =>
      simp only
      by_cases hstop : (((data ++ out).length : Int) = M ∨ out.length = 0)
      · exact ⟨_, by rw [if_pos hstop]⟩
      · rw [if_neg hstop]
        obtain ⟨hpos, hM, hw, h0, hlt⟩ := GetSessionChunkLoop_step r ns sid data o M hint out hget hstop
        exact ih _ _ _ (by omega) (by omega)

theorem GetSessionChunkLoop_more_fuel (r : Recording) (ns sid : String) :
    ∀ (fuel k : Nat) (data : List Byte) (offsetBytes maxBytes : Int)
      (res : Except Error (List Byte)),
      GetSessionChunkLoop r ns sid fuel data offsetBytes maxBytes = some res →
      GetSessionChunkLoop r ns sid (fuel + k) data offsetBytes maxBytes = some res := by
  intro fuel
  induction fuel with
  | zero => intro k data o M res h; simp [GetSessionChunkLoop] at h
  | succ fuel ih =>
    intro k data o M res h
    rw [Nat.add_right_comm]
    unfold GetSessionChunkLoop at h ⊢
    cases hget : getSessionChunk r ns sid o M with
    | error err => rw [hget] at h; exact h
    | ok out =>
      rw [hget] at h
      simp only at h ⊢
      by_cases hstop : (((data ++ out).length : Int) = M ∨ out.length = 0)
      · rw [if_pos hstop] at h ⊢; exact h
      · rw [if_neg hstop] at h ⊢
        exact ih k _ _ _ res h

/-- C29: for every recording, every `offsetBytes` and every `maxBytes` of an `int` (also
`maxBytes <= 0`, offsets past the end of the data and chunk files that do not tile the
stream) the loop of `GetSessionChunk` terminates: with more than `maxBytes` iterations
allowed (one is enough for `maxBytes <= 0`) the loop returns and so does
`GetSessionChunk`, with the same result however many more iterations are allowed; and an
iteration that does not return has read at least one byte and at most `maxBytes` bytes,
so that the remaining budget does not wrap around, is not negative and is strictly less
than before. -/
theorem GetSessionChunk_terminates (r : Recording) (ns sid : String) (data : List Byte)
    (offsetBytes maxBytes : Int) (hint : maxBytes < 2 ^ 63) :
    (∃ res, ∀ fuel, maxBytes.toNat < fuel →
      GetSessionChunkLoop r ns sid fuel data offsetBytes maxBytes = some res) ∧
    (∃ res, ∀ fuel, maxBytes.toNat < fuel →
      GetSessionChunk r fuel ns sid offsetBytes maxBytes = some res) ∧
    (∀ out, getSessionChunk r ns sid offsetBytes maxBytes = Except.ok out →
      ¬ (((data ++ out).length : Int) = maxBytes ∨ out.length = 0) →
      1 ≤ out.length ∧ (out.length : Int) ≤ maxBytes ∧
      wrapInt64 (maxBytes - out.length) = maxBytes - out.length ∧
      0 ≤ wrapInt64 (maxBytes - out.length) ∧
      wrapInt64 (maxBytes - out.length) < maxBytes) := by
  have hloop : ∀ d : List Byte, ∃ res, ∀ fuel, maxBytes.toNat < fuel →
      GetSessionChunkLoop r ns sid fuel d offsetBytes maxBytes = some res := by
    intro d
    obtain ⟨res, hres⟩ := GetSessionChunkLoop_returns r ns sid (maxBytes.toNat + 1) d
      offsetBytes maxBytes hint (Nat.lt_succ_self _)
    refine ⟨res, fun fuel hf => ?_⟩
    have hk : fuel = maxBytes.toNat + 1 + (fuel - (maxBytes.toNat + 1)) := by omega
    rw [hk]
    exact GetSessionChunkLoop_more_fuel r ns sid _ _ d offsetBytes maxBytes res hres
  refine ⟨hloop data, ?_, ?_⟩
  · unfold GetSessionChunk
    cases hd : r.downloadSession ns sid with
    | some err => exact ⟨_, fun _ _ => rfl⟩
    | none => exact hloop []
  · intro out hget hgo
    exact GetSessionChunkLoop_step r ns sid data offsetBytes maxBytes hint out hget hgo

theorem GetSessionChunk_terminates_witness :
    (4 : Int) < 2 ^ 63 ∧
    (∃ res, ∀ fuel, (4 : Int).toNat < fuel →
      GetSessionChunk sampleRecording fuel "default" "abc" 2 4 = some res) ∧
    GetSessionChunk sampleRecording 5 "default" "abc" 2 4 = some (Except.ok [13, 21, 22, 23]) :=
  ⟨by decide,
    (GetSessionChunk_terminates sampleRecording "default" "abc" [] 2 4 (by decide)).2.1,
    rfl⟩

end Teleport
